import Mathlib

/-!
# Text-based chatroom: shallow embedding of the server, the client and their
# shared utilities

Conventions of the embedding.

* A C string is the list of its bytes before the NUL terminator (`List Nat`,
  each byte in `0..255`, no byte `0`).  A `char*` that may be `NULL` is an
  `Option (List Nat)`.  The capacity of a fixed array is modelled where the
  code can exceed it: `fgets` reads at most its limit, and a `sprintf` or
  `strcat` that writes past `messageBuffer` (`handle_client_message`,
  `update_active_client_list`) or past the buffer of `handle_user_message`
  is an undefined execution (`none`).  The array `nameBuffer` of
  `resolve_client_name` is too small for every request; see
  `nameBuffer_size`.
* Plain `char` is signed (x86-64 System V ABI, the platform of the sources):
  `charVal` gives the value a byte has when read through a `char`.
* `int` arithmetic wraps to 32 bits (`wrap32`), in `hash_input` and in the
  increment of a message counter (`volatile int`), as the compiled code does
  on the platform of the sources.
* The singly linked client list is a `List Client`; a `Client*` into the list
  is the position of the node.  `free` and the semaphores have no effect on
  the sequential behaviour and are not part of the functions; the calls on the
  server's two locks are listed separately (section "The server's locks").
* A `FILE*` is the byte sequence still to be read (or written so far) plus its
  error indicator.
* A function whose C execution dereferences `NULL`, writes past the end of
  an array or recurses for ever returns `none`.
-/

namespace Chatroom

/-! ## Constants (sharedutil.h, server.h, serverutil.h) -/

/-- Bytes of an ASCII string literal. -/
def str (s : String) : List Nat := s.toList.map Char.toNat

def MAX_BUF : Nat := 512
def NUM_CLIENT_STATS : Int := 3
def NUM_SERVER_STATS : Int := 6

/-! ### enum ErrorCodes -/
def NORMAL : Int := 0
def USAGE : Int := 1
def COMMS : Int := 2
def KICKED : Int := 3
def FAILAUTH : Int := 4

/-! ### enum HashedCommands -/
def WHO : Int := 1078
def NAME_TAKEN : Int := 2213043
def AUTH : Int := 2844
def MSG : Int := 1013
def KICK : Int := 2958
def LIST : Int := 3042
def SAY : Int := 1031
def ENTER : Int := 8740
def LEAVE : Int := 8931
def NAME : Int := 2991

/-! ### enum Stats -/
def STAT_SAY : Int := 0
def STAT_KICK : Int := 1
def STAT_LIST : Int := 2
def STAT_AUTH : Int := 3
def STAT_NAME : Int := 4
def STAT_LEAVE : Int := 5

/-! ## Data model -/

/-- A `FILE*` opened for reading: the bytes not yet read and the error
indicator tested by `ferror`. -/
structure ReadHandle where
  pending : List Nat
  error : Bool
deriving DecidableEq, Repr

/-- A `FILE*` opened for writing: the bytes written so far and the error
indicator tested by `ferror`. -/
structure WriteHandle where
  written : List Nat
  error : Bool
deriving DecidableEq, Repr

/-- The `Client` struct of sharedutil.h (without `next`, which is the list
structure, and without `writeLock`). -/
structure Client where
  name : List Nat
  authString : List Nat
  readHandle : ReadHandle
  writeHandle : WriteHandle
  stats : List Int
  isCommunicating : Int
deriving DecidableEq, Repr

/-- The `Server` struct of server.h, together with the process's standard
output and standard error, which the server's functions print to. -/
structure Server where
  authString : List Nat
  clientList : List Client
  stats : List Int
  stdout : List Nat
  stderr : List Nat
deriving DecidableEq, Repr

/-! ## C library functions -/

/-- Value of a byte read through a (signed) `char`. -/
def charVal (b : Nat) : Int := if b < 128 then (b : Int) else (b : Int) - 256

/-- Two's complement wrap of an `int` result to 32 bits. -/
def wrap32 (x : Int) : Int := (x + 2147483648) % 4294967296 - 2147483648

/-- The C string stored in a byte array: the bytes before the first NUL. -/
def cstr (bytes : List Nat) : List Nat := bytes.takeWhile (fun c => c != 0)

/-- The function `strtok` scanning from position `p` (the argument of a first
call, or the position saved by the previous call when the argument is `NULL`):
skips leading delimiters, returns the token (`none` for `NULL`) and the
position saved for the next call. -/
def strtok (p : List Nat) (delim : List Nat) : Option (List Nat) × List Nat :=
  match p.dropWhile (fun c => decide (c ∈ delim)) with
  | [] => (none, [])
  | c :: rest =>
    (some ((c :: rest).takeWhile (fun c => !decide (c ∈ delim))),
      ((c :: rest).dropWhile (fun c => !decide (c ∈ delim))).drop 1)

/-- The C string found at `p` after `strtok(p, delim)` has overwritten the
delimiter that ends the first token with NUL: the skipped leading delimiters
followed by the token. -/
def strtok_buffer (p : List Nat) (delim : List Nat) : List Nat :=
  p.takeWhile (fun c => decide (c ∈ delim)) ++
    (p.dropWhile (fun c => decide (c ∈ delim))).takeWhile (fun c => !decide (c ∈ delim))

/-- Bytes consumed by one `fgets` call that may store at most `k` characters:
up to and including the first newline. -/
def fgets_take : Nat → List Nat → List Nat
  | 0, _ => []
  | _, [] => []
  | k + 1, c :: cs => if c = 10 then [c] else c :: fgets_take k cs

/-- The call `fgets(buffer, n, stream)`: `none` (NULL) at end of file. -/
def fgets (n : Nat) (h : ReadHandle) : Option (List Nat) × ReadHandle :=
  let got := fgets_take (n - 1) h.pending
  if got = [] then (none, h)
  else (some got, { h with pending := h.pending.drop got.length })

/-- Result of `strcmp`: the difference of the first differing bytes. -/
def strcmp : List Nat → List Nat → Int
  | [], [] => 0
  | [], b :: _ => 0 - (b : Int)
  | a :: _, [] => (a : Int)
  | a :: as, b :: bs => if a = b then strcmp as bs else (a : Int) - (b : Int)

/-- The function `tolower` in the C locale. -/
def tolower (c : Nat) : Nat := if 65 ≤ c ∧ c ≤ 90 then c + 32 else c

/-- Result of `strcasecmp`: the difference of the first bytes that differ
after `tolower`. -/
def strcasecmp : List Nat → List Nat → Int
  | [], [] => 0
  | [], b :: _ => 0 - (tolower b : Int)
  | a :: _, [] => (tolower a : Int)
  | a :: as, b :: bs =>
    if tolower a = tolower b then strcasecmp as bs
    else (tolower a : Int) - (tolower b : Int)

/-- What `%s` prints: glibc prints `(null)` for a NULL argument. -/
def fmt_s : Option (List Nat) → List Nat
  | none => str "(null)"
  | some s => s

/-- Decimal digits of a natural number, most significant first; `fuel` bounds
the number of digits. -/
def fmt_digits : Nat → Nat → List Nat
  | 0, _ => []
  | fuel + 1, n => if n < 10 then [48 + n] else fmt_digits fuel (n / 10) ++ [48 + n % 10]

/-- What `%d` prints. -/
def fmt_d (n : Int) : List Nat :=
  if n < 0 then 45 :: fmt_digits (n.natAbs + 1) n.natAbs else fmt_digits (n.natAbs + 1) n.natAbs

/-! ## sharedutil.c -/

/-- Function `hash_input`: `hash = (hash << 1) + hash + input[i]` over the bytes of the
string, in 32-bit `int` arithmetic.  `strlen(NULL)` crashes. -/
def hash_input : Option (List Nat) → Option Int
  | none => none
  | some input => some (input.foldl (fun hash c => wrap32 (hash * 2 + hash + charVal c)) 0)

/-- The in-place replacement loop of `send_message`. -/
def sanitise (message : List Nat) : List Nat :=
  message.map (fun c => if charVal c < 32 ∧ c ≠ 10 then 63 else c)

/-- Function `send_message(client, message)`: returns the result, the client with its
write handle advanced, and the message buffer as the loop left it. -/
def send_message (client : Client) (message : Option (List Nat)) :
    Int × Client × Option (List Nat) :=
  match message with
  | none => (0, client, none)
  | some m =>
    let m1 := sanitise m
    if client.writeHandle.error then (1, client, some m1)
    else
      (1, { client with writeHandle :=
              { client.writeHandle with written := client.writeHandle.written ++ m1 ++ [10] } },
        some m1)

/-- Function `receive_message(client, buffer)`: returns the result, the client with its
read handle advanced, and the contents of `buffer` (untouched on failure). -/
def receive_message (client : Client) (buffer : List Nat) : Int × Client × List Nat :=
  if client.readHandle.error then (0, client, buffer)
  else
    match fgets (MAX_BUF - 1) client.readHandle with
    | (none, _) => (0, client, buffer)
    | (some line, h) => (1, { client with readHandle := h }, strtok_buffer (cstr line) [10])

/-- Function `handle_server_message(message)`: returns the result code, the text
printed on standard output and the text printed on standard error. -/
def handle_server_message (message : List Nat) : Option (Int × List Nat × List Nat) :=
  let t1 := strtok message [58]
  let t2 := strtok t1.2 [58]
  let t3 := strtok t2.2 [10]
  let command := t1.1
  let optArg1 := t2.1
  let optArg2 := t3.1
  match hash_input command with
  | none => none
  | some hashCommand =>
    if hashCommand = ENTER then
      some (0, str "(" ++ fmt_s optArg1 ++ str " has entered the chat)" ++ [10], [])
    else if hashCommand = LEAVE then
      some (0, str "(" ++ fmt_s optArg1 ++ str " has left the chat)" ++ [10], [])
    else if hashCommand = MSG then
      some (0, fmt_s optArg1 ++ str ": " ++ fmt_s optArg2 ++ [10], [])
    else if hashCommand = KICK then
      some (KICKED, [], str "Kicked" ++ [10])
    else if hashCommand = LIST then
      some (0, str "(current chatters: " ++ fmt_s optArg1 ++ str ")" ++ [10], [])
    else some (0, [], [])

/-! ## serverutil.c -/

/-- Loop of `get_client`: `pos` is the position of `currentClient`. -/
def get_client_loop : List Client → List Nat → Nat → Option Nat
  | [], _, _ => none
  | c :: rest, name, pos =>
    if strcmp c.name name = 0 then some pos else get_client_loop rest name (pos + 1)

/-- Function `get_client(clientList, name)`: position of the first client whose name
is `name`, `none` for NULL. -/
def get_client (clientList : List Client) (name : List Nat) : Option Nat :=
  get_client_loop clientList name 0

/-- Loop of `get_previous_client`: `pos` is the position of `currentClient`,
`previousClient` the pointer saved in the previous iteration. -/
def get_previous_client_loop : List Client → List Nat → Option Nat → Nat → Option Nat
  | [], _, _, _ => none
  | c :: rest, name, previousClient, pos =>
    if strcmp c.name name = 0 then previousClient
    else get_previous_client_loop rest name (some pos) (pos + 1)

/-- Function `get_previous_client(clientList, name)`: position of the client before the
first client named `name`; `none` (NULL) when that client is the head or when
there is no such client. -/
def get_previous_client (clientList : List Client) (name : List Nat) : Option Nat :=
  get_previous_client_loop clientList name none 0

/-- Loop of `add_client`: the third argument is the list from `currentClient`
on.  Linking `previousClient->next = newClient; newClient->next = currentClient`
gives the nodes up to `previousClient`, then `newClient`, then the nodes from
`currentClient`. -/
def add_client_loop (clientList : List Client) (newClient : Client) : List Client → List Client
  | [] => clientList
  | currentClient :: next =>
    if strcasecmp newClient.name currentClient.name > 0 then
      match next with
      | [] => clientList ++ [newClient]
      | _ :: _ => add_client_loop clientList newClient next
    else
      match get_previous_client clientList currentClient.name with
      | some previousClient =>
        clientList.take (previousClient + 1) ++ newClient :: currentClient :: next
      | none => newClient :: currentClient :: next

/-- Function `add_client(clientList, newClient)`; `newClient->next` is NULL. -/
def add_client (clientList : List Client) (newClient : Client) : List Client :=
  match clientList with
  | [] => [newClient]
  | _ :: _ => add_client_loop clientList newClient clientList

/-- Function `remove_client(clientList, name)`. -/
def remove_client (clientList : List Client) (name : Option (List Nat)) : List Client :=
  match name with
  | none => clientList
  | some name =>
    let clientPrevious := get_previous_client clientList name
    match get_client clientList name with
    | none => clientList
    | some clientToRemove =>
      match clientPrevious with
      | none => clientList.tail
      | some previous => clientList.take (previous + 1) ++ clientList.drop (clientToRemove + 1)

/-- The statement `stats[statCode]++` on an array of `int`. -/
def increment (stats : List Int) (statCode : Int) : List Int :=
  stats.set statCode.toNat (wrap32 (stats.getD statCode.toNat 0 + 1))

/-- Function `add_to_server_stats(server, statCode)`. -/
def add_to_server_stats (server : Server) (statCode : Int) : Server :=
  if statCode ≥ 0 ∧ statCode < NUM_SERVER_STATS then
    { server with stats := increment server.stats statCode }
  else server

/-- Function `add_to_client_stats(client, statCode)`. -/
def add_to_client_stats (client : Client) (statCode : Int) : Client :=
  if statCode ≥ 0 ∧ statCode < NUM_CLIENT_STATS then
    { client with stats := increment client.stats statCode }
  else client

/-! ## server.c -/

/-- Function `validate_authentication(server, client)`.  `stale` is what the
uninitialised local `buffer` holds; it is still there when `receive_message`
fails, because its result is not tested. -/
def validate_authentication (server : Server) (client : Client) (stale : List Nat) :
    Option (Int × Server × Client) :=
  let client1 := (send_message client (some (str "AUTH:"))).2.1
  let r := receive_message client1 stale
  let client2 := r.2.1
  let t1 := strtok r.2.2 [58]
  let t2 := strtok t1.2 [10]
  let auth := t1.1
  let clientAuthString := t2.1
  match hash_input auth with
  | none => none
  | some h =>
    let server1 := if h = AUTH then add_to_server_stats server STAT_AUTH else server
    match clientAuthString with
    | some s =>
      if strcmp s server.authString = 0 then
        some (1, server1, (send_message client2 (some (str "OK:"))).2.1)
      else some (0, server1, client2)
    | none => some (0, server1, client2)

/-- The recursion of `validate_client_name`, bounded by `fuel` calls. -/
def validate_client_name_rec :
    Nat → Server → Client → List Nat → Option (Int × Server × Client)
  | 0, _, _, _ => none
  | fuel + 1, server, client, stale =>
    let client1 := (send_message client (some (str "WHO:"))).2.1
    let r := receive_message client1 stale
    let client2 := r.2.1
    let t1 := strtok r.2.2 [58]
    let t2 := strtok t1.2 [10]
    match t2.1, t1.1 with
    | some clientName, some name =>
      if strcmp name (str "NAME") ≠ 0 then some (0, server, client2)
      else
        let server1 := add_to_server_stats server STAT_NAME
        if server1.clientList.any (fun currentClient =>
            decide (strcmp clientName currentClient.name = 0)) then
          validate_client_name_rec fuel server1
            (send_message client2 (some (str "NAME_TAKEN:"))).2.1 stale
        else
          some (1, server1,
            (send_message { client2 with name := clientName } (some (str "OK:"))).2.1)
    | _, _ => some (0, server, client2)

/-- Function `validate_client_name(server, client)`.  Every call that recurses
has read at least one byte or is at end of file, where it repeats itself for
ever, so one call more than the number of pending bytes decides the result;
`none` is the unbounded recursion.  `stale` is what the uninitialised local
`buffer` of each call holds. -/
def validate_client_name (server : Server) (client : Client) (stale : List Nat) :
    Option (Int × Server × Client) :=
  validate_client_name_rec (client.readHandle.pending.length + 1) server client stale

/-- The send loop of `broadcast_to_clients` over the list from `currentClient`
on; `message` is the caller's buffer, which `send_message` rewrites in place.
Returns the clients, the buffer, and the names of the clients `send_message`
was called for, in call order. -/
def broadcast_loop : List Client → List Nat → List Client × List Nat × List (List Nat)
  | [], message => ([], message, [])
  | currentClient :: next, message =>
    if currentClient.isCommunicating ≠ 0 then
      let r := send_message currentClient (some message)
      let rest := broadcast_loop next (r.2.2.getD message)
      (r.2.1 :: rest.1, rest.2.1, currentClient.name :: rest.2.2)
    else
      let rest := broadcast_loop next message
      (currentClient :: rest.1, rest.2.1, rest.2.2)

/-- Function `broadcast_to_clients(server, message)`. -/
def broadcast_to_clients (server : Server) (message : List Nat) : Option Server :=
  match handle_server_message message with
  | none => none
  | some (_, out, err) =>
    some { server with
      stdout := server.stdout ++ out
      stderr := server.stderr ++ err
      clientList := (broadcast_loop server.clientList message).1 }

/-- The assignment `*p = f(*p)` through the pointer to the node at position
`pos`. -/
def update_client : List Client → Nat → (Client → Client) → List Client
  | [], _, _ => []
  | c :: rest, 0, f => f c :: rest
  | c :: rest, pos + 1, f => c :: update_client rest pos f

/-- Function `kick_client(server, name)`. -/
def kick_client (server : Server) (name : Option (List Nat)) : Server :=
  match name with
  | none => server
  | some name =>
    match get_client server.clientList name with
    | none => server
    | some clientToKick =>
      { server with clientList := update_client server.clientList clientToKick (fun c =>
          let kicked := (send_message c (some (str "KICK:"))).2.1
          { kicked with isCommunicating := 0 }) }

/-- The name loop of `update_active_client_list` from `currentClient` on. -/
def client_list_loop : Client → List Client → List Nat
  | currentClient, [] => currentClient.name
  | currentClient, next :: rest => currentClient.name ++ str "," ++ client_list_loop next rest

/-- Function `update_active_client_list(server, messageBuffer)`: the new contents of
`messageBuffer`, an array of `MAX_BUF` bytes at the only call; `none` when
`clientList` is NULL, which the loop dereferences, and when the `strcat`
chain writes past the end of the array. -/
def update_active_client_list (server : Server) : Option (List Nat) :=
  match server.clientList with
  | [] => none
  | currentClient :: next =>
    let messageBuffer := str "LIST:" ++ client_list_loop currentClient next
    if MAX_BUF < messageBuffer.length + 1 then none else some messageBuffer

/-- Function `handle_client_message(server, client, message)` for the client at
position `client` of the list.  The local `messageBuffer` has `MAX_BUF`
bytes: `none` when the `sprintf` of the `SAY` case, which writes the line and
its NUL, goes past its end. -/
def handle_client_message (server : Server) (client : Nat) (message : List Nat) :
    Option (Int × Server) :=
  match server.clientList[client]? with
  | none => none
  | some c =>
    if c.isCommunicating = 0 then some (0, server)
    else
      let t1 := strtok message [58]
      let t2 := strtok t1.2 [10]
      let command := t1.1
      let optArg1 := t2.1
      match hash_input command with
      | none => none
      | some hashCommand =>
        if hashCommand = SAY then
          let clients1 := update_client server.clientList client
            (fun c => add_to_client_stats c STAT_SAY)
          let server1 := { server with clientList := clients1 }
          let server2 := add_to_server_stats server1 STAT_SAY
          let messageBuffer := str "MSG:" ++ c.name ++ str ":" ++ fmt_s optArg1
          if MAX_BUF < messageBuffer.length + 1 then none
          else (broadcast_to_clients server2 messageBuffer).map (fun s => (1, s))
        else if hashCommand = KICK then
          let clients1 := update_client server.clientList client
            (fun c => add_to_client_stats c STAT_KICK)
          let server1 := { server with clientList := clients1 }
          let server2 := add_to_server_stats server1 STAT_KICK
          some (1, kick_client server2 optArg1)
        else if hashCommand = LIST then
          let clients1 := update_client server.clientList client
            (fun c => add_to_client_stats c STAT_LIST)
          let server1 := { server with clientList := clients1 }
          let server2 := add_to_server_stats server1 STAT_LIST
          match update_active_client_list server2 with
          | none => none
          | some messageBuffer =>
            let clients2 := update_client server2.clientList client
              (fun c => (send_message c (some messageBuffer)).2.1)
            some (1, { server2 with clientList := clients2 })
        else if hashCommand = LEAVE then
          some (LEAVE, add_to_server_stats server STAT_LEAVE)
        else some (1, server)

/-- The handshake of `listen_to_client` (up to the release of the lock):
`some (true, s)` when the client was added and the thread enters its message
loop, `some (false, s)` when the thread returned after a failed handshake.
The uninitialised buffers of the two validation functions hold `staleAuth` and
`staleName`. -/
def listen_to_client_join (server : Server) (myClient : Client)
    (staleAuth staleName : List Nat) : Option (Bool × Server) :=
  match validate_authentication server myClient staleAuth with
  | none => none
  | some (a, server1, client1) =>
    if a = 0 then some (false, server1)
    else
      match validate_client_name server1 client1 staleName with
      | none => none
      | some (v, server2, client2) =>
        if v = 0 then some (false, server2)
        else
          let server3 := { server2 with clientList := add_client server2.clientList client2 }
          (broadcast_to_clients server3 (str "ENTER:" ++ client2.name)).map
            (fun s => (true, s))

/-- The departure of `listen_to_client` (after the message loop) for the
client at position `myClient`. -/
def listen_to_client_leave (server : Server) (myClient : Nat) : Option Server :=
  match server.clientList[myClient]? with
  | none => none
  | some c =>
    let buffer := str "LEAVE:" ++ c.name
    broadcast_to_clients
      { server with clientList := remove_client server.clientList (some c.name) } buffer

/-! ## client.c -/

/-- How a client function ends: it returns a value to its caller, or it ends
the process through `client_exit` with an exit code after printing on standard
error. -/
inductive Ending where
  | returns (value : Int) : Ending
  | exits (code : Int) (err : List Nat) : Ending
deriving DecidableEq, Repr

/-- The loop of `resolve_client_name`, bounded by `fuel` iterations: how the
function ends, and the client as it is then. -/
def resolve_client_name_loop :
    Nat → Client → Int → List Nat → Option (Ending × Client)
  | 0, _, _, _ => none
  | fuel + 1, client, nameCounter, buffer =>
    let r := receive_message client buffer
    if r.1 = 0 then
      some (Ending.exits COMMS (str "Communications error" ++ [10]), r.2.1)
    else if strcmp r.2.2 (str "WHO:") = 0 then
      let nameBuffer :=
        if nameCounter < 0 then str "NAME:" ++ r.2.1.name
        else str "NAME:" ++ r.2.1.name ++ fmt_d nameCounter
      resolve_client_name_loop fuel (send_message r.2.1 (some nameBuffer)).2.1 nameCounter r.2.2
    else if strcmp r.2.2 (str "NAME_TAKEN:") = 0 then
      resolve_client_name_loop fuel r.2.1 (nameCounter + 1) r.2.2
    else if strcmp r.2.2 (str "OK:") = 0 then
      some (Ending.returns 1, r.2.1)
    else resolve_client_name_loop fuel r.2.1 nameCounter r.2.2

/-- Function `resolve_client_name(client)`.  Every iteration reads at least one
byte or ends the process, so one iteration more than the number of pending
bytes is enough.  The statements after the `while (1)` loop are unreachable.
Every `sprintf` into `nameBuffer` writes past its end (`nameBuffer_size`,
`nameBuffer_text`); the loop is continued with the request as written, which
is what `send_message` reads back through the same pointer when the bytes
behind the array are not disturbed. -/
def resolve_client_name (client : Client) (stale : List Nat) : Option (Ending × Client) :=
  resolve_client_name_loop (client.readHandle.pending.length + 1) client (-1) stale

/-! ## Vocabulary of the properties -/

/-- The names of the list are C strings (no NUL byte). -/
def NamesAreStrings (l : List Client) : Prop := ∀ c ∈ l, 0 ∉ c.name

/-- Names are pairwise different. -/
def DistinctNames (l : List Client) : Prop := (l.map Client.name).Nodup

/-- Names are in non-decreasing `strcasecmp` order from the head. -/
def SortedNames (l : List Client) : Prop :=
  l.Pairwise (fun a b => strcasecmp a.name b.name ≤ 0)

/-- Names are non-empty and hold no line terminator, as every name taken from
a `NAME:` line. -/
def NamesAreLines (l : List Client) : Prop := ∀ c ∈ l, c.name ≠ [] ∧ 10 ∉ c.name

/-- Ordered insertion before the first client that does not sort before the
newcomer. -/
def insert_before_first_not_smaller (newClient : Client) : List Client → List Client
  | [] => [newClient]
  | c :: rest =>
    if strcasecmp newClient.name c.name > 0 then
      c :: insert_before_first_not_smaller newClient rest
    else newClient :: c :: rest

/-- What `send_message` does to a client when handed a line that needs no
replacement: the line and one terminator are appended to the write handle
unless the handle is in an error state. -/
def deliver (c : Client) (line : List Nat) : Client :=
  if c.writeHandle.error then c
  else { c with writeHandle :=
    { c.writeHandle with written := c.writeHandle.written ++ line ++ [10] } }

/-- The states of the server: from the empty registry by handshakes of new
connections (accepted or rejected), handled messages, kicks and departures. -/
inductive Reachable : Server → Prop where
  | init (authString : List Nat) (stats : List Int) (out err : List Nat) :
      Reachable ⟨authString, [], stats, out, err⟩
  | join {s s1 : Server} (c : Client) (staleAuth staleName : List Nat) (entered : Bool) :
      Reachable s → 0 ∉ staleName →
      listen_to_client_join s c staleAuth staleName = some (entered, s1) → Reachable s1
  | message {s s1 : Server} (client : Nat) (line : List Nat) (r : Int) :
      Reachable s → handle_client_message s client line = some (r, s1) → Reachable s1
  | kick {s : Server} (name : Option (List Nat)) :
      Reachable s → Reachable (kick_client s name)
  | leave {s s1 : Server} (client : Nat) :
      Reachable s → listen_to_client_leave s client = some s1 → Reachable s1

/-- The `k`-th name the client proposes: the base name, then the base name
followed by `0`, `1`, ... -/
def candidate (name : List Nat) : Nat → List Nat
  | 0 => name
  | k + 1 => name ++ fmt_d (k : Int)

/-- The line with which the client proposes its `i`-th candidate, terminator
included. -/
def name_request (name : List Nat) (i : Nat) : List Nat :=
  str "NAME:" ++ candidate name i ++ [10]

/-- The requests for `count` successive candidates starting with candidate
`first`. -/
def name_requests_from (name : List Nat) (first : Nat) : Nat → List Nat
  | 0 => []
  | count + 1 => name_request name first ++ name_requests_from name (first + 1) count

/-- The bytes the client has sent when it has proposed candidates `0..k`. -/
def name_requests (name : List Nat) (k : Nat) : List Nat :=
  name_requests_from name 0 (k + 1)

/-- The bytes the server has sent when it has rejected `k` candidates and
accepted the next. -/
def name_replies : Nat → List Nat
  | 0 => str "WHO:" ++ [10] ++ (str "OK:" ++ [10])
  | k + 1 => str "WHO:" ++ [10] ++ (str "NAME_TAKEN:" ++ [10]) ++ name_replies k

/-! ## Concrete states used to exercise the theorems -/

/-- Function `setup_client(socket, name, authString)`: `pending` is what the peer will
send on the socket; without a name the name buffer starts empty. -/
def setup_client (pending : List Nat) (name : Option (List Nat)) (authString : List Nat) :
    Client :=
  { name := name.getD [], authString := authString,
    readHandle := ⟨pending, false⟩, writeHandle := ⟨[], false⟩,
    stats := [0, 0, 0], isCommunicating := 1 }

/-- A server that has just started with the secret `pw`. -/
def demo_empty : Server := ⟨str "pw", [], [0, 0, 0, 0, 0, 0], [], []⟩

/-- The server after a first peer has authenticated and asked for `ivy`. -/
def demo_ivy : Server :=
  match listen_to_client_join demo_empty
      (setup_client (str "AUTH:pw\nNAME:ivy\n") none (str "pw")) [] [] with
  | some (_, s) => s
  | none => demo_empty

/-- The server after a second peer has asked for `ivy` and then for `ivy0`. -/
def demo_two : Server :=
  match listen_to_client_join demo_ivy
      (setup_client (str "AUTH:pw\nNAME:ivy\nNAME:ivy0\n") none (str "pw")) [] [] with
  | some (_, s) => s
  | none => demo_ivy

/-- A registered, active member with nothing sent to it yet. -/
def demo_member (name : List Nat) : Client :=
  { name := name, authString := str "pw",
    readHandle := ⟨[], false⟩, writeHandle := ⟨[], false⟩,
    stats := [0, 0, 0], isCommunicating := 1 }

/-- A room with the members `amy` and `bob`. -/
def demo_room : Server :=
  ⟨str "pw", [demo_member (str "amy"), demo_member (str "bob")], [0, 0, 0, 0, 0, 0], [], []⟩

/-- The number written by a string of decimal digits. -/
def digits_value (digits : List Nat) : Nat :=
  digits.foldl (fun acc d => acc * 10 + (d - 48)) 0

/-- A name a `NAME:` line can carry: non-empty, without line terminator and
NUL, and short enough for the line to be read in one piece. -/
def WellFormedName (name : List Nat) : Prop :=
  name ≠ [] ∧ 10 ∉ name ∧ 0 ∉ name ∧ name.length ≤ 504

/-- The bytes of the lines `NAME:<candidate>` for a sequence of candidates. -/
def name_lines : List (List Nat) → List Nat
  | [] => []
  | candidate :: more => str "NAME:" ++ candidate ++ [10] ++ name_lines more

/-! ## client.c: authentication, user input, server input -/

/-- The loop of `authenticate_client`, bounded by `fuel` iterations: how the
function ends, and the client as it is then.  The function `send_message`
rewrites `client->authString` in place.  The `return 0` after the `while (1)`
loop is unreachable. -/
def authenticate_client_loop : Nat → Client → List Nat → Option (Ending × Client)
  | 0, _, _ => none
  | fuel + 1, client, buffer =>
    let r := receive_message client buffer
    if r.1 = 0 then
      some (Ending.exits COMMS (str "Communications error" ++ [10]), r.2.1)
    else if strcmp r.2.2 (str "AUTH:") = 0 then
      let sent := send_message r.2.1 (some r.2.1.authString)
      authenticate_client_loop fuel
        { sent.2.1 with authString := sent.2.2.getD r.2.1.authString } r.2.2
    else if strcmp r.2.2 (str "OK:") = 0 then
      some (Ending.returns 1, r.2.1)
    else authenticate_client_loop fuel r.2.1 r.2.2

/-- Function `authenticate_client(client)`.  Every iteration reads at least one
byte or ends the process, so one iteration more than the number of pending
bytes is enough. -/
def authenticate_client (client : Client) (stale : List Nat) : Option (Ending × Client) :=
  authenticate_client_loop (client.readHandle.pending.length + 1) client stale

/-- The handshake of the client's `main`, from `setup_client` to the creation
of the two threads: `if (!authenticate_client(client) ||
!resolve_client_name(client))` prints `Authentication error` and exits with
`FAILAUTH`.  The ending `returns 1` stands for `main` going on to start its
threads. -/
def client_main_handshake (client : Client) (staleAuth staleName : List Nat) :
    Option (Ending × Client) :=
  match authenticate_client client staleAuth with
  | none => none
  | some (Ending.exits code err, client1) => some (Ending.exits code err, client1)
  | some (Ending.returns a, client1) =>
    if a = 0 then
      some (Ending.exits FAILAUTH (str "Authentication error" ++ [10]), client1)
    else
      match resolve_client_name client1 staleName with
      | none => none
      | some (Ending.exits code err, client2) => some (Ending.exits code err, client2)
      | some (Ending.returns v, client2) =>
        if v = 0 then
          some (Ending.exits FAILAUTH (str "Authentication error" ++ [10]), client2)
        else some (Ending.returns 1, client2)

/-- Function `handle_user_message(message)`: the result and the new contents of
`message`, an array of `MAX_BUF` bytes at the only call.  The array
`messageCopy` is never `NULL`, so the branch that writes `SAY: ` is dead; the
result of the first `strtok` is not used, only its effect on `messageCopy`.
The `sprintf` of `SAY:` and the line writes past the end of `message` when
they and the NUL need more than `MAX_BUF` bytes (`none`).  In the command
branch `hash_input` reads the string that `strtok` left at
`messageCopy + 1`. -/
def handle_user_message (message : List Nat) : Option (Int × List Nat) :=
  let messageCopy := message
  if charVal (messageCopy.headD 0) ≠ 42 then
    let wrapped := str "SAY:" ++ strtok_buffer messageCopy [10]
    if MAX_BUF < wrapped.length + 1 then none else some (0, wrapped)
  else
    let token := (strtok (messageCopy.drop 1) [10]).1
    let message1 := fmt_s token
    match hash_input (some (strtok_buffer (messageCopy.drop 1) [10])) with
    | none => none
    | some h => if h = LEAVE then some (LEAVE, message1) else some (0, message1)

/-- The loop of `listen_to_user`, bounded by `fuel` iterations, reading the
user's input from `stdin`: how the thread ends (it returns `NULL` at end of
input, or ends the process with `NORMAL`), the client and what is left of the
input. -/
def listen_to_user_loop : Nat → Client → ReadHandle → Option (Ending × Client × ReadHandle)
  | 0, _, _ => none
  | fuel + 1, client, stdin =>
    match fgets (MAX_BUF - 1) stdin with
    | (none, _) => some (Ending.returns 0, client, stdin)
    | (some got, stdin1) =>
      match handle_user_message (cstr got) with
      | none => none
      | some (response, buffer) =>
        let client1 := (send_message client (some buffer)).2.1
        if response = LEAVE then some (Ending.exits NORMAL [], client1, stdin1)
        else listen_to_user_loop fuel client1 stdin1

/-- Function `listen_to_user(args)`: every iteration reads at least one byte of
the input. -/
def listen_to_user (client : Client) (stdin : ReadHandle) :
    Option (Ending × Client × ReadHandle) :=
  listen_to_user_loop (stdin.pending.length + 1) client stdin

/-- The loop of `listen_to_server`, bounded by `fuel` iterations: how the
thread ends (always by ending the process), the client, and the text printed
on standard output, which starts with `out`. -/
def listen_to_server_loop :
    Nat → Client → List Nat → List Nat → Option (Ending × Client × List Nat)
  | 0, _, _, _ => none
  | fuel + 1, client, buffer, out =>
    let r := receive_message client buffer
    if r.1 = 0 then some (Ending.exits COMMS [], r.2.1, out)
    else
      match handle_server_message r.2.2 with
      | none => none
      | some (response, printed, err) =>
        if response = KICKED then some (Ending.exits KICKED err, r.2.1, out ++ printed)
        else listen_to_server_loop fuel r.2.1 r.2.2 (out ++ printed)

/-- Function `listen_to_server(args)`: every iteration reads at least one byte
or ends the process. -/
def listen_to_server (client : Client) (stale : List Nat) :
    Option (Ending × Client × List Nat) :=
  listen_to_server_loop (client.readHandle.pending.length + 1) client stale []

/-- A room whose three members registered names of 200 bytes each. -/
def demo_long_names : Server :=
  ⟨str "pw", List.foldl add_client [] [demo_member (List.replicate 200 98),
    demo_member (List.replicate 200 97), demo_member (List.replicate 200 99)],
    [0, 0, 0, 0, 0, 0], [], []⟩

/-- The string that `resolve_client_name` prints into `nameBuffer` on `WHO:`:
`sprintf(nameBuffer, "NAME:%s", client->name)` while `nameCounter` is
negative, `sprintf(nameBuffer, "NAME:%s%d", client->name, nameCounter)`
afterwards.  The call writes these bytes and a NUL. -/
def nameBuffer_text (client : Client) (nameCounter : Int) : List Nat :=
  if nameCounter < 0 then str "NAME:" ++ client.name
  else str "NAME:" ++ client.name ++ fmt_d nameCounter

/-- The two locks of the `Server` struct. -/
inductive Lock where
  | clientAccess : Lock
  | statsAccess : Lock
deriving DecidableEq, Repr

/-- A call of `take_lock` or of `release_lock`. -/
inductive LockEvent where
  | take (lock : Lock) : LockEvent
  | release (lock : Lock) : LockEvent
deriving DecidableEq, Repr

/-- Lock calls of `add_to_server_stats(server, statCode)`. -/
def add_to_server_stats_locks (statCode : Int) : List LockEvent :=
  if statCode ≥ 0 ∧ statCode < NUM_SERVER_STATS then
    [LockEvent.take Lock.statsAccess, LockEvent.release Lock.statsAccess]
  else []

/-- Lock calls of `initialise_client(server, socket)`: the lock is taken and
left to the new thread to release. -/
def initialise_client_locks : List LockEvent := [LockEvent.take Lock.clientAccess]

/-- Lock calls of `validate_authentication(server, client)`; they do not
depend on the state of the server. -/
def validate_authentication_locks (client : Client) (stale : List Nat) :
    Option (List LockEvent) :=
  let client1 := (send_message client (some (str "AUTH:"))).2.1
  let r := receive_message client1 stale
  let t1 := strtok r.2.2 [58]
  let auth := t1.1
  match hash_input auth with
  | none => none
  | some h => if h = AUTH then some (add_to_server_stats_locks STAT_AUTH) else some []

/-- Lock calls of the recursion of `validate_client_name`, bounded by `fuel`
calls. -/
def validate_client_name_rec_locks :
    Nat → Server → Client → List Nat → Option (List LockEvent)
  | 0, _, _, _ => none
  | fuel + 1, server, client, stale =>
    let client1 := (send_message client (some (str "WHO:"))).2.1
    let r := receive_message client1 stale
    let client2 := r.2.1
    let t1 := strtok r.2.2 [58]
    let t2 := strtok t1.2 [10]
    match t2.1, t1.1 with
    | some clientName, some name =>
      if strcmp name (str "NAME") ≠ 0 then some []
      else
        let server1 := add_to_server_stats server STAT_NAME
        if server1.clientList.any (fun currentClient =>
            decide (strcmp clientName currentClient.name = 0)) then
          (validate_client_name_rec_locks fuel server1
            (send_message client2 (some (str "NAME_TAKEN:"))).2.1 stale).map
              (fun later => add_to_server_stats_locks STAT_NAME ++ later)
        else some (add_to_server_stats_locks STAT_NAME)
    | _, _ => some []

/-- Lock calls of `validate_client_name(server, client)`. -/
def validate_client_name_locks (server : Server) (client : Client) (stale : List Nat) :
    Option (List LockEvent) :=
  validate_client_name_rec_locks (client.readHandle.pending.length + 1) server client stale

/-- Lock calls of a connection from `initialise_client` to the release of the
lock in `listen_to_client`, on either branch of its test. -/
def listen_to_client_join_locks (server : Server) (myClient : Client)
    (staleAuth staleName : List Nat) : Option (List LockEvent) :=
  match validate_authentication server myClient staleAuth,
    validate_authentication_locks myClient staleAuth with
  | some (a, server1, client1), some authLocks =>
    if a = 0 then
      some (initialise_client_locks ++ authLocks ++ [LockEvent.release Lock.clientAccess])
    else
      match validate_client_name_locks server1 client1 staleName with
      | some nameLocks =>
        some (initialise_client_locks ++ authLocks ++ nameLocks ++
          [LockEvent.release Lock.clientAccess])
      | none => none
  | _, _ => none

/-- Lock calls of `kick_client(server, name)`. -/
def kick_client_locks (name : Option (List Nat)) : List LockEvent :=
  match name with
  | none => []
  | some _ => [LockEvent.take Lock.clientAccess, LockEvent.release Lock.clientAccess]

/-- Lock calls of `update_active_client_list(server, messageBuffer)`. -/
def update_active_client_list_locks : List LockEvent :=
  [LockEvent.take Lock.clientAccess, LockEvent.release Lock.clientAccess]

/-- Lock calls of `handle_client_message(server, client, message)` for the
client at position `client` of the list. -/
def handle_client_message_locks (server : Server) (client : Nat) (message : List Nat) :
    Option (List LockEvent) :=
  match server.clientList[client]? with
  | none => none
  | some c =>
    if c.isCommunicating = 0 then some []
    else
      let t1 := strtok message [58]
      let t2 := strtok t1.2 [10]
      let command := t1.1
      let optArg1 := t2.1
      match hash_input command with
      | none => none
      | some hashCommand =>
        if hashCommand = SAY then
          some (add_to_server_stats_locks STAT_SAY ++
            [LockEvent.take Lock.clientAccess, LockEvent.release Lock.clientAccess])
        else if hashCommand = KICK then
          some (add_to_server_stats_locks STAT_KICK ++ kick_client_locks optArg1)
        else if hashCommand = LIST then
          some (add_to_server_stats_locks STAT_LIST ++ update_active_client_list_locks)
        else if hashCommand = LEAVE then
          some (add_to_server_stats_locks STAT_LEAVE)
        else some []

/-- Lock calls of the departure of `listen_to_client` (after the message
loop). -/
def listen_to_client_leave_locks : List LockEvent :=
  [LockEvent.take Lock.clientAccess, LockEvent.release Lock.clientAccess]

/-- Lock calls of `print_server_stats(server)`. -/
def print_server_stats_locks : List LockEvent :=
  [LockEvent.take Lock.clientAccess, LockEvent.release Lock.clientAccess,
    LockEvent.take Lock.statsAccess, LockEvent.release Lock.statsAccess]

/-! ## Vocabulary of the properties: locks and counters -/

/-- Which of the two locks are held, `clientAccess` first, after one more
call. -/
def lock_step (held : Bool × Bool) : LockEvent → Bool × Bool
  | LockEvent.take Lock.clientAccess => (true, held.2)
  | LockEvent.take Lock.statsAccess => (held.1, true)
  | LockEvent.release Lock.clientAccess => (false, held.2)
  | LockEvent.release Lock.statsAccess => (held.1, false)

/-- Which locks are held after a sequence of calls. -/
def locks_after (held : Bool × Bool) (calls : List LockEvent) : Bool × Bool :=
  calls.foldl lock_step held

/-- Whether both locks are held at some point of a sequence of calls. -/
def held_together : Bool × Bool → List LockEvent → Bool
  | held, [] => held.1 && held.2
  | held, call :: later => (held.1 && held.2) || held_together (lock_step held call) later

/-- Whether `clientAccess` is taken at a point where `statsAccess` is held. -/
def client_taken_under_stats : Bool × Bool → List LockEvent → Bool
  | _, [] => false
  | held, call :: later =>
    (decide (call = LockEvent.take Lock.clientAccess) && held.2) ||
      client_taken_under_stats (lock_step held call) later

/-- The calls of `count` successive increments of an aggregate counter: each
takes and releases `statsAccess`. -/
def stats_pairs : Nat → List LockEvent
  | 0 => []
  | count + 1 =>
    LockEvent.take Lock.statsAccess :: LockEvent.release Lock.statsAccess :: stats_pairs count

theorem strcmp_self (a : List Nat) : strcmp a a = 0 := by
  induction a with
  | nil => simp [strcmp]
  | cons x xs ih => simp [strcmp, ih]

theorem strcmp_eq_zero {a b : List Nat} (ha : 0 ∉ a) (hb : 0 ∉ b) (h : strcmp a b = 0) :
    a = b := by
  induction a generalizing b with
  | nil =>
    cases b with
    | nil => rfl
    | cons y ys =>
      simp [strcmp] at h
      simp [h] at hb
  | cons x xs ih =>
    cases b with
    | nil =>
      simp [strcmp] at h
      simp [h] at ha
    | cons y ys =>
      simp only [strcmp] at h
      simp only [List.mem_cons, not_or] at ha hb
      split at h
      · rename_i hxy
        rw [hxy, ih ha.2 hb.2 h]
      · omega

theorem tolower_eq_zero {c : Nat} (h : tolower c = 0) : c = 0 := by
  unfold tolower at h
  split at h <;> omega

theorem strcasecmp_nil_le (c : List Nat) : strcasecmp [] c ≤ 0 := by
  cases c with
  | nil => simp [strcasecmp]
  | cons z zs => simp [strcasecmp]

theorem strcasecmp_flip {a b : List Nat} (h : strcasecmp a b > 0) : strcasecmp b a ≤ 0 := by
  induction a generalizing b with
  | nil =>
    have := strcasecmp_nil_le b
    omega
  | cons x xs ih =>
    cases b with
    | nil => exact strcasecmp_nil_le _
    | cons y ys =>
      simp only [strcasecmp] at h ⊢
      split at h
      · rename_i hxy
        rw [if_pos hxy.symm]
        exact ih h
      · rename_i hxy
        rw [if_neg (fun e => hxy e.symm)]
        omega

theorem strcasecmp_trans {a b c : List Nat} (ha : 0 ∉ a) (hb : 0 ∉ b)
    (hab : strcasecmp a b ≤ 0) (hbc : strcasecmp b c ≤ 0) : strcasecmp a c ≤ 0 := by
  induction a generalizing b c with
  | nil => exact strcasecmp_nil_le c
  | cons x xs ih =>
    simp only [List.mem_cons, not_or] at ha
    cases b with
    | nil =>
      simp only [strcasecmp] at hab
      have : tolower x = 0 := by omega
      have := tolower_eq_zero this
      omega
    | cons y ys =>
      simp only [List.mem_cons, not_or] at hb
      cases c with
      | nil =>
        simp only [strcasecmp] at hbc
        have : tolower y = 0 := by omega
        have := tolower_eq_zero this
        omega
      | cons z zs =>
        simp only [strcasecmp] at hab hbc ⊢
        split at hab <;> split at hbc <;> split <;> try omega
        exact ih ha.2 hb.2 hab hbc

/-! ## The client list -/

theorem get_client_loop_skip (before rest : List Client) (n : List Nat) (p : Nat)
    (h : ∀ x ∈ before, strcmp x.name n ≠ 0) :
    get_client_loop (before ++ rest) n p = get_client_loop rest n (p + before.length) := by
  induction before generalizing p with
  | nil => simp
  | cons b bs ih =>
    have hb : strcmp b.name n ≠ 0 := h b (List.mem_cons_self _ _)
    have hbs : ∀ x ∈ bs, strcmp x.name n ≠ 0 := fun x hx => h x (List.mem_cons_of_mem _ hx)
    rw [List.cons_append]
    simp only [get_client_loop, if_neg hb, List.length_cons]
    rw [ih (p + 1) hbs]
    congr 1
    omega

theorem get_previous_client_loop_skip (before rest : List Client) (n : List Nat)
    (prev : Option Nat) (p : Nat) (h : ∀ x ∈ before, strcmp x.name n ≠ 0) :
    get_previous_client_loop (before ++ rest) n prev p =
      get_previous_client_loop rest n
        (if before = [] then prev else some (p + before.length - 1)) (p + before.length) := by
  induction before generalizing p prev with
  | nil => simp
  | cons b bs ih =>
    have hb : strcmp b.name n ≠ 0 := h b (List.mem_cons_self _ _)
    have hbs : ∀ x ∈ bs, strcmp x.name n ≠ 0 := fun x hx => h x (List.mem_cons_of_mem _ hx)
    rw [List.cons_append]
    simp only [get_previous_client_loop, if_neg hb, List.length_cons]
    rw [ih (some p) (p + 1) hbs]
    cases bs with
    | nil => simp
    | cons b2 bs2 =>
      have e1 : p + 1 + (bs2.length + 1) - 1 = p + (bs2.length + 1 + 1) - 1 := by omega
      have e2 : p + 1 + (bs2.length + 1) = p + (bs2.length + 1 + 1) := by omega
      simp only [List.length_cons, reduceCtorEq, if_false, e1, e2]

/-- Either no client is named `n`, or the list splits at the first one. -/
theorem split_first_named (l : List Client) (n : List Nat) :
    (∀ x ∈ l, strcmp x.name n ≠ 0) ∨
    ∃ before c after, l = before ++ c :: after ∧ strcmp c.name n = 0 ∧
      ∀ x ∈ before, strcmp x.name n ≠ 0 := by
  induction l with
  | nil => left; simp
  | cons a as ih =>
    by_cases ha : strcmp a.name n = 0
    · right
      exact ⟨[], a, as, rfl, ha, by simp⟩
    · rcases ih with h | ⟨before, c, after, hl, hc, hb⟩
      · left
        intro x hx
        rcases List.mem_cons.1 hx with rfl | hx
        · exact ha
        · exact h x hx
      · right
        refine ⟨a :: before, c, after, by simp [hl], hc, ?_⟩
        intro x hx
        rcases List.mem_cons.1 hx with rfl | hx
        · exact ha
        · exact hb x hx

theorem get_client_none {l : List Client} {n : List Nat} (h : ∀ x ∈ l, strcmp x.name n ≠ 0) :
    get_client l n = none := by
  have := get_client_loop_skip l [] n 0 h
  simpa [get_client, get_client_loop] using this

theorem get_client_split {before after : List Client} {c : Client} {n : List Nat}
    (hc : strcmp c.name n = 0) (hb : ∀ x ∈ before, strcmp x.name n ≠ 0) :
    get_client (before ++ c :: after) n = some before.length := by
  have := get_client_loop_skip before (c :: after) n 0 hb
  simpa [get_client, get_client_loop, hc] using this

theorem get_previous_client_split {before after : List Client} {c : Client} {n : List Nat}
    (hc : strcmp c.name n = 0) (hb : ∀ x ∈ before, strcmp x.name n ≠ 0) :
    get_previous_client (before ++ c :: after) n =
      if before = [] then none else some (before.length - 1) := by
  have := get_previous_client_loop_skip before (c :: after) n none 0 hb
  simpa [get_previous_client, get_previous_client_loop, hc] using this

/-- Function `remove_client` unlinks the first client whose name compares equal. -/
theorem remove_client_split {before after : List Client} {c : Client} {n : List Nat}
    (hc : strcmp c.name n = 0) (hb : ∀ x ∈ before, strcmp x.name n ≠ 0) :
    remove_client (before ++ c :: after) (some n) = before ++ after := by
  simp only [remove_client, get_client_split hc hb, get_previous_client_split hc hb]
  cases before with
  | nil => simp
  | cons b bs =>
    simp only [reduceCtorEq, if_false, List.length_cons, Nat.add_sub_cancel]
    have h1 : List.take (bs.length + 1) (b :: bs ++ c :: after) = b :: bs := by
      have : (b :: bs).length = bs.length + 1 := by simp
      rw [← this, List.take_left]
    have h2 : List.drop (bs.length + 1 + 1) (b :: bs ++ c :: after) = after := by
      have : (b :: bs ++ [c]).length = bs.length + 1 + 1 := by simp
      have e : b :: bs ++ c :: after = (b :: bs ++ [c]) ++ after := by simp
      rw [e, ← this, List.drop_left]
    rw [h1, h2]

theorem remove_client_absent {l : List Client} {n : List Nat}
    (h : ∀ x ∈ l, strcmp x.name n ≠ 0) : remove_client l (some n) = l := by
  simp [remove_client, get_client_none h]

theorem remove_client_sublist (l : List Client) (n : Option (List Nat)) :
    (remove_client l n).Sublist l := by
  cases n with
  | none => simp [remove_client]
  | some n =>
    rcases split_first_named l n with h | ⟨before, c, after, hl, hc, hb⟩
    · rw [remove_client_absent h]
    · rw [hl, remove_client_split hc hb]
      exact List.Sublist.append (List.Sublist.refl _) (List.sublist_cons_self _ _)

theorem add_client_loop_eq (newClient : Client) (rest : List Client) :
    ∀ (l before : List Client), l = before ++ rest → rest ≠ [] →
      NamesAreStrings l → DistinctNames l →
      add_client_loop l newClient rest =
        before ++ insert_before_first_not_smaller newClient rest := by
  induction rest with
  | nil => intro l before _ h; exact absurd rfl h
  | cons cur next ih =>
    intro l before hl _ hs hd
    simp only [add_client_loop, insert_before_first_not_smaller]
    split
    · cases next with
      | nil => simp [hl, insert_before_first_not_smaller]
      | cons c2 n2 =>
        simp only
        rw [ih l (before ++ [cur]) (by simp [hl]) (by simp) hs hd]
        simp
    · have hb : ∀ x ∈ before, strcmp x.name cur.name ≠ 0 := by
        intro x hx h0
        have hxl : x ∈ l := by simp [hl, hx]
        have hcl : cur ∈ l := by simp [hl]
        have e := strcmp_eq_zero (hs x hxl) (hs cur hcl) h0
        unfold DistinctNames at hd
        rw [hl, List.map_append, List.nodup_append] at hd
        exact hd.2.2 (List.mem_map_of_mem _ hx) (e ▸ List.mem_map_of_mem _ (List.mem_cons_self _ _))
      rw [hl, get_previous_client_split (strcmp_self _) hb]
      cases before with
      | nil => simp
      | cons b bs =>
        simp only [reduceCtorEq, if_false, List.length_cons, Nat.add_sub_cancel]
        have : (b :: bs).length = bs.length + 1 := by simp
        rw [← this, List.take_left]

/-- On a list of distinct names `add_client` is ordered insertion. -/
theorem add_client_eq (l : List Client) (newClient : Client)
    (hs : NamesAreStrings l) (hd : DistinctNames l) :
    add_client l newClient = insert_before_first_not_smaller newClient l := by
  cases l with
  | nil => simp [add_client, insert_before_first_not_smaller]
  | cons a as =>
    simp only [add_client]
    simpa using add_client_loop_eq newClient (a :: as) (a :: as) [] (by simp) (by simp) hs hd

theorem insert_perm (newClient : Client) (l : List Client) :
    (insert_before_first_not_smaller newClient l).Perm (newClient :: l) := by
  induction l with
  | nil => simp [insert_before_first_not_smaller]
  | cons c rest ih =>
    simp only [insert_before_first_not_smaller]
    split
    · exact (List.Perm.cons c ih).trans (List.Perm.swap _ _ _)
    · exact List.Perm.refl _

theorem insert_sorted (newClient : Client) (l : List Client) (hn : 0 ∉ newClient.name)
    (hs : NamesAreStrings l) (h : SortedNames l) :
    SortedNames (insert_before_first_not_smaller newClient l) := by
  induction l with
  | nil => simp [insert_before_first_not_smaller, SortedNames]
  | cons c rest ih =>
    have hsr : NamesAreStrings rest := fun x hx => hs x (List.mem_cons_of_mem _ hx)
    have hc : 0 ∉ c.name := hs c (List.mem_cons_self _ _)
    unfold SortedNames at h ih ⊢
    rw [List.pairwise_cons] at h
    simp only [insert_before_first_not_smaller]
    split
    · rename_i hgt
      rw [List.pairwise_cons]
      refine ⟨?_, ih hsr h.2⟩
      intro x hx
      rcases List.mem_cons.1 ((insert_perm newClient rest).subset hx) with rfl | hx
      · exact strcasecmp_flip hgt
      · exact h.1 x hx
    · rename_i hle
      rw [List.pairwise_cons, List.pairwise_cons]
      refine ⟨?_, h⟩
      intro x hx
      rcases List.mem_cons.1 hx with rfl | hx
      · omega
      · exact strcasecmp_trans hn hc (by omega) (h.1 x hx)

/-! ## Tokenising -/

theorem strtok_token (tok rest delim : List Nat) (d : Nat) (hne : tok ≠ [])
    (htok : ∀ x ∈ tok, x ∉ delim) (hd : d ∈ delim) :
    strtok (tok ++ d :: rest) delim = (some tok, rest) := by
  cases tok with
  | nil => exact absurd rfl hne
  | cons t ts =>
    have ht : t ∉ delim := htok t (List.mem_cons_self _ _)
    have h1 : List.dropWhile (fun c => decide (c ∈ delim)) (t :: ts ++ d :: rest)
        = t :: (ts ++ d :: rest) := by
      rw [List.cons_append, List.dropWhile_cons_of_neg (by simpa using ht)]
    have hall : ∀ a ∈ t :: ts, (fun c => !decide (c ∈ delim)) a = true := by
      intro a ha
      simpa using htok a ha
    have h2 : List.takeWhile (fun c => !decide (c ∈ delim)) ((t :: ts) ++ d :: rest)
        = t :: ts := by
      rw [List.takeWhile_append_of_pos hall, List.takeWhile_cons_of_neg (by simpa using hd)]
      simp
    have h3 : List.dropWhile (fun c => !decide (c ∈ delim)) ((t :: ts) ++ d :: rest)
        = d :: rest := by
      rw [List.dropWhile_append_of_pos hall, List.dropWhile_cons_of_neg (by simpa using hd)]
    unfold strtok
    rw [h1]
    simp only
    rw [← List.cons_append, h2, h3]
    rfl

theorem strtok_last (tok delim : List Nat) (hne : tok ≠ [])
    (htok : ∀ x ∈ tok, x ∉ delim) :
    strtok tok delim = (some tok, []) := by
  cases tok with
  | nil => exact absurd rfl hne
  | cons t ts =>
    have ht : t ∉ delim := htok t (List.mem_cons_self _ _)
    have h1 : List.dropWhile (fun c => decide (c ∈ delim)) (t :: ts) = t :: ts := by
      rw [List.dropWhile_cons_of_neg (by simpa using ht)]
    have hall : ∀ a ∈ t :: ts, (fun c => !decide (c ∈ delim)) a = true := by
      intro a ha
      simpa using htok a ha
    have h2 : List.takeWhile (fun c => !decide (c ∈ delim)) (t :: ts) = t :: ts := by
      have := @List.takeWhile_append_of_pos _ _ _ [] hall
      simpa using this
    have h3 : List.dropWhile (fun c => !decide (c ∈ delim)) (t :: ts) = [] := by
      have := @List.dropWhile_append_of_pos _ _ _ [] hall
      simpa using this
    unfold strtok
    rw [h1]
    simp only
    rw [h2, h3]
    rfl

theorem strtok_nil (delim : List Nat) : strtok [] delim = (none, []) := by
  simp [strtok]

/-- A token is non-empty, free of delimiters and made of bytes of the scanned
string, and so is the rest. -/
theorem strtok_some {p delim tok : List Nat} (h : (strtok p delim).1 = some tok) :
    tok ≠ [] ∧ (∀ x ∈ tok, x ∈ p ∧ x ∉ delim) ∧ ∀ x ∈ (strtok p delim).2, x ∈ p := by
  unfold strtok at h ⊢
  split at h
  · simp at h
  · rename_i c rest hdrop
    simp only [Option.some.injEq] at h
    have hsub : ∀ x ∈ c :: rest, x ∈ p := by
      intro x hx
      exact List.dropWhile_subset _ (hdrop ▸ hx)
    have hc : c ∉ delim := by
      have := List.head_dropWhile_not (fun c => decide (c ∈ delim)) p (by simp [hdrop])
      simpa [hdrop] using this
    refine ⟨?_, ?_, ?_⟩
    · rw [← h, List.takeWhile_cons_of_pos (by simpa using hc)]
      simp
    · intro x hx
      rw [← h] at hx
      refine ⟨hsub x (List.takeWhile_subset _ hx), ?_⟩
      simpa using List.mem_takeWhile_imp hx
    · intro x hx
      exact hsub x (List.dropWhile_subset _ (List.mem_of_mem_drop hx))

theorem strtok_none {p delim : List Nat} (h : (strtok p delim).1 = none) :
    (strtok p delim).2 = [] := by
  unfold strtok at h ⊢
  split
  · rfl
  · rename_i c rest hdrop
    rw [hdrop] at h
    simp at h

/-! ## Sending -/

theorem charVal_of_lt {b : Nat} (h : b < 128) : charVal b = (b : Int) := by
  simp [charVal, h]

theorem sanitise_idem (m : List Nat) : sanitise (sanitise m) = sanitise m := by
  unfold sanitise
  rw [List.map_map]
  apply List.map_congr_left
  intro c _
  simp only [Function.comp]
  by_cases h : charVal c < 32 ∧ c ≠ 10
  · rw [if_pos h]
    simp [charVal]
  · rw [if_neg h, if_neg h]

theorem sanitise_length (m : List Nat) : (sanitise m).length = m.length := by
  simp [sanitise]

/-- A line of bytes `32..127` and terminators is sent as it is. -/
theorem sanitise_printable {m : List Nat} (h : ∀ c ∈ m, c = 10 ∨ (32 ≤ c ∧ c < 128)) :
    sanitise m = m := by
  unfold sanitise
  conv_rhs => rw [← List.map_id m]
  apply List.map_congr_left
  intro c hc
  rcases h c hc with h10 | ⟨h1, h2⟩
  · simp [h10]
  · rw [if_neg]
    · rfl
    · rw [charVal_of_lt h2]
      omega

theorem send_message_some (c : Client) (m : List Nat) :
    send_message c (some m) = (1, deliver c (sanitise m), some (sanitise m)) := by
  unfold send_message deliver
  simp only
  split <;> rfl

theorem deliver_name (c : Client) (m : List Nat) : (deliver c m).name = c.name := by
  unfold deliver
  split <;> rfl

theorem deliver_isCommunicating (c : Client) (m : List Nat) :
    (deliver c m).isCommunicating = c.isCommunicating := by
  unfold deliver
  split <;> rfl

theorem deliver_written (c : Client) (m : List Nat) (h : c.writeHandle.error = false) :
    (deliver c m).writeHandle.written = c.writeHandle.written ++ m ++ [10] := by
  simp [deliver, h]

theorem add_to_client_stats_name (c : Client) (k : Int) :
    (add_to_client_stats c k).name = c.name := by
  unfold add_to_client_stats
  split <;> rfl

theorem add_to_client_stats_isCommunicating (c : Client) (k : Int) :
    (add_to_client_stats c k).isCommunicating = c.isCommunicating := by
  unfold add_to_client_stats
  split <;> rfl

theorem add_to_client_stats_writeHandle (c : Client) (k : Int) :
    (add_to_client_stats c k).writeHandle = c.writeHandle := by
  unfold add_to_client_stats
  split <;> rfl

theorem add_to_server_stats_clientList (s : Server) (k : Int) :
    (add_to_server_stats s k).clientList = s.clientList := by
  unfold add_to_server_stats
  split <;> rfl

theorem add_to_server_stats_stdout (s : Server) (k : Int) :
    (add_to_server_stats s k).stdout = s.stdout := by
  unfold add_to_server_stats
  split <;> rfl

/-- The send loop hands every active client the sanitised line. -/
theorem broadcast_loop_clients (l : List Client) (m : List Nat) :
    (broadcast_loop l m).1 =
      l.map (fun c => if c.isCommunicating ≠ 0 then deliver c (sanitise m) else c) := by
  induction l generalizing m with
  | nil => rfl
  | cons c rest ih =>
    simp only [broadcast_loop, List.map_cons]
    split
    · simp only [send_message_some, Option.getD_some, ih, sanitise_idem]
    · simp only [ih]

/-- The send loop calls `send_message` for the active clients in list order. -/
theorem broadcast_loop_order (l : List Client) (m : List Nat) :
    (broadcast_loop l m).2.2 =
      (l.filter (fun c => decide (c.isCommunicating ≠ 0))).map Client.name := by
  induction l generalizing m with
  | nil => rfl
  | cons c rest ih =>
    simp only [broadcast_loop]
    split
    · rename_i h
      rw [List.filter_cons_of_pos (by simpa using h)]
      simp only [List.map_cons, ih]
    · rename_i h
      rw [List.filter_cons_of_neg (by simpa using h)]
      simp only [ih]

theorem broadcast_loop_names (l : List Client) (m : List Nat) :
    (broadcast_loop l m).1.map Client.name = l.map Client.name := by
  rw [broadcast_loop_clients, List.map_map]
  apply List.map_congr_left
  intro c _
  simp only [Function.comp]
  split
  · exact deliver_name _ _
  · rfl

theorem broadcast_to_clients_names {s s1 : Server} {m : List Nat}
    (h : broadcast_to_clients s m = some s1) :
    s1.clientList.map Client.name = s.clientList.map Client.name := by
  unfold broadcast_to_clients at h
  split at h
  · simp at h
  · simp only [Option.some.injEq] at h
    rw [← h]
    exact broadcast_loop_names _ _

/-! ## Assignments through a client pointer -/

theorem update_client_names (l : List Client) (i : Nat) (f : Client → Client)
    (hf : ∀ c, (f c).name = c.name) :
    (update_client l i f).map Client.name = l.map Client.name := by
  induction l generalizing i with
  | nil => rfl
  | cons c rest ih =>
    cases i with
    | zero => simp [update_client, hf]
    | succ j => simp [update_client, ih]

theorem update_client_get (l : List Client) (i j : Nat) (f : Client → Client) :
    (update_client l i f)[j]? = if j = i then l[j]?.map f else l[j]? := by
  induction l generalizing i j with
  | nil => simp [update_client]
  | cons c rest ih =>
    cases i with
    | zero =>
      cases j with
      | zero => simp [update_client]
      | succ k => simp [update_client]
    | succ i1 =>
      cases j with
      | zero => simp [update_client]
      | succ k => simp [update_client, ih]

/-! ## Receiving -/

theorem cstr_no_nul (bytes : List Nat) : 0 ∉ cstr bytes := by
  intro h
  have := List.mem_takeWhile_imp h
  simp at this

theorem strtok_buffer_subset (p delim : List Nat) : ∀ x ∈ strtok_buffer p delim, x ∈ p := by
  intro x hx
  unfold strtok_buffer at hx
  rcases List.mem_append.1 hx with h | h
  · exact List.takeWhile_subset _ h
  · exact List.dropWhile_subset _ (List.takeWhile_subset _ h)

/-- The buffer holds a C string after `receive_message` if it did before. -/
theorem receive_message_no_nul (c : Client) (buffer : List Nat) (h : 0 ∉ buffer) :
    0 ∉ (receive_message c buffer).2.2 := by
  unfold receive_message
  split
  · exact h
  · split
    · exact h
    · intro h0
      exact cstr_no_nul _ (strtok_buffer_subset _ _ 0 h0)

/-! ## The handshake leaves the client list alone -/

theorem validate_authentication_clientList {s s1 : Server} {c c1 : Client} {stale : List Nat}
    {a : Int} (h : validate_authentication s c stale = some (a, s1, c1)) :
    s1.clientList = s.clientList := by
  unfold validate_authentication at h
  simp only at h
  split at h
  · simp at h
  · have key : ∀ (hh : Int), (if hh = AUTH then add_to_server_stats s STAT_AUTH else s).clientList
        = s.clientList := by
      intro hh
      split
      · exact add_to_server_stats_clientList _ _
      · rfl
    split at h
    · split at h <;>
      · simp only [Option.some.injEq, Prod.mk.injEq] at h
        rw [← h.2.1]
        exact key _
    · simp only [Option.some.injEq, Prod.mk.injEq] at h
      rw [← h.2.1]
      exact key _

/-- A name accepted by `validate_client_name` is a non-empty C string without
line terminator that compares different from every registered name. -/
theorem validate_client_name_rec_spec (fuel : Nat) :
    ∀ (s : Server) (c : Client) (stale : List Nat) (v : Int) (s1 : Server) (c1 : Client),
      validate_client_name_rec fuel s c stale = some (v, s1, c1) →
      s1.clientList = s.clientList ∧
      (0 ∉ stale → v ≠ 0 → 0 ∉ c1.name ∧ c1.name ≠ [] ∧ 10 ∉ c1.name ∧
        ∀ x ∈ s.clientList, strcmp c1.name x.name ≠ 0) := by
  induction fuel with
  | zero =>
    intro s c stale v s1 c1 h
    simp [validate_client_name_rec] at h
  | succ n ih =>
    intro s c stale v s1 c1 h
    simp only [validate_client_name_rec] at h
    split at h
    · rename_i clientName name h2 h1
      split at h
      · simp only [Option.some.injEq, Prod.mk.injEq] at h
        refine ⟨by rw [← h.2.1], fun _ hv => absurd h.1.symm hv⟩
      · split at h
        · have := ih _ _ _ _ _ _ h
          rw [add_to_server_stats_clientList] at this
          exact this
        · rename_i hany
          simp only [Option.some.injEq, Prod.mk.injEq] at h
          refine ⟨by rw [← h.2.1, add_to_server_stats_clientList], fun hst _ => ?_⟩
          have hname : c1.name = clientName := by
            rw [← h.2.2, send_message_some, deliver_name]
          have hbuf := receive_message_no_nul
            (send_message c (some (str "WHO:"))).2.1 stale hst
          have p1 := strtok_some h1
          have p2 := strtok_some h2
          rw [hname]
          refine ⟨?_, p2.1, ?_, ?_⟩
          · intro h0
            exact hbuf (p1.2.2 0 ((p2.2.1 0 h0).1))
          · intro h10
            exact (p2.2.1 10 h10).2 (by simp)
          · intro x hx h0
            apply hany
            rw [add_to_server_stats_clientList]
            exact List.any_eq_true.2 ⟨x, hx, by simpa using h0⟩
    · simp only [Option.some.injEq, Prod.mk.injEq] at h
      exact ⟨by rw [← h.2.1], fun _ hv => absurd h.1.symm hv⟩

/-! ## Well-formed registries -/

theorem namesAreStrings_iff (l : List Client) :
    NamesAreStrings l ↔ ∀ n ∈ l.map Client.name, 0 ∉ n := by
  simp [NamesAreStrings]

theorem namesAreLines_iff (l : List Client) :
    NamesAreLines l ↔ ∀ n ∈ l.map Client.name, n ≠ [] ∧ 10 ∉ n := by
  simp [NamesAreLines]

theorem sortedNames_iff (l : List Client) :
    SortedNames l ↔ (l.map Client.name).Pairwise (fun a b => strcasecmp a b ≤ 0) := by
  simp [SortedNames, List.pairwise_map]

theorem registry_congr {l l1 : List Client} (h : l1.map Client.name = l.map Client.name) :
    (NamesAreStrings l → NamesAreStrings l1) ∧ (DistinctNames l → DistinctNames l1) ∧
    (SortedNames l → SortedNames l1) ∧ (NamesAreLines l → NamesAreLines l1) := by
  refine ⟨?_, ?_, ?_, ?_⟩
  · rw [namesAreStrings_iff, namesAreStrings_iff, h]; exact id
  · unfold DistinctNames; rw [h]; exact id
  · rw [sortedNames_iff, sortedNames_iff, h]; exact id
  · rw [namesAreLines_iff, namesAreLines_iff, h]; exact id

theorem registry_sublist {l l1 : List Client} (h : l1.Sublist l) :
    (NamesAreStrings l → NamesAreStrings l1) ∧ (DistinctNames l → DistinctNames l1) ∧
    (SortedNames l → SortedNames l1) ∧ (NamesAreLines l → NamesAreLines l1) := by
  refine ⟨?_, ?_, ?_, ?_⟩
  · intro hs c hc; exact hs c (h.subset hc)
  · intro hd; exact List.Nodup.sublist (h.map _) hd
  · intro hs; exact List.Pairwise.sublist h hs
  · intro hs c hc; exact hs c (h.subset hc)

theorem registry_add {l : List Client} {c : Client}
    (hs : NamesAreStrings l) (hd : DistinctNames l)
    (h0 : 0 ∉ c.name) (hfree : ∀ x ∈ l, strcmp c.name x.name ≠ 0) :
    NamesAreStrings (add_client l c) ∧ DistinctNames (add_client l c) ∧
    (SortedNames l → SortedNames (add_client l c)) ∧
    (NamesAreLines l → c.name ≠ [] ∧ 10 ∉ c.name → NamesAreLines (add_client l c)) := by
  rw [add_client_eq l c hs hd]
  have hp := insert_perm c l
  refine ⟨?_, ?_, ?_, ?_⟩
  · intro x hx
    rcases List.mem_cons.1 (hp.subset hx) with rfl | hx
    · exact h0
    · exact hs x hx
  · unfold DistinctNames at hd ⊢
    rw [(hp.map Client.name).nodup_iff, List.map_cons, List.nodup_cons]
    refine ⟨?_, hd⟩
    intro hmem
    rcases List.mem_map.1 hmem with ⟨x, hx, hxe⟩
    exact hfree x hx (by rw [hxe]; exact strcmp_self _)
  · exact insert_sorted c l h0 hs
  · intro hl hc x hx
    rcases List.mem_cons.1 (hp.subset hx) with rfl | hx
    · exact hc
    · exact hl x hx

/-! ## Steps of the server keep the names -/

theorem kick_client_names (s : Server) (name : Option (List Nat)) :
    (kick_client s name).clientList.map Client.name = s.clientList.map Client.name := by
  unfold kick_client
  split
  · rfl
  · split
    · rfl
    · simp only
      apply update_client_names
      intro c
      simp only [send_message_some, deliver_name]

theorem handle_client_message_names {s s1 : Server} {i : Nat} {m : List Nat} {r : Int}
    (h : handle_client_message s i m = some (r, s1)) :
    s1.clientList.map Client.name = s.clientList.map Client.name := by
  unfold handle_client_message at h
  split at h
  · simp at h
  · split at h
    · simp only [Option.some.injEq, Prod.mk.injEq] at h
      rw [← h.2]
    · simp only at h
      split at h
      · simp at h
      · split at h
        · split at h
          · simp at h
          · simp only [Option.map_eq_some', Prod.mk.injEq] at h
            rcases h with ⟨s2, hb, -, rfl⟩
            rw [broadcast_to_clients_names hb, add_to_server_stats_clientList]
            exact update_client_names _ _ _ (fun c => add_to_client_stats_name c _)
        · split at h
          · simp only [Option.some.injEq, Prod.mk.injEq] at h
            rw [← h.2, kick_client_names, add_to_server_stats_clientList]
            exact update_client_names _ _ _ (fun c => add_to_client_stats_name c _)
          · split at h
            · split at h
              · simp at h
              · simp only [Option.some.injEq, Prod.mk.injEq] at h
                rw [← h.2]
                simp only
                rw [update_client_names _ _ _
                  (fun c => by simp only [send_message_some, deliver_name]),
                  add_to_server_stats_clientList]
                exact update_client_names _ _ _ (fun c => add_to_client_stats_name c _)
            · split at h
              · simp only [Option.some.injEq, Prod.mk.injEq] at h
                rw [← h.2, add_to_server_stats_clientList]
              · simp only [Option.some.injEq, Prod.mk.injEq] at h
                rw [← h.2]

/-- A handshake either leaves the client list as it is or adds one client
whose name is a fresh, non-empty C string without line terminator. -/
theorem listen_to_client_join_names {s s1 : Server} {c : Client}
    {staleAuth staleName : List Nat} {entered : Bool} (hst : 0 ∉ staleName)
    (h : listen_to_client_join s c staleAuth staleName = some (entered, s1)) :
    (entered = false ∧ s1.clientList = s.clientList) ∨
    (entered = true ∧ ∃ c2 : Client, 0 ∉ c2.name ∧ c2.name ≠ [] ∧ 10 ∉ c2.name ∧
      (∀ x ∈ s.clientList, strcmp c2.name x.name ≠ 0) ∧
      s1.clientList.map Client.name = (add_client s.clientList c2).map Client.name) := by
  unfold listen_to_client_join at h
  split at h
  · simp at h
  · rename_i a sa ca ha
    have e1 := validate_authentication_clientList ha
    split at h
    · simp only [Option.some.injEq, Prod.mk.injEq] at h
      left
      exact ⟨h.1.symm, by rw [← h.2, e1]⟩
    · split at h
      · simp at h
      · rename_i v sv cv hv
        have e2 := validate_client_name_rec_spec _ _ _ _ _ _ _ hv
        split at h
        · simp only [Option.some.injEq, Prod.mk.injEq] at h
          left
          exact ⟨h.1.symm, by rw [← h.2, e2.1, e1]⟩
        · rename_i hv0
          simp only [Option.map_eq_some', Prod.mk.injEq] at h
          rcases h with ⟨s2, hb, he, rfl⟩
          right
          have e3 := e2.2 hst hv0
          rw [e1] at e3
          refine ⟨he.symm, cv, e3.1, e3.2.1, e3.2.2.1, e3.2.2.2, ?_⟩
          rw [broadcast_to_clients_names hb]
          simp only
          rw [e2.1, e1]

theorem listen_to_client_leave_names {s s1 : Server} {i : Nat}
    (h : listen_to_client_leave s i = some s1) :
    ∃ l : List Client, l.Sublist s.clientList ∧
      s1.clientList.map Client.name = l.map Client.name := by
  unfold listen_to_client_leave at h
  split at h
  · simp at h
  · rename_i c _
    exact ⟨_, remove_client_sublist s.clientList (some c.name), broadcast_to_clients_names h⟩

/-- In every reachable state the registered names are C strings, pairwise
different, sorted, non-empty and free of line terminators. -/
theorem reachable_registry {s : Server} (h : Reachable s) :
    NamesAreStrings s.clientList ∧ DistinctNames s.clientList ∧
    SortedNames s.clientList ∧ NamesAreLines s.clientList := by
  induction h with
  | init authString stats out err =>
    simp [NamesAreStrings, DistinctNames, SortedNames, NamesAreLines]
  | join c staleAuth staleName entered _ hst hj ih =>
    rcases listen_to_client_join_names hst hj with ⟨-, e⟩ | ⟨-, c2, h0, hne, h10, hfree, e⟩
    · rw [e]; exact ih
    · have ha := registry_add ih.1 ih.2.1 h0 hfree
      have hc := registry_congr e
      exact ⟨hc.1 ha.1, hc.2.1 ha.2.1, hc.2.2.1 (ha.2.2.1 ih.2.2.1),
        hc.2.2.2 (ha.2.2.2 ih.2.2.2 ⟨hne, h10⟩)⟩
  | message client line r _ hm ih =>
    have hc := registry_congr (handle_client_message_names hm)
    exact ⟨hc.1 ih.1, hc.2.1 ih.2.1, hc.2.2.1 ih.2.2.1, hc.2.2.2 ih.2.2.2⟩
  | @kick s0 name _ ih =>
    have hc := registry_congr (kick_client_names s0 name)
    exact ⟨hc.1 ih.1, hc.2.1 ih.2.1, hc.2.2.1 ih.2.2.1, hc.2.2.2 ih.2.2.2⟩
  | leave client _ hl ih =>
    rcases listen_to_client_leave_names hl with ⟨l, hsub, e⟩
    have hs := registry_sublist hsub
    have hc := registry_congr e
    exact ⟨hc.1 (hs.1 ih.1), hc.2.1 (hs.2.1 ih.2.1), hc.2.2.1 (hs.2.2.1 ih.2.2.1),
      hc.2.2.2 (hs.2.2.2 ih.2.2.2)⟩

theorem distinct_strcmp {l : List Client} (hs : NamesAreStrings l) (hd : DistinctNames l) :
    l.Pairwise (fun a b => strcmp a.name b.name ≠ 0) := by
  unfold DistinctNames List.Nodup at hd
  rw [List.pairwise_map] at hd
  refine List.Pairwise.imp_of_mem ?_ hd
  intro a b ha hb hne h0
  exact hne (strcmp_eq_zero (hs a ha) (hs b hb) h0)

/-! ## Rendering and dispatch on concrete keywords -/

theorem handle_server_message_MSG (rest : List Nat) :
    handle_server_message (str "MSG:" ++ rest) =
      some (0, fmt_s (strtok rest [58]).1 ++ str ": " ++
        fmt_s (strtok (strtok rest [58]).2 [10]).1 ++ [10], []) := by
  have h : strtok (str "MSG:" ++ rest) [58] = (some (str "MSG"), rest) :=
    strtok_token (str "MSG") rest [58] 58 (by decide) (by decide) (by decide)
  have hh : hash_input (some (str "MSG")) = some MSG := by decide
  have e1 : ¬ (MSG = ENTER) := by decide
  have e2 : ¬ (MSG = LEAVE) := by decide
  unfold handle_server_message
  simp only [h, hh, e1, e2, ↓reduceIte]

theorem handle_server_message_ENTER (rest : List Nat) :
    handle_server_message (str "ENTER:" ++ rest) =
      some (0, str "(" ++ fmt_s (strtok rest [58]).1 ++ str " has entered the chat)" ++ [10],
        []) := by
  have h : strtok (str "ENTER:" ++ rest) [58] = (some (str "ENTER"), rest) :=
    strtok_token (str "ENTER") rest [58] 58 (by decide) (by decide) (by decide)
  have hh : hash_input (some (str "ENTER")) = some ENTER := by decide
  unfold handle_server_message
  simp only [h, hh, ↓reduceIte]

theorem handle_server_message_LEAVE (rest : List Nat) :
    handle_server_message (str "LEAVE:" ++ rest) =
      some (0, str "(" ++ fmt_s (strtok rest [58]).1 ++ str " has left the chat)" ++ [10],
        []) := by
  have h : strtok (str "LEAVE:" ++ rest) [58] = (some (str "LEAVE"), rest) :=
    strtok_token (str "LEAVE") rest [58] 58 (by decide) (by decide) (by decide)
  have hh : hash_input (some (str "LEAVE")) = some LEAVE := by decide
  have e1 : ¬ (LEAVE = ENTER) := by decide
  unfold handle_server_message
  simp only [h, hh, e1, ↓reduceIte]

theorem fmt_s_some (s : List Nat) : fmt_s (some s) = s := rfl

/-- What `%s` prints for a token holds no byte that the scanned string lacks,
except those of `(null)`. -/
theorem fmt_s_token_no_newline {p delim : List Nat} (hp : 10 ∉ p) :
    10 ∉ fmt_s (strtok p delim).1 := by
  cases h : (strtok p delim).1 with
  | none => simp only [fmt_s]; decide
  | some tok =>
    simp only [fmt_s]
    intro h10
    exact hp ((strtok_some h).2.1 10 h10).1

theorem strtok_rest_no_newline {p delim : List Nat} (hp : 10 ∉ p) :
    10 ∉ (strtok p delim).2 := by
  cases h : (strtok p delim).1 with
  | none => rw [strtok_none h]; simp
  | some tok =>
    intro h10
    exact hp ((strtok_some h).2.2 10 h10)

theorem map_get (l : List Client) (g : Client → Client) (j : Nat) :
    (l.map g)[j]? = l[j]?.map g := by
  simp

theorem update_client_active_names (l : List Client) (i : Nat) (f : Client → Client)
    (hf : ∀ c, (f c).name = c.name ∧ (f c).isCommunicating = c.isCommunicating) :
    ((update_client l i f).filter (fun m => decide (m.isCommunicating ≠ 0))).map Client.name =
      (l.filter (fun m => decide (m.isCommunicating ≠ 0))).map Client.name := by
  induction l generalizing i with
  | nil => rfl
  | cons c rest ih =>
    cases i with
    | zero =>
      simp only [update_client, List.filter_cons, (hf c).2]
      split
      · simp only [List.map_cons, (hf c).1]
      · rfl
    | succ j =>
      simp only [update_client, List.filter_cons]
      split
      · simp only [List.map_cons, ih]
      · exact ih j

/-- The state after a member's `SAY:` line. -/
theorem handle_client_message_SAY (s : Server) (X : Nat) (c : Client) (text : List Nat)
    (hX : s.clientList[X]? = some c) (hact : c.isCommunicating ≠ 0)
    (hne : text ≠ []) (hnl : 10 ∉ text)
    (hfit : (str "MSG:" ++ c.name ++ str ":" ++ text).length < MAX_BUF) :
    ∃ s1 : Server, handle_client_message s X (str "SAY:" ++ text) = some (1, s1) ∧
      s1.stdout = s.stdout ++ (fmt_s (strtok (c.name ++ str ":" ++ text) [58]).1 ++ str ": " ++
        fmt_s (strtok (strtok (c.name ++ str ":" ++ text) [58]).2 [10]).1 ++ [10]) ∧
      s1.clientList =
        (update_client s.clientList X (fun c => add_to_client_stats c STAT_SAY)).map
          (fun m => if m.isCommunicating ≠ 0 then
            deliver m (sanitise (str "MSG:" ++ c.name ++ str ":" ++ text)) else m) ∧
      s1.stats = increment s.stats STAT_SAY ∧ s1.authString = s.authString ∧
      s1.stderr = s.stderr := by
  have h1 : strtok (str "SAY:" ++ text) [58] = (some (str "SAY"), text) :=
    strtok_token (str "SAY") text [58] 58 (by decide) (by decide) (by decide)
  have h2 : strtok text [10] = (some text, []) :=
    strtok_last text [10] hne (by intro x hx h; simp at h; exact hnl (h ▸ hx))
  have hh : hash_input (some (str "SAY")) = some SAY := by decide
  have hline : str "MSG:" ++ c.name ++ str ":" ++ text
      = str "MSG:" ++ (c.name ++ str ":" ++ text) := by
    simp
  have hfit2 : ¬ MAX_BUF < (str "MSG:" ++ c.name ++ str ":" ++ text).length + 1 := by omega
  unfold handle_client_message
  simp only [hX, if_neg hact, h1, h2, hh, ↓reduceIte, fmt_s_some, hfit2]
  unfold broadcast_to_clients
  rw [hline, handle_server_message_MSG]
  simp only [Option.map_some']
  refine ⟨_, rfl, ?_, ?_, ?_, ?_, ?_⟩
  · simp only [add_to_server_stats_stdout]
  · simp only [add_to_server_stats_clientList, broadcast_loop_clients]
  · simp [add_to_server_stats, STAT_SAY, NUM_SERVER_STATS]
  · simp [add_to_server_stats, STAT_SAY, NUM_SERVER_STATS]
  · simp [add_to_server_stats, STAT_SAY, NUM_SERVER_STATS]

/-! ## Kicking -/

theorem split_at_position {l : List Client} {v : Nat} {cv : Client} (h : l[v]? = some cv) :
    ∃ before after, l = before ++ cv :: after ∧ before.length = v := by
  induction l generalizing v with
  | nil => simp at h
  | cons a as ih =>
    cases v with
    | zero =>
      simp only [List.getElem?_cons_zero, Option.some.injEq] at h
      exact ⟨[], as, by simp [h], rfl⟩
    | succ w =>
      simp only [List.getElem?_cons_succ] at h
      rcases ih h with ⟨before, after, e, hl⟩
      exact ⟨a :: before, after, by simp [e], by simp [hl]⟩

/-- In a registry of distinct names `get_client` finds a member by its name. -/
theorem get_client_at {l : List Client} {v : Nat} {cv : Client}
    (hs : NamesAreStrings l) (hd : DistinctNames l) (h : l[v]? = some cv) :
    get_client l cv.name = some v := by
  rcases split_at_position h with ⟨before, after, e, hl⟩
  have hb : ∀ x ∈ before, strcmp x.name cv.name ≠ 0 := by
    intro x hx h0
    have hxl : x ∈ l := by simp [e, hx]
    have hcl : cv ∈ l := by simp [e]
    have en := strcmp_eq_zero (hs x hxl) (hs cv hcl) h0
    unfold DistinctNames at hd
    rw [e, List.map_append, List.nodup_append] at hd
    exact hd.2.2 (List.mem_map_of_mem _ hx) (en ▸ List.mem_map_of_mem _ (List.mem_cons_self _ _))
  rw [e, get_client_split (strcmp_self _) hb, hl]

/-- The state after a member's `KICK:<name>` line. -/
theorem handle_client_message_KICK (s : Server) (k : Nat) (ck : Client) (name : List Nat)
    (hk : s.clientList[k]? = some ck) (hact : ck.isCommunicating ≠ 0)
    (hne : name ≠ []) (hnl : 10 ∉ name) :
    handle_client_message s k (str "KICK:" ++ name) =
      some (1, kick_client
        (add_to_server_stats
          { s with clientList :=
              update_client s.clientList k (fun c => add_to_client_stats c STAT_KICK) }
          STAT_KICK) (some name)) := by
  have h1 : strtok (str "KICK:" ++ name) [58] = (some (str "KICK"), name) :=
    strtok_token (str "KICK") name [58] 58 (by decide) (by decide) (by decide)
  have h2 : strtok name [10] = (some name, []) :=
    strtok_last name [10] hne (by intro x hx h; simp at h; exact hnl (h ▸ hx))
  have hh : hash_input (some (str "KICK")) = some KICK := by decide
  have e1 : ¬ (KICK = SAY) := by decide
  unfold handle_client_message
  simp only [hk, if_neg hact, h1, h2, hh, e1, ↓reduceIte]

/-! ## Reading one line -/

theorem fgets_take_line (line rest : List Nat) (k : Nat) (hnl : 10 ∉ line)
    (hlen : line.length < k) : fgets_take k (line ++ 10 :: rest) = line ++ [10] := by
  induction line generalizing k with
  | nil =>
    cases k with
    | zero => simp at hlen
    | succ k => simp [fgets_take]
  | cons x xs ih =>
    cases k with
    | zero => simp at hlen
    | succ k =>
      simp only [List.mem_cons, not_or] at hnl
      simp only [List.length_cons, Nat.add_lt_add_iff_right] at hlen
      have hx : ¬ x = 10 := fun h => hnl.1 h.symm
      rw [List.cons_append]
      simp only [fgets_take, if_neg hx]
      rw [ih k hnl.2 hlen, List.cons_append]

theorem cstr_of_no_nul (bytes : List Nat) (h : 0 ∉ bytes) : cstr bytes = bytes := by
  unfold cstr
  rw [List.takeWhile_eq_self_iff]
  intro x hx
  have : x ≠ 0 := fun e => h (e ▸ hx)
  simpa using this

theorem strtok_buffer_line (line : List Nat) (hne : line ≠ []) (hnl : 10 ∉ line) :
    strtok_buffer (line ++ [10]) [10] = line := by
  cases line with
  | nil => exact absurd rfl hne
  | cons t ts =>
    simp only [List.mem_cons, not_or] at hnl
    have ht : ¬ t = 10 := fun h => hnl.1 h.symm
    have hall : ∀ a ∈ t :: ts, (fun c => !decide (c ∈ [10])) a = true := by
      intro a ha
      have : a ≠ 10 := by
        rintro rfl
        rcases List.mem_cons.1 ha with h | h
        · exact hnl.1 h
        · exact hnl.2 h
      simpa using this
    unfold strtok_buffer
    rw [List.cons_append, List.takeWhile_cons_of_neg (by simpa using ht),
      List.dropWhile_cons_of_neg (by simpa using ht), ← List.cons_append,
      List.takeWhile_append_of_pos hall]
    simp

/-- Function `receive_message` on a stream that starts with a complete line of fewer
than 510 bytes: the line is stored without its terminator and consumed. -/
theorem receive_line (c : Client) (line rest buffer : List Nat)
    (hread : c.readHandle = ⟨line ++ 10 :: rest, false⟩)
    (hne : line ≠ []) (hnl : 10 ∉ line) (hnul : 0 ∉ line) (hlen : line.length < 510) :
    receive_message c buffer = (1, { c with readHandle := ⟨rest, false⟩ }, line) := by
  have hgot : fgets_take (MAX_BUF - 1 - 1) (line ++ 10 :: rest) = line ++ [10] :=
    fgets_take_line line rest 510 hnl hlen
  have hne2 : line ++ [10] ≠ [] := by simp
  have hdrop : List.drop (line ++ [10]).length (line ++ 10 :: rest) = rest := by
    have e : line ++ 10 :: rest = (line ++ [10]) ++ rest := by simp
    rw [e, List.drop_left]
  have hc : cstr (line ++ [10]) = line ++ [10] :=
    cstr_of_no_nul _ (by simp only [List.mem_append, not_or]; exact ⟨hnul, by decide⟩)
  unfold receive_message fgets
  simp only [hread, hgot, if_neg hne2, hdrop, hc, strtok_buffer_line line hne hnl]
  rfl

theorem deliver_readHandle (c : Client) (m : List Nat) :
    (deliver c m).readHandle = c.readHandle := by
  unfold deliver
  split <;> rfl

theorem deliver_writeHandle (c : Client) (m : List Nat) (h : c.writeHandle.error = false) :
    (deliver c m).writeHandle = ⟨c.writeHandle.written ++ m ++ [10], false⟩ := by
  simp [deliver, h]

/-! ## Candidates -/

theorem fmt_digits_range (fuel n : Nat) : ∀ b ∈ fmt_digits fuel n, 32 ≤ b ∧ b < 128 := by
  induction fuel generalizing n with
  | zero => simp [fmt_digits]
  | succ f ih =>
    intro b hb
    simp only [fmt_digits] at hb
    split at hb
    · simp only [List.mem_singleton] at hb
      omega
    · rcases List.mem_append.1 hb with h | h
      · exact ih _ b h
      · simp only [List.mem_singleton] at h
        omega

theorem candidate_range (name : List Nat) (hp : ∀ b ∈ name, 32 ≤ b ∧ b < 128) (i : Nat) :
    ∀ b ∈ candidate name i, 32 ≤ b ∧ b < 128 := by
  cases i with
  | zero => exact hp
  | succ k =>
    intro b hb
    simp only [candidate, fmt_d] at hb
    rcases List.mem_append.1 hb with h | h
    · exact hp b h
    · rw [if_neg (by omega)] at h
      exact fmt_digits_range _ _ b h

theorem candidate_ne_nil (name : List Nat) (hne : name ≠ []) (i : Nat) :
    candidate name i ≠ [] := by
  cases i with
  | zero => exact hne
  | succ k => simp [candidate, hne]

theorem range_no (l : List Nat) (h : ∀ b ∈ l, 32 ≤ b ∧ b < 128) (x : Nat) (hx : x < 32) :
    x ∉ l := by
  intro hm
  have := h x hm
  omega

/-! ## Name negotiation, server side -/

/-- One call of `validate_client_name` that reads a well-formed `NAME:` line. -/
theorem validate_client_name_rec_step (fuel : Nat) (s : Server) (c : Client)
    (stale cand rest : List Nat)
    (hread : c.readHandle = ⟨str "NAME:" ++ cand ++ 10 :: rest, false⟩)
    (hne : cand ≠ []) (hp : ∀ b ∈ cand, 32 ≤ b ∧ b < 128) (hlen : cand.length ≤ 504) :
    validate_client_name_rec (fuel + 1) s c stale =
      if s.clientList.any (fun x => decide (strcmp cand x.name = 0)) then
        validate_client_name_rec fuel (add_to_server_stats s STAT_NAME)
          (deliver { deliver c (str "WHO:") with readHandle := ⟨rest, false⟩ }
            (str "NAME_TAKEN:")) stale
      else
        some (1, add_to_server_stats s STAT_NAME,
          deliver { deliver c (str "WHO:") with readHandle := ⟨rest, false⟩, name := cand }
            (str "OK:")) := by
  have h10 : 10 ∉ cand := range_no cand hp 10 (by omega)
  have h0 : 0 ∉ cand := range_no cand hp 0 (by omega)
  have hrecv : receive_message (deliver c (str "WHO:")) stale =
      (1, { deliver c (str "WHO:") with readHandle := ⟨rest, false⟩ }, str "NAME:" ++ cand) := by
    apply receive_line
    · rw [deliver_readHandle, hread]
    · simp [str]
    · simp only [List.mem_append, not_or]
      exact ⟨by decide, h10⟩
    · simp only [List.mem_append, not_or]
      exact ⟨by decide, h0⟩
    · simp [str]
      omega
  have h1 : strtok (str "NAME:" ++ cand) [58] = (some (str "NAME"), cand) :=
    strtok_token (str "NAME") cand [58] 58 (by decide) (by decide) (by decide)
  have h2 : strtok cand [10] = (some cand, []) :=
    strtok_last cand [10] hne (by intro x hx h; simp at h; exact h10 (h ▸ hx))
  have hs1 : sanitise (str "WHO:") = str "WHO:" := by decide
  have hs2 : sanitise (str "NAME_TAKEN:") = str "NAME_TAKEN:" := by decide
  have hs3 : sanitise (str "OK:") = str "OK:" := by decide
  have hcmp : ¬ (strcmp (str "NAME") (str "NAME") ≠ 0) := by decide
  simp only [validate_client_name_rec, send_message_some, hs1, hs2, hs3, hrecv, h1, h2,
    if_neg hcmp, add_to_server_stats_clientList]

theorem any_taken {L : List Client} {cand : List Nat} (h : cand ∈ L.map Client.name) :
    L.any (fun x => decide (strcmp cand x.name = 0)) = true := by
  rcases List.mem_map.1 h with ⟨x, hx, rfl⟩
  exact List.any_eq_true.2 ⟨x, hx, by simpa using strcmp_self _⟩

theorem any_free {L : List Client} {cand : List Nat} (hL : NamesAreStrings L)
    (h0 : 0 ∉ cand) (h : cand ∉ L.map Client.name) :
    ¬ (L.any (fun x => decide (strcmp cand x.name = 0)) = true) := by
  intro ha
  rcases List.any_eq_true.1 ha with ⟨x, hx, hc⟩
  have e := strcmp_eq_zero h0 (hL x hx) (by simpa using hc)
  exact h (e ▸ List.mem_map_of_mem _ hx)

/-- The server's side of a negotiation in which the candidates `j .. j+m-1`
are taken and candidate `j+m` is free. -/
theorem validate_client_name_rec_run (n : List Nat) (L : List Client)
    (stale later : List Nat) (hn : n ≠ []) (hp : ∀ b ∈ n, 32 ≤ b ∧ b < 128)
    (hL : NamesAreStrings L) :
    ∀ (m j fuel : Nat) (s : Server) (c : Client), m + 1 ≤ fuel → s.clientList = L →
      c.readHandle = ⟨name_requests_from n j (m + 1) ++ later, false⟩ →
      c.writeHandle.error = false →
      (∀ i, i < m → candidate n (j + i) ∈ L.map Client.name) →
      candidate n (j + m) ∉ L.map Client.name →
      (∀ i, i ≤ m → (candidate n (j + i)).length ≤ 504) →
      ∃ s1 c1, validate_client_name_rec fuel s c stale = some (1, s1, c1) ∧
        s1.clientList = L ∧ c1.name = candidate n (j + m) ∧
        c1.writeHandle = ⟨c.writeHandle.written ++ name_replies m, false⟩ ∧
        c1.readHandle = ⟨later, false⟩ := by
  intro m
  induction m with
  | zero =>
    intro j fuel s c hf hs hread hw _ hfree hlen
    obtain ⟨f, rfl⟩ : ∃ f, fuel = f + 1 := ⟨fuel - 1, by omega⟩
    have hr : c.readHandle = ⟨str "NAME:" ++ candidate n j ++ 10 :: later, false⟩ := by
      rw [hread]
      simp [name_requests_from, name_request]
    have hcp := candidate_range n hp j
    rw [validate_client_name_rec_step f s c stale _ later hr (candidate_ne_nil n hn j) hcp
      (hlen 0 (by omega)), hs,
      if_neg (any_free hL (range_no _ hcp 0 (by omega)) (by simpa using hfree))]
    refine ⟨_, _, rfl, ?_, ?_, ?_, ?_⟩
    · rw [add_to_server_stats_clientList, hs]
    · rw [deliver_name]
      rfl
    · rw [deliver_writeHandle _ _ (by simp [deliver, hw])]
      simp [deliver, hw, name_replies]
    · rw [deliver_readHandle]
  | succ m ih =>
    intro j fuel s c hf hs hread hw htaken hfree hlen
    obtain ⟨f, rfl⟩ : ∃ f, fuel = f + 1 := ⟨fuel - 1, by omega⟩
    have hr : c.readHandle = ⟨str "NAME:" ++ candidate n j ++
        10 :: (name_requests_from n (j + 1) (m + 1) ++ later), false⟩ := by
      rw [hread]
      simp [name_requests_from, name_request]
    have hcp := candidate_range n hp j
    rw [validate_client_name_rec_step f s c stale _ _ hr (candidate_ne_nil n hn j) hcp
      (hlen 0 (by omega)), hs, if_pos (any_taken (by simpa using htaken 0 (by omega)))]
    have hw2 : (deliver { deliver c (str "WHO:") with
        readHandle := ⟨name_requests_from n (j + 1) (m + 1) ++ later, false⟩ }
        (str "NAME_TAKEN:")).writeHandle.error = false := by
      simp [deliver, hw]
    obtain ⟨s1, c1, hrun, h1, h2, h3, h4⟩ := ih (j + 1) f (add_to_server_stats s STAT_NAME)
      (deliver { deliver c (str "WHO:") with
        readHandle := ⟨name_requests_from n (j + 1) (m + 1) ++ later, false⟩ }
        (str "NAME_TAKEN:"))
      (by omega) (by rw [add_to_server_stats_clientList, hs])
      (by rw [deliver_readHandle])
      hw2
      (fun i hi => by
        have e : j + 1 + i = j + (i + 1) := by omega
        rw [e]
        exact htaken (i + 1) (by omega))
      (by
        have e : j + 1 + m = j + (m + 1) := by omega
        rw [e]
        exact hfree)
      (fun i hi => by
        have e : j + 1 + i = j + (i + 1) := by omega
        rw [e]
        exact hlen (i + 1) (by omega))
    refine ⟨s1, c1, hrun, h1, ?_, ?_, h4⟩
    · have e : j + 1 + m = j + (m + 1) := by omega
      rw [h2, e]
    · rw [h3]
      simp [deliver, hw, name_replies]

/-! ## Name negotiation, client side -/

theorem resolve_step_who (fuel : Nat) (cl : Client) (counter : Int) (buffer rest : List Nat)
    (hread : cl.readHandle = ⟨str "WHO:" ++ 10 :: rest, false⟩)
    (hw : cl.writeHandle.error = false) :
    ∃ cl2, resolve_client_name_loop (fuel + 1) cl counter buffer =
        resolve_client_name_loop fuel cl2 counter (str "WHO:") ∧
      cl2.name = cl.name ∧ cl2.readHandle = ⟨rest, false⟩ ∧
      cl2.writeHandle = ⟨cl.writeHandle.written ++
        sanitise (if counter < 0 then str "NAME:" ++ cl.name
          else str "NAME:" ++ cl.name ++ fmt_d counter) ++ [10], false⟩ := by
  have hrecv : receive_message cl buffer =
      (1, { cl with readHandle := ⟨rest, false⟩ }, str "WHO:") :=
    receive_line cl (str "WHO:") rest buffer hread (by decide) (by decide) (by decide)
      (by decide)
  have h1 : ¬ ((1 : Int) = 0) := by decide
  have h2 : strcmp (str "WHO:") (str "WHO:") = 0 := by decide
  refine ⟨deliver { cl with readHandle := ⟨rest, false⟩ }
    (sanitise (if counter < 0 then str "NAME:" ++ cl.name
      else str "NAME:" ++ cl.name ++ fmt_d counter)), ?_, ?_, ?_, ?_⟩
  · simp only [resolve_client_name_loop, hrecv, if_neg h1, h2, ↓reduceIte, send_message_some]
  · rw [deliver_name]
  · rw [deliver_readHandle]
  · exact deliver_writeHandle { cl with readHandle := ⟨rest, false⟩ } _ hw

theorem resolve_step_taken (fuel : Nat) (cl : Client) (counter : Int)
    (buffer rest : List Nat)
    (hread : cl.readHandle = ⟨str "NAME_TAKEN:" ++ 10 :: rest, false⟩) :
    ∃ cl2, resolve_client_name_loop (fuel + 1) cl counter buffer =
        resolve_client_name_loop fuel cl2 (counter + 1) (str "NAME_TAKEN:") ∧
      cl2.name = cl.name ∧ cl2.readHandle = ⟨rest, false⟩ ∧
      cl2.writeHandle = cl.writeHandle := by
  have hrecv : receive_message cl buffer =
      (1, { cl with readHandle := ⟨rest, false⟩ }, str "NAME_TAKEN:") :=
    receive_line cl (str "NAME_TAKEN:") rest buffer hread (by decide) (by decide) (by decide)
      (by decide)
  have h1 : ¬ ((1 : Int) = 0) := by decide
  have h2 : ¬ (strcmp (str "NAME_TAKEN:") (str "WHO:") = 0) := by decide
  have h3 : strcmp (str "NAME_TAKEN:") (str "NAME_TAKEN:") = 0 := by decide
  refine ⟨{ cl with readHandle := ⟨rest, false⟩ }, ?_, rfl, rfl, rfl⟩
  simp only [resolve_client_name_loop, hrecv, if_neg h1, if_neg h2, h3, ↓reduceIte]

theorem resolve_step_ok (fuel : Nat) (cl : Client) (counter : Int) (buffer rest : List Nat)
    (hread : cl.readHandle = ⟨str "OK:" ++ 10 :: rest, false⟩) :
    ∃ cl2, resolve_client_name_loop (fuel + 1) cl counter buffer =
        some (Ending.returns 1, cl2) ∧
      cl2.name = cl.name ∧ cl2.readHandle = ⟨rest, false⟩ ∧
      cl2.writeHandle = cl.writeHandle := by
  have hrecv : receive_message cl buffer =
      (1, { cl with readHandle := ⟨rest, false⟩ }, str "OK:") :=
    receive_line cl (str "OK:") rest buffer hread (by decide) (by decide) (by decide)
      (by decide)
  have h1 : ¬ ((1 : Int) = 0) := by decide
  have h2 : ¬ (strcmp (str "OK:") (str "WHO:") = 0) := by decide
  have h3 : ¬ (strcmp (str "OK:") (str "NAME_TAKEN:") = 0) := by decide
  have h4 : strcmp (str "OK:") (str "OK:") = 0 := by decide
  refine ⟨{ cl with readHandle := ⟨rest, false⟩ }, ?_, rfl, rfl, rfl⟩
  simp only [resolve_client_name_loop, hrecv, if_neg h1, if_neg h2, if_neg h3, h4, ↓reduceIte]

/-- The line the client builds for its candidate `j` is sent as it is. -/
theorem name_buffer_eq (n : List Nat) (hp : ∀ b ∈ n, 32 ≤ b ∧ b < 128) (j : Nat) :
    sanitise (if (j : Int) - 1 < 0 then str "NAME:" ++ n
      else str "NAME:" ++ n ++ fmt_d ((j : Int) - 1)) = str "NAME:" ++ candidate n j := by
  have hc := candidate_range n hp j
  have hk : ∀ b ∈ str "NAME:", 32 ≤ b ∧ b < 128 := by decide
  have e : (if (j : Int) - 1 < 0 then str "NAME:" ++ n
      else str "NAME:" ++ n ++ fmt_d ((j : Int) - 1)) = str "NAME:" ++ candidate n j := by
    cases j with
    | zero => simp [candidate]
    | succ k =>
      have hk : ¬ (((k + 1 : Nat) : Int) - 1 < 0) := by omega
      have hk2 : ((k + 1 : Nat) : Int) - 1 = (k : Int) := by omega
      rw [if_neg hk, hk2]
      simp [candidate]
  rw [e]
  apply sanitise_printable
  intro b hb
  right
  rcases List.mem_append.1 hb with h | h
  · exact hk b h
  · exact hc b h

/-- The client's side of a negotiation in which the server rejects `m`
candidates, starting with candidate `j`, and accepts the next. -/
theorem resolve_client_name_loop_run (n later : List Nat)
    (hp : ∀ b ∈ n, 32 ≤ b ∧ b < 128) :
    ∀ (m j fuel : Nat) (cl : Client) (buffer : List Nat), 2 * m + 2 ≤ fuel → cl.name = n →
      cl.readHandle = ⟨name_replies m ++ later, false⟩ → cl.writeHandle.error = false →
      ∃ cl1, resolve_client_name_loop fuel cl ((j : Int) - 1) buffer =
          some (Ending.returns 1, cl1) ∧ cl1.name = n ∧
        cl1.writeHandle =
          ⟨cl.writeHandle.written ++ name_requests_from n j (m + 1), false⟩ ∧
        cl1.readHandle = ⟨later, false⟩ := by
  intro m
  induction m with
  | zero =>
    intro j fuel cl buffer hf hname hread hw
    obtain ⟨f, rfl⟩ : ∃ f, fuel = f + 2 := ⟨fuel - 2, by omega⟩
    have hr : cl.readHandle = ⟨str "WHO:" ++ 10 :: (str "OK:" ++ 10 :: later), false⟩ := by
      rw [hread]
      simp [name_replies]
    obtain ⟨cl2, e2, n2, r2, w2⟩ := resolve_step_who (f + 1) cl ((j : Int) - 1) buffer _ hr hw
    obtain ⟨cl3, e3, n3, r3, w3⟩ := resolve_step_ok f cl2 ((j : Int) - 1) (str "WHO:") later r2
    rw [e2, e3]
    refine ⟨cl3, rfl, by rw [n3, n2, hname], ?_, r3⟩
    rw [w3, w2, hname, name_buffer_eq n hp j]
    simp [name_requests_from, name_request]
  | succ m ih =>
    intro j fuel cl buffer hf hname hread hw
    obtain ⟨f, rfl⟩ : ∃ f, fuel = f + 2 := ⟨fuel - 2, by omega⟩
    have hr : cl.readHandle = ⟨str "WHO:" ++ 10 ::
        (str "NAME_TAKEN:" ++ 10 :: (name_replies m ++ later)), false⟩ := by
      rw [hread]
      simp [name_replies]
    obtain ⟨cl2, e2, n2, r2, w2⟩ := resolve_step_who (f + 1) cl ((j : Int) - 1) buffer _ hr hw
    obtain ⟨cl3, e3, n3, r3, w3⟩ :=
      resolve_step_taken f cl2 ((j : Int) - 1) (str "WHO:") (name_replies m ++ later) r2
    have hcount : (j : Int) - 1 + 1 = ((j + 1 : Nat) : Int) - 1 := by omega
    rw [e2, e3, hcount]
    obtain ⟨cl1, hrun, h1, h2, h3⟩ := ih (j + 1) f cl3 (str "NAME_TAKEN:") (by omega)
      (by rw [n3, n2, hname]) r3 (by rw [w3, w2])
    refine ⟨cl1, hrun, h1, ?_, h3⟩
    rw [h2, w3, w2, hname, name_buffer_eq n hp j]
    simp [name_requests_from, name_request]

/-! ## A free candidate exists -/

theorem digits_value_fmt_digits (fuel x : Nat) (h : x < fuel) :
    digits_value (fmt_digits fuel x) = x := by
  induction fuel generalizing x with
  | zero => omega
  | succ f ih =>
    simp only [fmt_digits]
    split
    · simp [digits_value]
    · have hx : x / 10 < f := by omega
      have := ih (x / 10) hx
      unfold digits_value at this ⊢
      rw [List.foldl_append, this]
      simp only [List.foldl_cons, List.foldl_nil]
      omega

theorem fmt_digits_ne_nil (fuel x : Nat) : fmt_digits (fuel + 1) x ≠ [] := by
  simp only [fmt_digits]
  split <;> simp

theorem fmt_d_nat_injective (i j : Nat) (h : fmt_d (i : Int) = fmt_d (j : Int)) : i = j := by
  have hi : ¬ ((i : Int) < 0) := by omega
  have hj : ¬ ((j : Int) < 0) := by omega
  simp only [fmt_d, if_neg hi, if_neg hj, Int.natAbs_ofNat] at h
  have e1 := digits_value_fmt_digits (i + 1) i (by omega)
  have e2 := digits_value_fmt_digits (j + 1) j (by omega)
  rw [h] at e1
  omega

theorem candidate_injective (n : List Nat) : Function.Injective (candidate n) := by
  intro i j h
  cases i with
  | zero =>
    cases j with
    | zero => rfl
    | succ j =>
      exfalso
      simp only [candidate] at h
      have h2 : n ++ [] = n ++ fmt_d (j : Int) := by simpa using h
      have h3 := List.append_cancel_left h2
      have hj : ¬ ((j : Int) < 0) := by omega
      simp only [fmt_d, if_neg hj, Int.natAbs_ofNat] at h3
      exact fmt_digits_ne_nil j j h3.symm
  | succ i =>
    cases j with
    | zero =>
      exfalso
      simp only [candidate] at h
      have h2 : n ++ fmt_d (i : Int) = n ++ [] := by simpa using h
      have h3 := List.append_cancel_left h2
      have hi : ¬ ((i : Int) < 0) := by omega
      simp only [fmt_d, if_neg hi, Int.natAbs_ofNat] at h3
      exact fmt_digits_ne_nil i i h3
    | succ j =>
      simp only [candidate] at h
      have := fmt_d_nat_injective i j (List.append_cancel_left h)
      omega

/-- Whatever the registry, some candidate is free, so there is a first one:
the negotiation of names ends. -/
theorem first_free_candidate_exists (L : List Client) (n : List Nat) :
    ∃ k, (∀ i, i < k → candidate n i ∈ L.map Client.name) ∧
      candidate n k ∉ L.map Client.name := by
  have hex : ∃ k, candidate n k ∉ L.map Client.name := by
    by_contra hall
    simp only [not_exists, not_not] at hall
    have hinf : (Set.range (candidate n)).Infinite :=
      Set.infinite_range_of_injective (candidate_injective n)
    have hfin : (Set.range (candidate n)).Finite := by
      apply Set.Finite.subset (List.finite_toSet (L.map Client.name))
      rintro x ⟨k, rfl⟩
      exact hall k
    exact hinf hfin
  classical
  refine ⟨Nat.find hex, ?_, Nat.find_spec hex⟩
  intro i hi
  by_contra hni
  exact Nat.find_min hex hi hni

/-! ## The fuel of `validate_client_name` is enough -/

/-- One call of `validate_client_name`, with the recursive call as a
parameter. -/
theorem validate_client_name_rec_succ (fuel : Nat) (s : Server) (c : Client)
    (stale : List Nat) :
    validate_client_name_rec (fuel + 1) s c stale =
      match (strtok (strtok (receive_message (deliver c (str "WHO:")) stale).2.2 [58]).2 [10]).1,
          (strtok (receive_message (deliver c (str "WHO:")) stale).2.2 [58]).1 with
      | some clientName, some name =>
        if strcmp name (str "NAME") ≠ 0 then
          some (0, s, (receive_message (deliver c (str "WHO:")) stale).2.1)
        else if s.clientList.any (fun x => decide (strcmp clientName x.name = 0)) then
          validate_client_name_rec fuel (add_to_server_stats s STAT_NAME)
            (deliver (receive_message (deliver c (str "WHO:")) stale).2.1 (str "NAME_TAKEN:"))
            stale
        else
          some (1, add_to_server_stats s STAT_NAME,
            deliver { (receive_message (deliver c (str "WHO:")) stale).2.1 with
              name := clientName } (str "OK:"))
      | _, _ => some (0, s, (receive_message (deliver c (str "WHO:")) stale).2.1) := by
  have hs1 : sanitise (str "WHO:") = str "WHO:" := by decide
  have hs2 : sanitise (str "NAME_TAKEN:") = str "NAME_TAKEN:" := by decide
  have hs3 : sanitise (str "OK:") = str "OK:" := by decide
  simp only [validate_client_name_rec, send_message_some, hs1, hs2, hs3,
    add_to_server_stats_clientList]

theorem fgets_take_length (k : Nat) (l : List Nat) : (fgets_take k l).length ≤ l.length := by
  induction l generalizing k with
  | nil => cases k <;> simp [fgets_take]
  | cons x xs ih =>
    cases k with
    | zero => simp [fgets_take]
    | succ k =>
      simp only [fgets_take]
      split
      · simp
      · have := ih k
        simp only [List.length_cons]
        omega

/-- A call of `receive_message` either fails and leaves the client and the
buffer as they are, or shortens the pending input. -/
theorem receive_message_cases (c : Client) (buffer : List Nat) :
    ((receive_message c buffer).2.1 = c ∧ (receive_message c buffer).2.2 = buffer ∧
      (c.readHandle.error = true ∨ c.readHandle.pending = [])) ∨
    ((receive_message c buffer).2.1.readHandle.pending.length < c.readHandle.pending.length ∧
      (receive_message c buffer).2.1.readHandle.error = false) := by
  unfold receive_message
  by_cases he : c.readHandle.error = true
  · left
    simp [he]
  · simp only [he]
    unfold fgets
    by_cases hg : fgets_take (MAX_BUF - 1 - 1) c.readHandle.pending = []
    · left
      simp only [hg]
      refine ⟨rfl, rfl, Or.inr ?_⟩
      cases hp : c.readHandle.pending with
      | nil => rfl
      | cons x xs =>
        rw [hp] at hg
        have : (MAX_BUF - 1 - 1) = 509 + 1 := by decide
        rw [this] at hg
        simp only [fgets_take] at hg
        split at hg <;> simp at hg
    · right
      simp only [hg]
      have hlen := fgets_take_length (MAX_BUF - 1 - 1) c.readHandle.pending
      have hpos : 0 < (fgets_take (MAX_BUF - 1 - 1) c.readHandle.pending).length :=
        List.length_pos.2 hg
      simp only [Bool.false_eq_true, ↓reduceIte, List.length_drop]
      refine ⟨by omega, by simpa using he⟩

/-- At end of input a call that recurses recurses for ever. -/
theorem validate_client_name_rec_stuck (stale : List Nat) :
    ∀ (fuel : Nat) (s : Server) (c : Client),
      (c.readHandle.error = true ∨ c.readHandle.pending = []) →
      (∀ clientName name,
        (strtok (strtok stale [58]).2 [10]).1 = some clientName →
        (strtok stale [58]).1 = some name → strcmp name (str "NAME") = 0 ∧
          s.clientList.any (fun x => decide (strcmp clientName x.name = 0)) = true) →
      (strtok (strtok stale [58]).2 [10]).1 ≠ none → (strtok stale [58]).1 ≠ none →
      validate_client_name_rec fuel s c stale = none := by
  intro fuel
  induction fuel with
  | zero => intro s c _ _ _ _; rfl
  | succ f ih =>
    intro s c hend htaken h2 h1
    have hend1 : (deliver c (str "WHO:")).readHandle.error = true ∨
        (deliver c (str "WHO:")).readHandle.pending = [] := by
      rw [deliver_readHandle]; exact hend
    rcases receive_message_cases (deliver c (str "WHO:")) stale with ⟨e1, e2, -⟩ | ⟨hlt, herr⟩
    · rw [validate_client_name_rec_succ, e1, e2]
      cases hc : (strtok (strtok stale [58]).2 [10]).1 with
      | none => exact absurd hc h2
      | some clientName =>
        cases hn : (strtok stale [58]).1 with
        | none => exact absurd hn h1
        | some name =>
          have ht := htaken clientName name hc hn
          simp only [ht.1, ne_eq, not_true_eq_false, ↓reduceIte, ht.2]
          apply ih
          · rw [deliver_readHandle, deliver_readHandle]; exact hend
          · intro cn nm hcn hnm
            rw [add_to_server_stats_clientList]
            exact htaken cn nm hcn hnm
          · exact h2
          · exact h1
    · exfalso
      rcases hend1 with h | h
      · have := receive_message_cases (deliver c (str "WHO:")) stale
        unfold receive_message at herr
        simp [h] at herr
      · rw [h] at hlt
        simp at hlt

/-- More fuel than pending bytes never changes the result. -/
theorem validate_client_name_rec_enough (stale : List Nat) :
    ∀ (fuel more : Nat) (s : Server) (c : Client), c.readHandle.pending.length < fuel →
      validate_client_name_rec (fuel + more) s c stale =
        validate_client_name_rec fuel s c stale := by
  intro fuel
  induction fuel with
  | zero => intro more s c h; omega
  | succ f ih =>
    intro more s c hlen
    have e : f + 1 + more = (f + more) + 1 := by omega
    rw [e, validate_client_name_rec_succ, validate_client_name_rec_succ]
    cases hc : (strtok (strtok (receive_message (deliver c (str "WHO:")) stale).2.2
        [58]).2 [10]).1 with
    | none => rfl
    | some clientName =>
      cases hn : (strtok (receive_message (deliver c (str "WHO:")) stale).2.2 [58]).1 with
      | none => rfl
      | some name =>
        simp only
        split
        · rfl
        · rename_i hname
          split
          · rename_i hany
            rcases receive_message_cases (deliver c (str "WHO:")) stale with
              ⟨e1, e2, hend⟩ | ⟨hlt, -⟩
            · have hstuck : ∀ g, validate_client_name_rec g (add_to_server_stats s STAT_NAME)
                  (deliver (receive_message (deliver c (str "WHO:")) stale).2.1
                    (str "NAME_TAKEN:")) stale = none := by
                intro g
                apply validate_client_name_rec_stuck
                · rw [deliver_readHandle, e1, deliver_readHandle]
                  rw [deliver_readHandle] at hend
                  exact hend
                · intro cn nm hcn hnm
                  rw [e2] at hc hn
                  rw [hc] at hcn
                  rw [hn] at hnm
                  simp only [Option.some.injEq] at hcn hnm
                  subst hcn hnm
                  rw [add_to_server_stats_clientList]
                  exact ⟨by simpa using hname, hany⟩
                · rw [e2] at hc; rw [hc]; simp
                · rw [e2] at hn; rw [hn]; simp
              rw [hstuck, hstuck]
            · apply ih
              rw [deliver_readHandle]
              rw [deliver_readHandle] at hlt
              omega
          · rfl

/-! ## The fuel of `resolve_client_name` is enough -/

theorem receive_message_result (c : Client) (buffer : List Nat) :
    (receive_message c buffer).1 = 0 ∨
    ((receive_message c buffer).1 = 1 ∧
      (receive_message c buffer).2.1.readHandle.pending.length <
        c.readHandle.pending.length) := by
  rcases receive_message_cases c buffer with ⟨-, -, hend⟩ | ⟨hlt, -⟩
  · left
    unfold receive_message
    rcases hend with h | h
    · simp [h]
    · by_cases he : c.readHandle.error = true
      · simp [he]
      · simp [he, fgets, h, fgets_take]
  · unfold receive_message at hlt ⊢
    by_cases he : c.readHandle.error = true
    · simp [he] at hlt
    · simp only [he] at hlt ⊢
      cases hf : fgets (MAX_BUF - 1) c.readHandle with
      | mk line h =>
        cases line with
        | none => rw [hf] at hlt; simp at hlt
        | some l =>
          rw [hf] at hlt
          right
          exact ⟨by simp, by simpa using hlt⟩

/-- With more fuel than pending bytes `resolve_client_name_loop` ends, and more
fuel never changes the result. -/
theorem resolve_client_name_loop_enough :
    ∀ (fuel more : Nat) (cl : Client) (counter : Int) (buffer : List Nat),
      cl.readHandle.pending.length < fuel →
      resolve_client_name_loop fuel cl counter buffer ≠ none ∧
      resolve_client_name_loop (fuel + more) cl counter buffer =
        resolve_client_name_loop fuel cl counter buffer := by
  intro fuel
  induction fuel with
  | zero => intro more cl counter buffer h; omega
  | succ f ih =>
    intro more cl counter buffer hlen
    have e : f + 1 + more = (f + more) + 1 := by omega
    rw [e]
    simp only [resolve_client_name_loop]
    rcases receive_message_result cl buffer with h0 | ⟨h1, hlt⟩
    · simp [h0]
    · have hne : ¬ ((receive_message cl buffer).1 = 0) := by rw [h1]; decide
      simp only [if_neg hne]
      split
      · apply ih
        rw [send_message_some, deliver_readHandle]
        omega
      · split
        · apply ih
          omega
        · split
          · simp
          · apply ih
            omega

/-! ## Name negotiation for arbitrary candidates -/

/-- One call of `validate_client_name` that reads the line of a well-formed
candidate. -/
theorem validate_client_name_rec_step_line (fuel : Nat) (s : Server) (c : Client)
    (stale cand rest : List Nat)
    (hread : c.readHandle = ⟨str "NAME:" ++ cand ++ 10 :: rest, false⟩)
    (hwf : WellFormedName cand) :
    validate_client_name_rec (fuel + 1) s c stale =
      if s.clientList.any (fun x => decide (strcmp cand x.name = 0)) then
        validate_client_name_rec fuel (add_to_server_stats s STAT_NAME)
          (deliver { deliver c (str "WHO:") with readHandle := ⟨rest, false⟩ }
            (str "NAME_TAKEN:")) stale
      else
        some (1, add_to_server_stats s STAT_NAME,
          deliver { deliver c (str "WHO:") with readHandle := ⟨rest, false⟩, name := cand }
            (str "OK:")) := by
  obtain ⟨hne, h10, h0, hlen⟩ := hwf
  have hrecv : receive_message (deliver c (str "WHO:")) stale =
      (1, { deliver c (str "WHO:") with readHandle := ⟨rest, false⟩ }, str "NAME:" ++ cand) := by
    apply receive_line
    · rw [deliver_readHandle, hread]
    · simp [str]
    · simp only [List.mem_append, not_or]
      exact ⟨by decide, h10⟩
    · simp only [List.mem_append, not_or]
      exact ⟨by decide, h0⟩
    · simp [str]
      omega
  have h1 : strtok (str "NAME:" ++ cand) [58] = (some (str "NAME"), cand) :=
    strtok_token (str "NAME") cand [58] 58 (by decide) (by decide) (by decide)
  have h2 : strtok cand [10] = (some cand, []) :=
    strtok_last cand [10] hne (by intro x hx h; simp at h; exact h10 (h ▸ hx))
  have hs1 : sanitise (str "WHO:") = str "WHO:" := by decide
  have hs2 : sanitise (str "NAME_TAKEN:") = str "NAME_TAKEN:" := by decide
  have hs3 : sanitise (str "OK:") = str "OK:" := by decide
  have hcmp : ¬ (strcmp (str "NAME") (str "NAME") ≠ 0) := by decide
  simp only [validate_client_name_rec, send_message_some, hs1, hs2, hs3, hrecv, h1, h2,
    if_neg hcmp, add_to_server_stats_clientList]

theorem name_lines_length (cands : List (List Nat)) : cands.length ≤ (name_lines cands).length := by
  induction cands with
  | nil => simp
  | cons c cs ih =>
    simp only [name_lines, List.length_append, List.length_cons, List.length_nil]
    omega

/-- The run of `validate_client_name` over the lines of candidates that are
all taken, followed by the line of a free candidate. -/
theorem validate_client_name_rec_lines (L : List Client) (stale later cand : List Nat)
    (hL : NamesAreStrings L) (hwf : WellFormedName cand)
    (hfree : cand ∉ L.map Client.name) :
    ∀ (taken : List (List Nat)) (fuel : Nat) (s : Server) (c : Client),
      taken.length + 1 ≤ fuel → s.clientList = L →
      c.readHandle = ⟨name_lines (taken ++ [cand]) ++ later, false⟩ →
      c.writeHandle.error = false →
      (∀ t ∈ taken, WellFormedName t ∧ t ∈ L.map Client.name) →
      ∃ s1 c1, validate_client_name_rec fuel s c stale = some (1, s1, c1) ∧
        s1.clientList = L ∧ c1.name = cand ∧
        c1.writeHandle = ⟨c.writeHandle.written ++ name_replies taken.length, false⟩ ∧
        c1.readHandle = ⟨later, false⟩ ∧ c1.isCommunicating = c.isCommunicating := by
  intro taken
  induction taken with
  | nil =>
    intro fuel s c hf hs hread hw _
    obtain ⟨f, rfl⟩ : ∃ f, fuel = f + 1 := ⟨fuel - 1, by simp at hf; omega⟩
    have hr : c.readHandle = ⟨str "NAME:" ++ cand ++ 10 :: later, false⟩ := by
      rw [hread]
      simp [name_lines]
    rw [validate_client_name_rec_step_line f s c stale cand later hr hwf, hs,
      if_neg (any_free hL hwf.2.2.1 hfree)]
    refine ⟨_, _, rfl, ?_, ?_, ?_, ?_, ?_⟩
    · rw [add_to_server_stats_clientList, hs]
    · rw [deliver_name]
    · rw [deliver_writeHandle _ _ (by simp [deliver, hw])]
      simp [deliver, hw, name_replies]
    · rw [deliver_readHandle]
    · rw [deliver_isCommunicating]
      show (deliver c (str "WHO:")).isCommunicating = _
      rw [deliver_isCommunicating]
  | cons t ts ih =>
    intro fuel s c hf hs hread hw htaken
    obtain ⟨f, rfl⟩ : ∃ f, fuel = f + 1 := ⟨fuel - 1, by simp at hf; omega⟩
    have ht := htaken t (List.mem_cons_self _ _)
    have hr : c.readHandle = ⟨str "NAME:" ++ t ++
        10 :: (name_lines (ts ++ [cand]) ++ later), false⟩ := by
      rw [hread]
      simp [name_lines]
    rw [validate_client_name_rec_step_line f s c stale t _ hr ht.1, hs,
      if_pos (any_taken ht.2)]
    have hw2 : (deliver { deliver c (str "WHO:") with
        readHandle := ⟨name_lines (ts ++ [cand]) ++ later, false⟩ }
        (str "NAME_TAKEN:")).writeHandle.error = false := by
      simp [deliver, hw]
    obtain ⟨s1, c1, hrun, h1, h2, h3, h4, h5⟩ := ih f (add_to_server_stats s STAT_NAME)
      (deliver { deliver c (str "WHO:") with
        readHandle := ⟨name_lines (ts ++ [cand]) ++ later, false⟩ }
        (str "NAME_TAKEN:"))
      (by simp at hf; omega) (by rw [add_to_server_stats_clientList, hs])
      (by rw [deliver_readHandle])
      hw2
      (fun x hx => htaken x (List.mem_cons_of_mem _ hx))
    refine ⟨s1, c1, hrun, h1, h2, ?_, h4, ?_⟩
    · rw [h3]
      simp [deliver, hw, name_replies]
    · rw [h5, deliver_isCommunicating]
      show (deliver c (str "WHO:")).isCommunicating = _
      rw [deliver_isCommunicating]

/-! ## Position of an insertion, result of a removal -/

theorem strcasecmp_neg {a b : List Nat} (h : strcasecmp a b < 0) : strcasecmp b a > 0 := by
  induction a generalizing b with
  | nil =>
    cases b with
    | nil => simp [strcasecmp] at h
    | cons y ys =>
      simp only [strcasecmp] at h ⊢
      omega
  | cons x xs ih =>
    cases b with
    | nil =>
      simp only [strcasecmp] at h
      omega
    | cons y ys =>
      simp only [strcasecmp] at h ⊢
      split at h
      · rename_i hxy
        rw [if_pos hxy.symm]
        exact ih h
      · rename_i hxy
        rw [if_neg (fun e => hxy e.symm)]
        omega

/-- Ordered insertion splits the list into the members the newcomer sorts
strictly after and the rest, whose head the newcomer does not sort after. -/
theorem insert_split (c : Client) (l : List Client) :
    ∃ before after, l = before ++ after ∧
      insert_before_first_not_smaller c l = before ++ c :: after ∧
      (∀ x ∈ before, strcasecmp c.name x.name > 0) ∧
      (∀ x, after.head? = some x → strcasecmp c.name x.name ≤ 0) := by
  induction l with
  | nil => exact ⟨[], [], rfl, rfl, by simp, by simp⟩
  | cons a as ih =>
    simp only [insert_before_first_not_smaller]
    by_cases hgt : strcasecmp c.name a.name > 0
    · rcases ih with ⟨before, after, e, hi, hb, ha⟩
      refine ⟨a :: before, after, by simp [e], ?_, ?_, ha⟩
      · rw [if_pos hgt, hi]
        rfl
      · intro x hx
        rcases List.mem_cons.1 hx with rfl | hx
        · exact hgt
        · exact hb x hx
    · refine ⟨[], a :: as, rfl, ?_, by simp, ?_⟩
      · rw [if_neg hgt]
        rfl
      · intro x hx
        simp only [List.head?_cons, Option.some.injEq] at hx
        subst hx
        omega

theorem add_client_loop_mem (l : List Client) (c : Client) (rest : List Client)
    (h : rest ≠ []) : c ∈ add_client_loop l c rest := by
  induction rest with
  | nil => exact absurd rfl h
  | cons cur next ih =>
    simp only [add_client_loop]
    split
    · cases next with
      | nil => simp
      | cons d ds => exact ih (by simp)
    · split <;> simp

/-- The newcomer is in the list `add_client` returns. -/
theorem add_client_mem (l : List Client) (c : Client) : c ∈ add_client l c := by
  cases l with
  | nil => simp [add_client]
  | cons a as =>
    simp only [add_client]
    exact add_client_loop_mem _ _ _ (by simp)

theorem name_ne_of_strcmp {a b : List Nat} (h : strcmp a b ≠ 0) : a ≠ b := by
  intro e
  exact h (e ▸ strcmp_self a)

/-- In a registry of distinct names `remove_client` keeps exactly the members
with another name. -/
theorem remove_client_filter (l : List Client) (n : List Nat)
    (hs : NamesAreStrings l) (hd : DistinctNames l) (hn : 0 ∉ n) :
    remove_client l (some n) = l.filter (fun c => decide (c.name ≠ n)) := by
  rcases split_first_named l n with h | ⟨before, c, after, hl, hc, hb⟩
  · rw [remove_client_absent h]
    symm
    rw [List.filter_eq_self]
    intro x hx
    simpa using name_ne_of_strcmp (h x hx)
  · have hcl : c ∈ l := by simp [hl]
    have hcn : c.name = n := strcmp_eq_zero (hs c hcl) hn hc
    rw [hl, remove_client_split hc hb]
    unfold DistinctNames at hd
    rw [hl, List.map_append, List.map_cons, List.nodup_append, List.nodup_cons] at hd
    have hbf : before.filter (fun c => decide (c.name ≠ n)) = before := by
      rw [List.filter_eq_self]
      intro x hx
      simpa using name_ne_of_strcmp (hb x hx)
    have haf : after.filter (fun c => decide (c.name ≠ n)) = after := by
      rw [List.filter_eq_self]
      intro x hx
      have : x.name ≠ n := by
        intro e
        exact hd.2.1.1 (hcn ▸ e ▸ List.mem_map_of_mem _ hx)
      simpa using this
    rw [List.filter_append, List.filter_cons_of_neg (by simp [hcn]), hbf, haf]

theorem filter_names_sub (l : List Client) (n : List Nat) :
    (l.filter (fun c => decide (c.name ≠ n))).Sublist l := List.filter_sublist l

/-! ## The handshake keeps the active flag -/

theorem receive_message_isCommunicating (c : Client) (buffer : List Nat) :
    (receive_message c buffer).2.1.isCommunicating = c.isCommunicating := by
  unfold receive_message
  split
  · rfl
  · split <;> rfl

theorem validate_authentication_isCommunicating {s s1 : Server} {c c1 : Client}
    {stale : List Nat} {a : Int} (h : validate_authentication s c stale = some (a, s1, c1)) :
    c1.isCommunicating = c.isCommunicating := by
  unfold validate_authentication at h
  simp only [send_message_some] at h
  split at h
  · simp at h
  · split at h
    · split at h <;>
      · simp only [Option.some.injEq, Prod.mk.injEq] at h
        rw [← h.2.2]
        simp only [deliver_isCommunicating, receive_message_isCommunicating]
    · simp only [Option.some.injEq, Prod.mk.injEq] at h
      rw [← h.2.2]
      simp only [deliver_isCommunicating, receive_message_isCommunicating]

theorem validate_client_name_rec_isCommunicating (fuel : Nat) :
    ∀ (s : Server) (c : Client) (stale : List Nat) (v : Int) (s1 : Server) (c1 : Client),
      validate_client_name_rec fuel s c stale = some (v, s1, c1) →
      c1.isCommunicating = c.isCommunicating := by
  induction fuel with
  | zero =>
    intro s c stale v s1 c1 h
    simp [validate_client_name_rec] at h
  | succ n ih =>
    intro s c stale v s1 c1 h
    rw [validate_client_name_rec_succ] at h
    split at h
    · split at h
      · simp only [Option.some.injEq, Prod.mk.injEq] at h
        rw [← h.2.2]
        simp only [deliver_isCommunicating, receive_message_isCommunicating]
      · split at h
        · rw [ih _ _ _ _ _ _ h]
          simp only [deliver_isCommunicating, receive_message_isCommunicating]
        · simp only [Option.some.injEq, Prod.mk.injEq] at h
          rw [← h.2.2, deliver_isCommunicating]
          show (receive_message _ _).2.1.isCommunicating = _
          simp only [deliver_isCommunicating, receive_message_isCommunicating]
    · simp only [Option.some.injEq, Prod.mk.injEq] at h
      rw [← h.2.2]
      simp only [deliver_isCommunicating, receive_message_isCommunicating]

/-! ## The client -/

theorem receive_message_name (c : Client) (buffer : List Nat) :
    (receive_message c buffer).2.1.name = c.name := by
  unfold receive_message
  split
  · rfl
  · split <;> rfl

/-- A non-empty line that does not start with the escape marker and fits the
buffer with its prefix is wrapped without its terminator. -/
theorem handle_user_message_say (content : List Nat) (hne : content ≠ []) (hnl : 10 ∉ content)
    (hstar : charVal (content.headD 0) ≠ 42)
    (hfit : (str "SAY:" ++ content).length < MAX_BUF) :
    handle_user_message (content ++ [10]) = some (0, str "SAY:" ++ content) := by
  have hfit2 : ¬ MAX_BUF < (str "SAY:" ++ content).length + 1 := by omega
  have hhead : (content ++ [10]).headD 0 = content.headD 0 := by
    cases content with
    | nil => exact absurd rfl hne
    | cons a as => rfl
  unfold handle_user_message
  simp only [hhead, hstar, ne_eq, not_false_eq_true, ↓reduceIte,
    strtok_buffer_line content hne hnl, hfit2]

/-- The loop of `resolve_client_name` never writes to the client's name. -/
theorem resolve_client_name_loop_name (fuel : Nat) :
    ∀ (client : Client) (nameCounter : Int) (buffer : List Nat) (e : Ending) (c : Client),
      resolve_client_name_loop fuel client nameCounter buffer = some (e, c) →
      c.name = client.name := by
  induction fuel with
  | zero =>
    intro client nameCounter buffer e c h
    simp [resolve_client_name_loop] at h
  | succ n ih =>
    intro client nameCounter buffer e c h
    simp only [resolve_client_name_loop, send_message_some] at h
    split at h
    · simp only [Option.some.injEq, Prod.mk.injEq] at h
      rw [← h.2, receive_message_name]
    · split at h
      · rw [ih _ _ _ _ _ h, deliver_name, receive_message_name]
      · split at h
        · rw [ih _ _ _ _ _ h, receive_message_name]
        · split at h
          · simp only [Option.some.injEq, Prod.mk.injEq] at h
            rw [← h.2, receive_message_name]
          · rw [ih _ _ _ _ _ h, receive_message_name]

/-- The loop of `resolve_client_name` ends by returning 1 or by the exit for a
communications error. -/
theorem resolve_client_name_loop_ending (fuel : Nat) :
    ∀ (client : Client) (nameCounter : Int) (buffer : List Nat) (e : Ending) (c : Client),
      resolve_client_name_loop fuel client nameCounter buffer = some (e, c) →
      e = Ending.returns 1 ∨ e = Ending.exits COMMS (str "Communications error" ++ [10]) := by
  induction fuel with
  | zero =>
    intro client nameCounter buffer e c h
    simp [resolve_client_name_loop] at h
  | succ n ih =>
    intro client nameCounter buffer e c h
    simp only [resolve_client_name_loop] at h
    split at h
    · simp only [Option.some.injEq, Prod.mk.injEq] at h
      exact Or.inr h.1.symm
    · split at h
      · exact ih _ _ _ _ _ h
      · split at h
        · exact ih _ _ _ _ _ h
        · split at h
          · simp only [Option.some.injEq, Prod.mk.injEq] at h
            exact Or.inl h.1.symm
          · exact ih _ _ _ _ _ h

/-- The loop of `authenticate_client` ends by returning 1 or by the exit for a
communications error. -/
theorem authenticate_client_loop_ending (fuel : Nat) :
    ∀ (client : Client) (buffer : List Nat) (e : Ending) (c : Client),
      authenticate_client_loop fuel client buffer = some (e, c) →
      e = Ending.returns 1 ∨ e = Ending.exits COMMS (str "Communications error" ++ [10]) := by
  induction fuel with
  | zero =>
    intro client buffer e c h
    simp [authenticate_client_loop] at h
  | succ n ih =>
    intro client buffer e c h
    simp only [authenticate_client_loop] at h
    split at h
    · simp only [Option.some.injEq, Prod.mk.injEq] at h
      exact Or.inr h.1.symm
    · split at h
      · exact ih _ _ _ _ h
      · split at h
        · simp only [Option.some.injEq, Prod.mk.injEq] at h
          exact Or.inl h.1.symm
        · exact ih _ _ _ _ h

/-- The handshake of the client's `main` never ends with the exit for a failed
authentication: it goes on, or ends with the exit for a communications
error. -/
theorem client_main_handshake_ending {client c : Client} {staleAuth staleName : List Nat}
    {e : Ending} (h : client_main_handshake client staleAuth staleName = some (e, c)) :
    e = Ending.returns 1 ∨ e = Ending.exits COMMS (str "Communications error" ++ [10]) := by
  unfold client_main_handshake at h
  split at h
  · simp at h
  · rename_i code err client1 ha
    simp only [Option.some.injEq, Prod.mk.injEq] at h
    rw [← h.1]
    rcases authenticate_client_loop_ending _ _ _ _ _ ha with h1 | h1
    · simp at h1
    · exact Or.inr h1
  · rename_i a client1 ha
    have ha1 : a = 1 := by
      rcases authenticate_client_loop_ending _ _ _ _ _ ha with h1 | h1
      · simpa using h1
      · simp at h1
    subst ha1
    simp only [one_ne_zero, ↓reduceIte] at h
    split at h
    · simp at h
    · rename_i code err client2 hr
      simp only [Option.some.injEq, Prod.mk.injEq] at h
      rw [← h.1]
      rcases resolve_client_name_loop_ending _ _ _ _ _ _ hr with h1 | h1
      · simp at h1
      · exact Or.inr h1
    · rename_i v client2 hr
      have hv1 : v = 1 := by
        rcases resolve_client_name_loop_ending _ _ _ _ _ _ hr with h1 | h1
        · simpa using h1
        · simp at h1
      subst hv1
      simp only [one_ne_zero, ↓reduceIte, Option.some.injEq, Prod.mk.injEq] at h
      exact Or.inl h.1.symm

/-! ## Locks -/

theorem add_to_server_stats_locks_eq (statCode : Int) (h0 : 0 ≤ statCode) (h1 : statCode < 6) :
    add_to_server_stats_locks statCode = stats_pairs 1 := by
  unfold add_to_server_stats_locks NUM_SERVER_STATS
  rw [if_pos ⟨h0, h1⟩]
  rfl

theorem validate_authentication_locks_pairs {client : Client} {stale : List Nat}
    {calls : List LockEvent} (h : validate_authentication_locks client stale = some calls) :
    calls = stats_pairs 0 ∨ calls = stats_pairs 1 := by
  unfold validate_authentication_locks at h
  simp only at h
  split at h
  · simp at h
  · split at h
    · simp only [Option.some.injEq] at h
      right
      rw [← h]
      exact add_to_server_stats_locks_eq STAT_AUTH (by decide) (by decide)
    · simp only [Option.some.injEq] at h
      left
      rw [← h]
      rfl

theorem validate_client_name_rec_locks_pairs (fuel : Nat) :
    ∀ (server : Server) (client : Client) (stale : List Nat) (calls : List LockEvent),
      validate_client_name_rec_locks fuel server client stale = some calls →
      ∃ count, calls = stats_pairs count := by
  induction fuel with
  | zero =>
    intro server client stale calls h
    simp [validate_client_name_rec_locks] at h
  | succ n ih =>
    intro server client stale calls h
    simp only [validate_client_name_rec_locks] at h
    split at h
    · split at h
      · simp only [Option.some.injEq] at h
        exact ⟨0, h.symm⟩
      · split at h
        · simp only [Option.map_eq_some'] at h
          obtain ⟨later, hl, rfl⟩ := h
          obtain ⟨count, rfl⟩ := ih _ _ _ _ hl
          refine ⟨count + 1, ?_⟩
          rw [add_to_server_stats_locks_eq STAT_NAME (by decide) (by decide)]
          rfl
        · simp only [Option.some.injEq] at h
          refine ⟨1, ?_⟩
          rw [← h]
          exact add_to_server_stats_locks_eq STAT_NAME (by decide) (by decide)
    · simp only [Option.some.injEq] at h
      exact ⟨0, h.symm⟩

theorem stats_pairs_add (m n : Nat) : stats_pairs m ++ stats_pairs n = stats_pairs (m + n) := by
  induction m with
  | zero => simp [stats_pairs]
  | succ m ih =>
    rw [Nat.add_right_comm]
    simp only [stats_pairs, List.cons_append, ih]

theorem locks_after_stats_pairs (count : Nat) (held : Bool) (later : List LockEvent) :
    locks_after (held, false) (stats_pairs count ++ later) = locks_after (held, false) later := by
  induction count with
  | zero => rfl
  | succ n ih =>
    simp only [stats_pairs, List.cons_append, locks_after, List.foldl_cons, lock_step]
    exact ih

theorem client_taken_under_stats_pairs (count : Nat) (held : Bool) (later : List LockEvent) :
    client_taken_under_stats (held, false) (stats_pairs count ++ later) =
      client_taken_under_stats (held, false) later := by
  induction count with
  | zero => rfl
  | succ n ih =>
    simp only [stats_pairs, List.cons_append, client_taken_under_stats, lock_step]
    simpa using ih

theorem held_together_stats_pairs_free (count : Nat) (later : List LockEvent) :
    held_together (false, false) (stats_pairs count ++ later) =
      held_together (false, false) later := by
  induction count with
  | zero => rfl
  | succ n ih =>
    simp only [stats_pairs, List.cons_append, held_together, lock_step]
    simpa using ih

theorem held_together_stats_pairs_held (count : Nat) (later : List LockEvent) :
    held_together (true, false) (stats_pairs (count + 1) ++ later) = true := by
  simp [stats_pairs, held_together, lock_step]

/-- The calls of a handshake: `clientAccess` is taken, an aggregate counter is
incremented for every counted attempt, `clientAccess` is released. -/
theorem listen_to_client_join_locks_shape {server : Server} {myClient : Client}
    {staleAuth staleName : List Nat} {calls : List LockEvent}
    (h : listen_to_client_join_locks server myClient staleAuth staleName = some calls) :
    ∃ count, calls = LockEvent.take Lock.clientAccess :: stats_pairs count ++
      [LockEvent.release Lock.clientAccess] := by
  unfold listen_to_client_join_locks at h
  split at h
  · rename_i a server1 client1 authLocks hv hauth
    split at h
    · simp only [Option.some.injEq] at h
      rcases validate_authentication_locks_pairs hauth with e | e
      · exact ⟨0, by rw [← h, e]; rfl⟩
      · exact ⟨1, by rw [← h, e]; rfl⟩
    · split at h
      · rename_i nameLocks hname
        simp only [Option.some.injEq] at h
        obtain ⟨n, hn⟩ := validate_client_name_rec_locks_pairs _ _ _ _ _ hname
        rcases validate_authentication_locks_pairs hauth with e | e
        · refine ⟨0 + n, ?_⟩
          rw [← h, e, hn, ← stats_pairs_add]
          simp [initialise_client_locks]
        · refine ⟨1 + n, ?_⟩
          rw [← h, e, hn, ← stats_pairs_add]
          simp [initialise_client_locks]
      · simp at h
  · simp at h

/-! ## Counters -/

theorem client_list_loop_eq (c : Client) (rest : List Client) :
    client_list_loop c rest = List.intercalate (str ",") ((c :: rest).map Client.name) := by
  induction rest generalizing c with
  | nil => simp [client_list_loop, List.intercalate]
  | cons d rest ih =>
    simp only [client_list_loop, ih]
    simp [List.intercalate, List.intersperse]

theorem demo_two_reachable : Reachable demo_two := by
  have h0 : Reachable demo_empty := Reachable.init _ _ _ _
  have h1 : Reachable demo_ivy :=
    Reachable.join (setup_client (str "AUTH:pw\nNAME:ivy\n") none (str "pw")) [] [] true h0
      (by decide) (by decide)
  exact Reachable.join (setup_client (str "AUTH:pw\nNAME:ivy\nNAME:ivy0\n") none (str "pw")) []
    [] true h1 (by decide) (by decide)

/-- C1 (uniqueness): in every server state reachable from the empty registry by
handshakes, handled messages, kicks and departures, no two members have the
same name: the list of names has no duplicate and `strcmp` of the names of two
members is never 0. -/
theorem C1_uniqueness (s : Server) (h : Reachable s) :
    (s.clientList.map Client.name).Nodup ∧
    s.clientList.Pairwise (fun a b => strcmp a.name b.name ≠ 0) :=
  ⟨(reachable_registry h).2.1, distinct_strcmp (reachable_registry h).1 (reachable_registry h).2.1⟩

/-- C1 at the state reached when two peers have both asked for `ivy`. -/
theorem C1_uniqueness_witness :
    Reachable demo_two ∧ demo_two.clientList.map Client.name = [str "ivy", str "ivy0"] ∧
    ((demo_two.clientList.map Client.name).Nodup ∧
      demo_two.clientList.Pairwise (fun a b => strcmp a.name b.name ≠ 0)) :=
  ⟨demo_two_reachable, by decide, C1_uniqueness demo_two demo_two_reachable⟩

/-- C2 (ordering): in every reachable server state the member list is in
non-decreasing `strcasecmp` order from the head, and `add_client` and
`remove_client` applied to a sorted list of pairwise distinct names (C strings)
return a sorted list. -/
theorem C2_ordering (s : Server) (l : List Client) (newClient : Client)
    (name : Option (List Nat)) (hr : Reachable s)
    (hsorted : SortedNames l) (hdistinct : DistinctNames l)
    (hstr : NamesAreStrings l) (hnew : 0 ∉ newClient.name) :
    SortedNames s.clientList ∧ SortedNames (add_client l newClient) ∧
    SortedNames (remove_client l name) := by
  refine ⟨(reachable_registry hr).2.2.1, ?_, ?_⟩
  · rw [add_client_eq l newClient hstr hdistinct]
    exact insert_sorted newClient l hnew hstr hsorted
  · exact (registry_sublist (remove_client_sublist l name)).2.2.1 hsorted

/-- C2 at the two-member state, and for adding `bob` to and removing `amy` from
the list `amy`, `cid`. -/
theorem C2_ordering_witness :
    SortedNames demo_two.clientList ∧
    SortedNames (add_client [demo_member (str "amy"), demo_member (str "cid")]
      (demo_member (str "bob"))) ∧
    SortedNames (remove_client [demo_member (str "amy"), demo_member (str "cid")]
      (some (str "amy"))) :=
  C2_ordering demo_two [demo_member (str "amy"), demo_member (str "cid")]
    (demo_member (str "bob")) (some (str "amy")) demo_two_reachable
    (by unfold SortedNames; decide) (by unfold DistinctNames; decide)
    (by unfold NamesAreStrings; decide) (by decide)

set_option maxRecDepth 100000 in
/-- C3, as stated, fails: a chat text holding a control byte (here a tab) is
not relayed verbatim; `send_message` puts `?` in its place.  And for a text of
506 bytes, which a line of `fgets` can carry, the line `MSG:amy:` and the text
need 515 bytes with the NUL, more than the 512 bytes of `messageBuffer`: the
`sprintf` writes past the array and nothing is guaranteed. -/
theorem C3_broadcast_counterexample :
    (handle_client_message demo_room 0 (str "SAY:a\tb")).map
        (fun r => r.2.clientList.map (fun m => m.writeHandle.written)) =
      some [str "MSG:amy:a?b\n", str "MSG:amy:a?b\n"] ∧
    str "MSG:amy:a?b\n" ≠ str "MSG:amy:a\tb\n" ∧
    (str "MSG:amy:" ++ List.replicate 506 97).length + 1 = 515 ∧
    handle_client_message demo_room 0 (str "SAY:" ++ List.replicate 506 97) = none := by
  decide

/-- C3 (broadcast completeness, amended): when an active member X whose name
holds no line terminator sends `SAY:<text>` with a non-empty text without line
terminator, and the line `MSG:<X>:<text>` with its NUL fits the 512 bytes of
`messageBuffer`, `handle_client_message` returns 1, prints exactly one line on the
server's output, calls `send_message` once for every member whose active flag
is set, in registry order, and every member's outbound stream afterwards is
its stream before followed by the line `MSG:<X>:<text>` with the control bytes
replaced by `?` and one terminator if its flag is set and its stream is not in
an error state, and its stream before otherwise.  The line is sent verbatim,
colons included, when name and text hold only bytes 32 to 127. -/
theorem C3_broadcast (s : Server) (X : Nat) (c : Client) (text : List Nat)
    (hX : s.clientList[X]? = some c) (hact : c.isCommunicating ≠ 0)
    (hname : 10 ∉ c.name) (hne : text ≠ []) (hnl : 10 ∉ text)
    (hfit : (str "MSG:" ++ c.name ++ str ":" ++ text).length < MAX_BUF) :
    ∃ (s1 : Server) (echo : List Nat),
      handle_client_message s X (str "SAY:" ++ text) = some (1, s1) ∧
      s1.stdout = s.stdout ++ echo ++ [10] ∧ 10 ∉ echo ∧
      (broadcast_loop (update_client s.clientList X (fun c => add_to_client_stats c STAT_SAY))
          (str "MSG:" ++ c.name ++ str ":" ++ text)).2.2 =
        (s.clientList.filter (fun m => decide (m.isCommunicating ≠ 0))).map Client.name ∧
      (∀ (j : Nat) (m : Client), s.clientList[j]? = some m →
        ∃ m1, s1.clientList[j]? = some m1 ∧ m1.name = m.name ∧
          m1.isCommunicating = m.isCommunicating ∧
          m1.writeHandle.written =
            if m.isCommunicating ≠ 0 ∧ m.writeHandle.error = false then
              m.writeHandle.written ++ sanitise (str "MSG:" ++ c.name ++ str ":" ++ text) ++ [10]
            else m.writeHandle.written) ∧
      ((∀ b ∈ c.name ++ text, 32 ≤ b ∧ b < 128) →
        sanitise (str "MSG:" ++ c.name ++ str ":" ++ text) =
          str "MSG:" ++ c.name ++ str ":" ++ text) := by
  have hrest : 10 ∉ c.name ++ str ":" ++ text := by
    simp only [List.mem_append, not_or]
    exact ⟨⟨hname, by decide⟩, hnl⟩
  obtain ⟨s1, hs1, hout, hlist, -⟩ := handle_client_message_SAY s X c text hX hact hne hnl hfit
  refine ⟨s1, fmt_s (strtok (c.name ++ str ":" ++ text) [58]).1 ++ str ": " ++
      fmt_s (strtok (strtok (c.name ++ str ":" ++ text) [58]).2 [10]).1, hs1, ?_, ?_, ?_, ?_, ?_⟩
  · rw [hout]
    simp only [List.append_assoc]
  · simp only [List.mem_append, not_or]
    exact ⟨⟨fmt_s_token_no_newline hrest, by decide⟩,
      fmt_s_token_no_newline (strtok_rest_no_newline hrest)⟩
  · rw [broadcast_loop_order]
    exact update_client_active_names _ _ _
      (fun c => ⟨add_to_client_stats_name c _, add_to_client_stats_isCommunicating c _⟩)
  · intro j m hm
    rw [hlist, map_get, update_client_get, hm]
    by_cases hj : j = X
    · simp only [if_pos hj, Option.map_some', add_to_client_stats_isCommunicating]
      refine ⟨_, rfl, ?_, ?_, ?_⟩
      · split
        · rw [deliver_name, add_to_client_stats_name]
        · rw [add_to_client_stats_name]
      · split
        · rw [deliver_isCommunicating, add_to_client_stats_isCommunicating]
        · rw [add_to_client_stats_isCommunicating]
      · by_cases ha : m.isCommunicating ≠ 0
        · rw [if_pos ha]
          by_cases he : m.writeHandle.error = false
          · rw [if_pos ⟨ha, he⟩, deliver_written _ _ (by rw [add_to_client_stats_writeHandle]; exact he),
              add_to_client_stats_writeHandle]
          · rw [if_neg (fun h => he h.2)]
            simp only [deliver, add_to_client_stats_writeHandle]
            simp only [Bool.not_eq_false] at he
            simp [he, add_to_client_stats_writeHandle]
        · rw [if_neg ha, if_neg (fun h => ha h.1), add_to_client_stats_writeHandle]
    · simp only [if_neg hj, Option.map_some']
      refine ⟨_, rfl, ?_, ?_, ?_⟩
      · split
        · rw [deliver_name]
        · rfl
      · split
        · rw [deliver_isCommunicating]
        · rfl
      · by_cases ha : m.isCommunicating ≠ 0
        · rw [if_pos ha]
          by_cases he : m.writeHandle.error = false
          · rw [if_pos ⟨ha, he⟩, deliver_written _ _ he]
          · rw [if_neg (fun h => he h.2)]
            simp only [Bool.not_eq_false] at he
            simp [deliver, he]
        · rw [if_neg ha, if_neg (fun h => ha h.1)]
  · intro hb
    apply sanitise_printable
    intro b hb1
    right
    simp only [List.mem_append] at hb1 hb
    rcases hb1 with ((h | h) | h) | h
    · revert b; decide
    · exact hb b (Or.inl h)
    · simp [str] at h; omega
    · exact hb b (Or.inr h)

/-- C3 for `amy` saying `hi: there` in the room of `amy` and `bob`. -/
theorem C3_broadcast_witness :
    ∃ (s1 : Server) (echo : List Nat),
      handle_client_message demo_room 0 (str "SAY:hi: there") = some (1, s1) ∧
      s1.stdout = demo_room.stdout ++ echo ++ [10] ∧ 10 ∉ echo := by
  obtain ⟨s1, echo, h1, h2, h3, -⟩ := C3_broadcast demo_room 0 (demo_member (str "amy"))
    (str "hi: there") (by decide) (by decide) (by decide) (by decide) (by decide) (by decide)
  exact ⟨s1, echo, h1, h2, h3⟩

/-- C4 (kick is advisory): in a registry of distinct names (non-empty C strings
without line terminator), when an active member sends `KICK:<name>` with the
name of a member (the victim, at position `v`), `handle_client_message`
returns 1; afterwards the member list has the same names in the same order,
the victim is still at its position with its flag cleared and, unless its
stream is in an error state, the line `KICK:` and a terminator appended to its
stream; every other member keeps its flag and its stream. -/
theorem C4_kick_is_advisory (s : Server) (k v : Nat) (ck cv : Client)
    (hstr : NamesAreStrings s.clientList) (hdistinct : DistinctNames s.clientList)
    (hlines : NamesAreLines s.clientList)
    (hk : s.clientList[k]? = some ck) (hact : ck.isCommunicating ≠ 0)
    (hv : s.clientList[v]? = some cv) :
    ∃ s1 : Server, handle_client_message s k (str "KICK:" ++ cv.name) = some (1, s1) ∧
      s1.clientList.map Client.name = s.clientList.map Client.name ∧
      (∃ cv1, s1.clientList[v]? = some cv1 ∧ cv1.name = cv.name ∧ cv1.isCommunicating = 0 ∧
        (cv.writeHandle.error = false →
          cv1.writeHandle.written = cv.writeHandle.written ++ str "KICK:" ++ [10])) ∧
      (∀ (j : Nat) (m : Client), j ≠ v → s.clientList[j]? = some m →
        ∃ m1, s1.clientList[j]? = some m1 ∧ m1.name = m.name ∧
          m1.isCommunicating = m.isCommunicating ∧ m1.writeHandle = m.writeHandle) := by
  have hcv : cv ∈ s.clientList := List.getElem?_mem hv
  have hmsg := handle_client_message_KICK s k ck cv.name hk hact (hlines cv hcv).1 (hlines cv hcv).2
  have hnames : (update_client s.clientList k (fun c => add_to_client_stats c STAT_KICK)).map
      Client.name = s.clientList.map Client.name :=
    update_client_names _ _ _ (fun c => add_to_client_stats_name c _)
  have hc := registry_congr hnames
  have hv1 : (update_client s.clientList k (fun c => add_to_client_stats c STAT_KICK))[v]? =
      some (if v = k then add_to_client_stats cv STAT_KICK else cv) := by
    rw [update_client_get, hv]
    split <;> rfl
  have hname1 : (if v = k then add_to_client_stats cv STAT_KICK else cv).name = cv.name := by
    split
    · exact add_to_client_stats_name _ _
    · rfl
  have hget := get_client_at (hc.1 hstr) (hc.2.1 hdistinct) hv1
  rw [hname1] at hget
  have hkick : (kick_client
        (add_to_server_stats
          { s with clientList :=
              update_client s.clientList k (fun c => add_to_client_stats c STAT_KICK) }
          STAT_KICK) (some cv.name)).clientList =
      update_client (update_client s.clientList k (fun c => add_to_client_stats c STAT_KICK)) v
        (fun c => { deliver c (str "KICK:") with isCommunicating := 0 }) := by
    unfold kick_client
    simp only [add_to_server_stats_clientList, hget, send_message_some]
    rfl
  refine ⟨_, hmsg, ?_, ?_, ?_⟩
  · rw [kick_client_names, add_to_server_stats_clientList]
    exact hnames
  · rw [hkick, update_client_get, if_pos rfl, hv1]
    refine ⟨_, rfl, ?_, rfl, ?_⟩
    · show (deliver _ _).name = _
      rw [deliver_name, hname1]
    · intro he
      show (deliver _ _).writeHandle.written = _
      have hw : (if v = k then add_to_client_stats cv STAT_KICK else cv).writeHandle
          = cv.writeHandle := by
        split
        · exact add_to_client_stats_writeHandle _ _
        · rfl
      rw [deliver_written _ _ (by rw [hw]; exact he), hw]
  · intro j m hj hm
    rw [hkick, update_client_get, if_neg hj, update_client_get, hm]
    by_cases hjk : j = k
    · rw [if_pos hjk]
      exact ⟨_, rfl, add_to_client_stats_name _ _, add_to_client_stats_isCommunicating _ _,
        add_to_client_stats_writeHandle _ _⟩
    · rw [if_neg hjk]
      exact ⟨_, rfl, rfl, rfl, rfl⟩

/-- C4 for `amy` kicking `bob` in the room of `amy` and `bob`. -/
theorem C4_kick_is_advisory_witness :
    ∃ s1 : Server, handle_client_message demo_room 0 (str "KICK:bob") = some (1, s1) ∧
      s1.clientList.map Client.name = [str "amy", str "bob"] ∧
      (∃ cv1, s1.clientList[1]? = some cv1 ∧ cv1.name = str "bob" ∧ cv1.isCommunicating = 0 ∧
        cv1.writeHandle.written = str "KICK:\n") := by
  obtain ⟨s1, h1, h2, ⟨cv1, h3, h4, h5, h6⟩, -⟩ :=
    C4_kick_is_advisory demo_room 0 1 (demo_member (str "amy")) (demo_member (str "bob"))
      (by unfold NamesAreStrings; decide) (by unfold DistinctNames; decide)
      (by unfold NamesAreLines; decide) (by decide) (by decide) (by decide)
  exact ⟨s1, h1, h2, cv1, h3, h4, h5, h6 (by decide)⟩

/-- C5 (inactive members are drained): for a member whose active flag is
cleared, `handle_client_message` returns 0 on every line and the server state
(member list, flags, counters, streams, output) is unchanged. -/
theorem C5_inactive_drained (s : Server) (i : Nat) (c : Client) (line : List Nat)
    (hi : s.clientList[i]? = some c) (hflag : c.isCommunicating = 0) :
    handle_client_message s i line = some (0, s) := by
  unfold handle_client_message
  simp only [hi, hflag, ↓reduceIte]

/-- C5 for the kicked `bob` sending `SAY:hi` and `LEAVE:`. -/
theorem C5_inactive_drained_witness :
    handle_client_message (kick_client demo_room (some (str "bob"))) 1 (str "SAY:hi") =
        some (0, kick_client demo_room (some (str "bob"))) ∧
    handle_client_message (kick_client demo_room (some (str "bob"))) 1 (str "LEAVE:") =
        some (0, kick_client demo_room (some (str "bob"))) :=
  ⟨C5_inactive_drained (kick_client demo_room (some (str "bob"))) 1
      { deliver (demo_member (str "bob")) (str "KICK:") with isCommunicating := 0 }
      (str "SAY:hi") (by decide) (by decide),
   C5_inactive_drained (kick_client demo_room (some (str "bob"))) 1
      { deliver (demo_member (str "bob")) (str "KICK:") with isCommunicating := 0 }
      (str "LEAVE:") (by decide) (by decide)⟩

/-- C6 (at most one registration): when the handshake of a connection fails,
because `validate_authentication` returns 0 or because it succeeds and
`validate_client_name` returns 0, the handler returns without entering its
message loop and the member list is the one it started with. -/
theorem C6_failed_handshake (s : Server) (myClient : Client) (staleAuth staleName : List Nat)
    (hfail : (∃ s1 c1, validate_authentication s myClient staleAuth = some (0, s1, c1)) ∨
      (∃ a s1 c1 s2 c2, validate_authentication s myClient staleAuth = some (a, s1, c1) ∧
        a ≠ 0 ∧ validate_client_name s1 c1 staleName = some (0, s2, c2))) :
    ∃ s3 : Server, listen_to_client_join s myClient staleAuth staleName = some (false, s3) ∧
      s3.clientList = s.clientList := by
  rcases hfail with ⟨s1, c1, h⟩ | ⟨a, s1, c1, s2, c2, h, ha, hv⟩
  · refine ⟨s1, ?_, validate_authentication_clientList h⟩
    unfold listen_to_client_join
    simp only [h, ↓reduceIte]
  · refine ⟨s2, ?_, ?_⟩
    · unfold listen_to_client_join
      simp only [h, if_neg ha, hv, ↓reduceIte]
    · rw [(validate_client_name_rec_spec _ _ _ _ _ _ _ hv).1,
        validate_authentication_clientList h]

/-- C6 for a peer that sends a wrong secret and for a peer that sends the
secret and then a line that is no `NAME:` request. -/
theorem C6_failed_handshake_witness :
    (∃ s3 : Server, listen_to_client_join demo_ivy
        (setup_client (str "AUTH:nope\n") none (str "pw")) [] [] = some (false, s3) ∧
      s3.clientList = demo_ivy.clientList) ∧
    (∃ s3 : Server, listen_to_client_join demo_ivy
        (setup_client (str "AUTH:pw\nNICK:zed\n") none (str "pw")) [] [] = some (false, s3) ∧
      s3.clientList = demo_ivy.clientList) :=
  ⟨C6_failed_handshake demo_ivy (setup_client (str "AUTH:nope\n") none (str "pw")) [] []
      (Or.inl ⟨_, _, rfl⟩),
   C6_failed_handshake demo_ivy (setup_client (str "AUTH:pw\nNICK:zed\n") none (str "pw")) [] []
      (Or.inr ⟨1, _, _, _, _, rfl, by decide, rfl⟩)⟩

/-- For a non-empty registry whose reply fits the 512 bytes of the caller's
buffer with its NUL, the reply built by `update_active_client_list` is `LIST:`
followed by the members' names in registry order joined by single commas,
without trailing separator; and when members named `amy`, `bob` and `cid` are
added to the empty registry in any of the six orders the reply is
`LIST:amy,bob,cid`. -/
theorem update_active_client_list_reply (s : Server) (a b c : Client)
    (hne : s.clientList ≠ [])
    (hfit : (str "LIST:" ++
      List.intercalate (str ",") (s.clientList.map Client.name)).length < MAX_BUF)
    (ha : a.name = str "amy") (hb : b.name = str "bob") (hc : c.name = str "cid") :
    update_active_client_list s =
      some (str "LIST:" ++ List.intercalate (str ",") (s.clientList.map Client.name)) ∧
    (∀ order ∈ [[a, b, c], [a, c, b], [b, a, c], [b, c, a], [c, a, b], [c, b, a]],
      update_active_client_list { s with clientList := order.foldl add_client [] } =
        some (str "LIST:amy,bob,cid")) := by
  have ab : ¬ strcasecmp (str "amy") (str "bob") > 0 := by decide
  have ac : ¬ strcasecmp (str "amy") (str "cid") > 0 := by decide
  have bc : ¬ strcasecmp (str "bob") (str "cid") > 0 := by decide
  have ba : strcasecmp (str "bob") (str "amy") > 0 := by decide
  have ca : strcasecmp (str "cid") (str "amy") > 0 := by decide
  have cb : strcasecmp (str "cid") (str "bob") > 0 := by decide
  have sab : ¬ strcmp (str "amy") (str "bob") = 0 := by decide
  have sac : ¬ strcmp (str "amy") (str "cid") = 0 := by decide
  have sbc : ¬ strcmp (str "bob") (str "cid") = 0 := by decide
  have sba : ¬ strcmp (str "bob") (str "amy") = 0 := by decide
  have sca : ¬ strcmp (str "cid") (str "amy") = 0 := by decide
  have scb : ¬ strcmp (str "cid") (str "bob") = 0 := by decide
  have hfinal : update_active_client_list { s with clientList := [a, b, c] } =
      some (str "LIST:amy,bob,cid") := by
    simp only [update_active_client_list, client_list_loop, ha, hb, hc]
    decide
  constructor
  · cases hl : s.clientList with
    | nil => exact absurd hl hne
    | cons x rest =>
      have hfit2 : ¬ MAX_BUF < (str "LIST:" ++
          List.intercalate (str ",") ((x :: rest).map Client.name)).length + 1 := by
        rw [← hl]
        omega
      simp only [update_active_client_list, hl, client_list_loop_eq, hfit2, ↓reduceIte]
  · intro order ho
    simp only [List.mem_cons, List.mem_singleton, List.not_mem_nil, or_false] at ho
    rcases ho with rfl | rfl | rfl | rfl | rfl | rfl <;>
    · rw [← hfinal]
      simp [add_client, add_client_loop, get_previous_client, get_previous_client_loop,
        ha, hb, hc, ab, ac, bc, ba, ca, cb, sab, sac, sbc, sba, sca, scb, strcmp_self]

/-- A reply that does not fit the caller's buffer is written past its end. -/
theorem update_active_client_list_overflow (s : Server) (hne : s.clientList ≠ [])
    (hbig : MAX_BUF ≤ (str "LIST:" ++
      List.intercalate (str ",") (s.clientList.map Client.name)).length) :
    update_active_client_list s = none := by
  cases hl : s.clientList with
  | nil => exact absurd hl hne
  | cons x rest =>
    have hbig2 : MAX_BUF < (str "LIST:" ++
        List.intercalate (str ",") ((x :: rest).map Client.name)).length + 1 := by
      rw [← hl]
      omega
    simp only [update_active_client_list, hl, client_list_loop_eq, hbig2, ↓reduceIte]

set_option maxRecDepth 100000 in
/-- C7 (list reply) at the failing input: three peers register names of 200
bytes each (`NAME:` lines of 205 bytes, which the server accepts) and one of
them sends `LIST:`.  The reply, `LIST:` and the three names joined by commas,
has 607 bytes and needs 608 with its NUL, but `update_active_client_list`
builds it with `strcat` in the caller's `messageBuffer` of 512 bytes: it
writes past the array, so no reply is guaranteed, where the claim requires
the full list.  For the members `amy`, `bob` and `cid` the reply is
`LIST:amy,bob,cid`. -/
theorem C7_list_reply_failing_input :
    (validate_client_name demo_empty
        (setup_client (str "NAME:" ++ List.replicate 200 97 ++ [10]) none (str "pw")) []).map
      (fun r => (r.1, r.2.2.name)) = some (1, List.replicate 200 97) ∧
    demo_long_names.clientList.map Client.name =
      [List.replicate 200 97, List.replicate 200 98, List.replicate 200 99] ∧
    (str "LIST:" ++ List.intercalate (str ",")
      (demo_long_names.clientList.map Client.name)).length + 1 = 608 ∧
    MAX_BUF = 512 ∧
    update_active_client_list demo_long_names = none ∧
    handle_client_message demo_long_names 0 (str "LIST:") = none ∧
    update_active_client_list ⟨str "pw", List.foldl add_client []
      [demo_member (str "cid"), demo_member (str "amy"), demo_member (str "bob")],
      [0, 0, 0, 0, 0, 0], [], []⟩ = some (str "LIST:amy,bob,cid") := by
  decide

/-- C8, as stated, fails: the server registers the name `a:b`, and the line
`MSG:a:b:hi` is rendered as `a: b:hi`, the line `ENTER:a:b` as
`(a has entered the chat)`; an empty chat text is rendered as `(null)`. -/
theorem C8_render_round_trip_counterexample :
    (listen_to_client_join demo_empty
        (setup_client (str "AUTH:pw\nNAME:a:b\n") none (str "pw")) [] []).map
      (fun r => r.2.clientList.map Client.name) = some [str "a:b"] ∧
    handle_server_message (str "MSG:" ++ str "a:b" ++ str ":" ++ str "hi") =
      some (0, str "a: b:hi\n", []) ∧
    str "a: b:hi\n" ≠ str "a:b: hi\n" ∧
    handle_server_message (str "ENTER:" ++ str "a:b") =
      some (0, str "(a has entered the chat)\n", []) ∧
    handle_server_message (str "MSG:" ++ str "bob" ++ str ":" ++ []) =
      some (0, str "bob: (null)\n", []) := by
  decide

/-- C8 (render round trip, amended): for every non-empty name without colon
and every non-empty chat text without line terminator,
`handle_server_message` prints `<name>: <text>` for the line
`MSG:<name>:<text>`, `(<name> has entered the chat)` for `ENTER:<name>` and
`(<name> has left the chat)` for `LEAVE:<name>`, each followed by a newline,
and returns 0. -/
theorem C8_render_round_trip (name text : List Nat) (hname : name ≠ []) (hcolon : 58 ∉ name)
    (htext : text ≠ []) (hnl : 10 ∉ text) :
    handle_server_message (str "MSG:" ++ name ++ str ":" ++ text) =
      some (0, name ++ str ": " ++ text ++ [10], []) ∧
    handle_server_message (str "ENTER:" ++ name) =
      some (0, str "(" ++ name ++ str " has entered the chat)" ++ [10], []) ∧
    handle_server_message (str "LEAVE:" ++ name) =
      some (0, str "(" ++ name ++ str " has left the chat)" ++ [10], []) := by
  have hn : ∀ x ∈ name, x ∉ [58] := by
    intro x hx h
    simp at h
    exact hcolon (h ▸ hx)
  have h1 : strtok (name ++ 58 :: text) [58] = (some name, text) :=
    strtok_token name text [58] 58 hname hn (by decide)
  have h2 : strtok text [10] = (some text, []) :=
    strtok_last text [10] htext (by intro x hx h; simp at h; exact hnl (h ▸ hx))
  have h3 : strtok name [58] = (some name, []) := strtok_last name [58] hname hn
  have hline : str "MSG:" ++ name ++ str ":" ++ text = str "MSG:" ++ (name ++ 58 :: text) := by
    simp [str]
  refine ⟨?_, ?_, ?_⟩
  · rw [hline, handle_server_message_MSG, h1, h2]
    rfl
  · rw [handle_server_message_ENTER, h3]
    rfl
  · rw [handle_server_message_LEAVE, h3]
    rfl

/-- C8 for `bob` saying `hi: all`. -/
theorem C8_render_round_trip_witness :
    handle_server_message (str "MSG:" ++ str "bob" ++ str ":" ++ str "hi: all") =
      some (0, str "bob" ++ str ": " ++ str "hi: all" ++ [10], []) ∧
    handle_server_message (str "ENTER:" ++ str "bob") =
      some (0, str "(" ++ str "bob" ++ str " has entered the chat)" ++ [10], []) ∧
    handle_server_message (str "LEAVE:" ++ str "bob") =
      some (0, str "(" ++ str "bob" ++ str " has left the chat)" ++ [10], []) :=
  C8_render_round_trip (str "bob") (str "hi: all") (by decide) (by decide) (by decide)
    (by decide)

/-- C9 (control-character sanitisation): when the outbound stream is not in
an error state, `send_message` returns 1 and appends to the stream the line
with its bytes replaced as follows, and then one terminator: every byte
below 32 other than the terminator becomes `?` (63), every terminator byte
and every byte from 32 to 127 stays as it is; the length is unchanged. -/
theorem C9_sanitisation (client : Client) (message : List Nat)
    (hok : client.writeHandle.error = false) :
    (send_message client (some message)).1 = 1 ∧
    (send_message client (some message)).2.1.writeHandle.written =
      client.writeHandle.written ++ sanitise message ++ [10] ∧
    (sanitise message).length = message.length ∧
    ∀ (i b : Nat), message[i]? = some b →
      (b < 32 → b ≠ 10 → (sanitise message)[i]? = some 63) ∧
      (b = 10 → (sanitise message)[i]? = some 10) ∧
      (32 ≤ b → b < 128 → (sanitise message)[i]? = some b) := by
  refine ⟨?_, ?_, sanitise_length message, ?_⟩
  · rw [send_message_some]
  · rw [send_message_some]
    exact deliver_written _ _ hok
  · intro i b hb
    have hs : (sanitise message)[i]? = some (if charVal b < 32 ∧ b ≠ 10 then 63 else b) := by
      simp [sanitise, hb]
    refine ⟨?_, ?_, ?_⟩
    · intro h1 h2
      rw [hs, if_pos ⟨by rw [charVal_of_lt (by omega)]; omega, h2⟩]
    · intro h1
      rw [hs, if_neg (fun h => h.2 h1), h1]
    · intro h1 h2
      rw [hs, if_neg]
      rw [charVal_of_lt h2]
      omega

/-- C9 for a line holding the byte 7 and a terminator: `H`, 7, newline, `i`
is sent as `H`, `?`, newline, `i`, newline. -/
theorem C9_sanitisation_witness :
    (send_message (demo_member (str "amy")) (some [72, 7, 10, 105])).2.1.writeHandle.written =
      [72, 63, 10, 105, 10] := by
  have h := (C9_sanitisation (demo_member (str "amy")) [72, 7, 10, 105] (by decide)).2.1
  rw [h]
  decide

theorem name_requests_from_length (n : List Nat) (j count : Nat) :
    count ≤ (name_requests_from n j count).length := by
  induction count generalizing j with
  | zero => simp
  | succ m ih =>
    have := ih (j + 1)
    simp only [name_requests_from, name_request, List.length_append, List.length_singleton]
    omega

theorem name_replies_length (m : Nat) : 2 * m + 2 ≤ (name_replies m).length := by
  induction m with
  | zero => decide
  | succ m ih =>
    simp only [name_replies, List.length_append]
    have h1 : (str "WHO:").length = 4 := by decide
    have h2 : (str "NAME_TAKEN:").length = 11 := by decide
    have h3 : ([10] : List Nat).length = 1 := rfl
    omega

set_option maxRecDepth 100000 in
/-- Base names the line protocol cannot carry: with the empty base name the
client proposes `NAME:` and the server rejects the connection although no
member has the empty name; with the base name `a`, tab, `b` the client's
`send_message` transmits `NAME:a?b` and the server registers `a?b`; and of a
base name of 506 bytes the server reads and registers the first 505. -/
theorem name_negotiation_limits :
    ([] : List Nat) ∉ demo_ivy.clientList.map Client.name ∧
    (resolve_client_name (setup_client (str "WHO:\n") (some []) (str "pw")) []).map
      (fun r => r.2.writeHandle.written) = some (str "NAME:\n") ∧
    (validate_client_name demo_ivy (setup_client (str "NAME:\n") none (str "pw")) []).map
      (fun r => r.1) = some 0 ∧
    (resolve_client_name (setup_client (str "WHO:\nOK:\n") (some (str "a\tb")) (str "pw")) []).map
      (fun r => (r.1, r.2.writeHandle.written)) = some (Ending.returns 1, str "NAME:a?b\n") ∧
    (validate_client_name demo_ivy (setup_client (str "NAME:a?b\n") none (str "pw")) []).map
      (fun r => (r.1, r.2.2.name)) = some (1, str "a?b") ∧
    str "a?b" ≠ str "a\tb" ∧
    (resolve_client_name
      (setup_client (str "WHO:\nOK:\n") (some (List.replicate 506 97)) (str "pw")) []).map
      (fun r => (r.1, r.2.writeHandle.written)) =
        some (Ending.returns 1, str "NAME:" ++ List.replicate 506 97 ++ [10]) ∧
    (validate_client_name demo_ivy
      (setup_client (str "NAME:" ++ List.replicate 506 97 ++ [10]) none (str "pw")) []).map
      (fun r => (r.1, r.2.2.name)) = some (1, List.replicate 505 97) := by
  decide

/-- The exchange of names when the bytes that the client writes past
`nameBuffer` are not disturbed: let the base name `n` be non-empty and
made of bytes 32 to 127, let the candidates `n`, `n0`, `n1`, ... up to the
`k`-th fit in a line (at most 504 bytes), let the first `k` candidates be
names of members and the `k`-th not.  When the server's
`validate_client_name` reads what the client's `resolve_client_name` sends and
the client reads what the server sends, the client sends exactly the requests
for candidates `0..k` and returns 1, the server answers each of the `k`
rejected candidates with `WHO:`, `NAME_TAKEN:` and the last with `WHO:`, `OK:`,
returns 1 and names the entity with the `k`-th candidate; after `add_client`
that name is registered and all names are distinct. -/
theorem name_negotiation_exchange (s : Server) (c cl : Client)
    (n stale1 stale2 later1 later2 : List Nat) (k : Nat)
    (hn : n ≠ []) (hp : ∀ b ∈ n, 32 ≤ b ∧ b < 128)
    (hlen : ∀ i, i ≤ k → (candidate n i).length ≤ 504)
    (hreg : NamesAreStrings s.clientList) (hdist : DistinctNames s.clientList)
    (htaken : ∀ i, i < k → candidate n i ∈ s.clientList.map Client.name)
    (hfree : candidate n k ∉ s.clientList.map Client.name)
    (hcl : cl.name = n) (hclw : cl.writeHandle.error = false)
    (hcw : c.writeHandle.error = false)
    (hcr : c.readHandle = ⟨name_requests n k ++ later1, false⟩)
    (hclr : cl.readHandle = ⟨name_replies k ++ later2, false⟩) :
    ∃ (s1 : Server) (c1 cl1 : Client),
      validate_client_name s c stale1 = some (1, s1, c1) ∧
      resolve_client_name cl stale2 = some (Ending.returns 1, cl1) ∧
      c1.writeHandle.written = c.writeHandle.written ++ name_replies k ∧
      cl1.writeHandle.written = cl.writeHandle.written ++ name_requests n k ∧
      c1.name = candidate n k ∧ s1.clientList = s.clientList ∧
      candidate n k ∈ (add_client s1.clientList c1).map Client.name ∧
      DistinctNames (add_client s1.clientList c1) := by
  have hfuel1 : k + 1 ≤ c.readHandle.pending.length + 1 := by
    rw [hcr]
    have := name_requests_from_length n 0 (k + 1)
    simp only [name_requests, List.length_append]
    omega
  have hfuel2 : 2 * k + 2 ≤ cl.readHandle.pending.length + 1 := by
    rw [hclr]
    have := name_replies_length k
    simp only [List.length_append]
    omega
  obtain ⟨s1, c1, hrun, h1, h2, h3, -⟩ :=
    validate_client_name_rec_run n s.clientList stale1 later1 hn hp hreg k 0
      (c.readHandle.pending.length + 1) s c hfuel1 rfl
      (by rw [hcr]; rfl) hcw
      (fun i hi => by rw [Nat.zero_add]; exact htaken i hi)
      (by rw [Nat.zero_add]; exact hfree)
      (fun i hi => by rw [Nat.zero_add]; exact hlen i hi)
  obtain ⟨cl1, hrun2, -, g2, -⟩ :=
    resolve_client_name_loop_run n later2 hp k 0 (cl.readHandle.pending.length + 1) cl stale2
      hfuel2 hcl hclr hclw
  rw [Nat.zero_add] at h2
  have hc0 : 0 ∉ c1.name := by
    rw [h2]
    exact range_no _ (candidate_range n hp k) 0 (by omega)
  have hfree1 : ∀ x ∈ s.clientList, strcmp c1.name x.name ≠ 0 := by
    intro x hx h0
    have e := strcmp_eq_zero hc0 (hreg x hx) h0
    exact hfree (h2 ▸ e ▸ List.mem_map_of_mem _ hx)
  have hadd := registry_add hreg hdist hc0 hfree1
  refine ⟨s1, c1, cl1, hrun, ?_, by rw [h3], by rw [g2]; rfl, h2, h1, ?_, ?_⟩
  · simpa [resolve_client_name] using hrun2
  · rw [h1, add_client_eq _ _ hreg hdist, ← h2]
    exact List.mem_map_of_mem _ ((insert_perm c1 s.clientList).symm.subset
      (List.mem_cons_self _ _))
  · rw [h1]
    exact hadd.2.1

/-- The exchange for a second peer with the base name `ivy` when `ivy` is
registered: one `NAME_TAKEN:` reply, registration as `ivy0`, two distinct
names. -/
theorem name_negotiation_exchange_ivy :
    name_replies 1 = str "WHO:\nNAME_TAKEN:\nWHO:\nOK:\n" ∧
    name_requests (str "ivy") 1 = str "NAME:ivy\nNAME:ivy0\n" ∧
    ∃ (s1 : Server) (c1 cl1 : Client),
      validate_client_name demo_ivy
        (setup_client (name_requests (str "ivy") 1) none (str "pw")) [] = some (1, s1, c1) ∧
      resolve_client_name
        (setup_client (name_replies 1) (some (str "ivy")) (str "pw")) [] =
          some (Ending.returns 1, cl1) ∧
      c1.writeHandle.written = name_replies 1 ∧
      cl1.writeHandle.written = name_requests (str "ivy") 1 ∧
      c1.name = str "ivy0" ∧
      (add_client s1.clientList c1).map Client.name = [str "ivy", str "ivy0"] ∧
      DistinctNames (add_client s1.clientList c1) := by
  obtain ⟨s1, c1, cl1, h1, h2, h3, h4, h5, h6, h7, h8⟩ :=
    name_negotiation_exchange demo_ivy (setup_client (name_requests (str "ivy") 1) none (str "pw"))
      (setup_client (name_replies 1) (some (str "ivy")) (str "pw")) (str "ivy") [] [] [] [] 1
      (by decide) (by decide) (by decide) (by unfold NamesAreStrings; decide)
      (by unfold DistinctNames; decide) (by decide) (by decide) rfl rfl rfl
      (by simp [setup_client]) (by simp [setup_client])
  refine ⟨by decide, by decide, s1, c1, cl1, h1, h2, by simpa using h3, by simpa using h4,
    by rw [h5]; decide, ?_, h8⟩
  have hs : NamesAreStrings demo_ivy.clientList := by unfold NamesAreStrings; decide
  have hd : DistinctNames demo_ivy.clientList := by unfold DistinctNames; decide
  rw [h6, add_client_eq _ _ hs hd]
  have e : demo_ivy.clientList.map Client.name = [str "ivy"] := by decide
  have hl : ∃ x, demo_ivy.clientList = [x] ∧ x.name = str "ivy" := by
    cases hq : demo_ivy.clientList with
    | nil => rw [hq] at e; simp at e
    | cons x rest =>
      rw [hq] at e
      cases rest with
      | nil => exact ⟨x, rfl, by simpa using e⟩
      | cons y ys => simp at e
  obtain ⟨x, hx, hxn⟩ := hl
  have hc : candidate (str "ivy") 1 = str "ivy0" := by decide
  rw [hc] at h5
  have hgt : strcasecmp (str "ivy0") (str "ivy") > 0 := by decide
  rw [hx]
  simp [insert_before_first_not_smaller, h5, hxn, hgt]

/-- On `WHO:` the loop of `resolve_client_name` sends the string that
`sprintf` has written into `nameBuffer`. -/
theorem resolve_client_name_loop_who (fuel : Nat) (client : Client) (nameCounter : Int)
    (buffer : List Nat) (hr : (receive_message client buffer).1 ≠ 0)
    (hwho : strcmp (receive_message client buffer).2.2 (str "WHO:") = 0) :
    resolve_client_name_loop (fuel + 1) client nameCounter buffer =
      resolve_client_name_loop fuel
        (send_message (receive_message client buffer).2.1
          (some (nameBuffer_text (receive_message client buffer).2.1 nameCounter))).2.1
        nameCounter (receive_message client buffer).2.2 := by
  simp only [resolve_client_name_loop, if_neg hr, hwho, ↓reduceIte, nameBuffer_text]

/-- C11 (authentication) at the failing input: the server's secret is `pw`
and the peer answers `FOO:pw`, a line whose keyword is not `AUTH`;
`validate_authentication` replies `OK:` and returns 1 (the keyword only
decides whether the attempt is counted), where the claim requires 0 without
`OK:`.  With the keyword `AUTH` the secret `pw` is accepted and the secret
`pv` rejected, as claimed. -/
theorem C11_authentication_failing_input :
    (validate_authentication demo_empty (setup_client (str "FOO:pw\n") none (str "pw")) []).map
      (fun r => (r.1, r.2.1.stats, r.2.2.writeHandle.written)) =
        some (1, [0, 0, 0, 0, 0, 0], str "AUTH:\nOK:\n") ∧
    (validate_authentication demo_empty (setup_client (str "AUTH:pw\n") none (str "pw")) []).map
      (fun r => (r.1, r.2.1.stats, r.2.2.writeHandle.written)) =
        some (1, [0, 0, 0, 1, 0, 0], str "AUTH:\nOK:\n") ∧
    (validate_authentication demo_empty (setup_client (str "AUTH:pv\n") none (str "pw")) []).map
      (fun r => (r.1, r.2.1.stats, r.2.2.writeHandle.written)) =
        some (0, [0, 0, 0, 1, 0, 0], str "AUTH:\n") := by
  decide

/-- C13 (unknown commands are no-ops) at the failing input: the active member
`amy` sends `RDY:hello`; the keyword `RDY` is none of `SAY`, `KICK`, `LIST`,
`LEAVE`, but its hash is the constant `SAY`, so `handle_client_message` counts
a chat message and broadcasts `MSG:amy:hello` to both members, where the claim
requires that nothing changes. -/
theorem C13_unknown_command_failing_input :
    hash_input (some (str "RDY")) = some SAY ∧
    (handle_client_message demo_room 0 (str "RDY:hello")).map
      (fun r => (r.1, r.2.stats,
        r.2.clientList.map (fun m => (m.stats, m.writeHandle.written)))) =
      some (1, [1, 0, 0, 0, 0, 0],
        [([1, 0, 0], str "MSG:amy:hello\n"), ([0, 0, 0], str "MSG:amy:hello\n")]) ∧
    handle_client_message demo_room 0 (str "RDY:hello") =
      handle_client_message demo_room 0 (str "SAY:hello") := by
  decide

/-- C14 (classification) at the failing input: each of the ten keywords has
the hash of its constant, but so have other strings: `RDY` has the hash of
`SAY` and `KIBN` the hash of `KICK`. -/
theorem C14_classification_failing_input :
    (hash_input (some (str "AUTH")) = some AUTH ∧ hash_input (some (str "WHO")) = some WHO ∧
      hash_input (some (str "NAME")) = some NAME ∧
      hash_input (some (str "NAME_TAKEN")) = some NAME_TAKEN ∧
      hash_input (some (str "SAY")) = some SAY ∧ hash_input (some (str "MSG")) = some MSG ∧
      hash_input (some (str "KICK")) = some KICK ∧ hash_input (some (str "LIST")) = some LIST ∧
      hash_input (some (str "ENTER")) = some ENTER ∧
      hash_input (some (str "LEAVE")) = some LEAVE) ∧
    hash_input (some (str "RDY")) = some SAY ∧ str "RDY" ≠ str "SAY" ∧
    hash_input (some (str "KIBN")) = some KICK ∧ str "KIBN" ≠ str "KICK" := by
  decide

/-- C15, as stated, fails for the empty line: `send_message` returns 1 for it
and transmits a terminator. -/
theorem C15_send_message_result_counterexample :
    (send_message (demo_member (str "amy")) (some [])).1 = 1 ∧
    (send_message (demo_member (str "amy")) (some [])).2.1.writeHandle.written = [10] := by
  decide

/-- C15 (result of `send_message`, amended): `send_message` returns 0 and
leaves the client as it is when the line is absent (NULL); for every present
line, the empty line included, it returns 1, and the outbound stream is left
as it is when it is in an error state and otherwise gets the sanitised line
and one terminator appended. -/
theorem C15_send_message_result (client : Client) (message : List Nat) :
    send_message client none = (0, client, none) ∧
    (send_message client (some message)).1 = 1 ∧
    (send_message client (some message)).2.1.writeHandle.written =
      (if client.writeHandle.error then client.writeHandle.written
        else client.writeHandle.written ++ sanitise message ++ [10]) ∧
    (send_message client (some message)).2.1.writeHandle.error = client.writeHandle.error := by
  refine ⟨rfl, ?_, ?_, ?_⟩
  · rw [send_message_some]
  · rw [send_message_some]
    unfold deliver
    split <;> rfl
  · rw [send_message_some]
    unfold deliver
    split
    · rfl
    · rename_i h
      simp [h]

/-- C16 (`receive_message` strips the terminator) at the failing input: the
stream holds the empty line, a lone terminator; `receive_message` reports
success but the buffer holds the terminator, not the empty string, because
`strtok` finds no token and writes nothing.  A non-empty line is stripped. -/
theorem C16_receive_message_failing_input :
    receive_message (setup_client (str "\n") none (str "pw")) [] =
      (1, setup_client [] none (str "pw"), str "\n") ∧
    str "\n" ≠ ([] : List Nat) ∧
    receive_message (setup_client (str "hi\n") none (str "pw")) [] =
      (1, setup_client [] none (str "pw"), str "hi") := by
  decide

/-- C20 (no inbound line crashes the server) at the failing input: for the
line `:` (and for every line of colons only) `strtok` returns NULL as the
keyword, and both `validate_authentication` and `handle_client_message` hand
it to `hash_input`, whose `strlen(NULL)` ends the server process (`none`). -/
theorem C20_no_crash_failing_input :
    (strtok (str ":") [58]).1 = none ∧ hash_input none = none ∧
    validate_authentication demo_empty (setup_client (str ":\n") none (str "pw")) [] = none ∧
    handle_client_message demo_room 0 (str ":") = none ∧
    handle_client_message demo_room 0 (str ":::") = none := by
  decide

/-- C12 (name acceptance rule): in a registry of C-string names, when the
connection's stream holds the lines `NAME:<t>` of well-formed candidates that
all are names of members (exact comparison), then the line of a well-formed
candidate that is no member's name, `validate_client_name` answers each of the
former with `WHO:`, `NAME_TAKEN:` and the latter with `WHO:`, `OK:`, sets the
entity's name to that candidate verbatim, returns 1, leaves what follows
unread and the member list unchanged. -/
theorem C12_name_acceptance (s : Server) (c : Client) (stale later cand : List Nat)
    (taken : List (List Nat)) (hreg : NamesAreStrings s.clientList)
    (hread : c.readHandle = ⟨name_lines (taken ++ [cand]) ++ later, false⟩)
    (hwrite : c.writeHandle.error = false)
    (htaken : ∀ t ∈ taken, WellFormedName t ∧ t ∈ s.clientList.map Client.name)
    (hwf : WellFormedName cand) (hfree : cand ∉ s.clientList.map Client.name) :
    ∃ (s1 : Server) (c1 : Client), validate_client_name s c stale = some (1, s1, c1) ∧
      c1.name = cand ∧
      c1.writeHandle.written = c.writeHandle.written ++ name_replies taken.length ∧
      c1.readHandle.pending = later ∧ s1.clientList = s.clientList := by
  have hfuel : taken.length + 1 ≤ c.readHandle.pending.length + 1 := by
    rw [hread]
    have := name_lines_length (taken ++ [cand])
    simp only [List.length_append, List.length_singleton] at this ⊢
    omega
  obtain ⟨s1, c1, hrun, h1, h2, h3, h4, -⟩ :=
    validate_client_name_rec_lines s.clientList stale later cand hreg hwf hfree taken
      (c.readHandle.pending.length + 1) s c hfuel rfl hread hwrite htaken
  exact ⟨s1, c1, hrun, h2, by rw [h3], by rw [h4], h1⟩

/-- C12 in the room of `amy` and `bob`: `bob` is answered `NAME_TAKEN:`, then
`Bob` is accepted although `bob` is registered. -/
theorem C12_name_acceptance_witness :
    ∃ (s1 : Server) (c1 : Client),
      validate_client_name demo_room
        (setup_client (str "NAME:bob\nNAME:Bob\nSAY:hi\n") none (str "pw")) [] =
          some (1, s1, c1) ∧
      c1.name = str "Bob" ∧
      c1.writeHandle.written = str "WHO:\nNAME_TAKEN:\nWHO:\nOK:\n" ∧
      c1.readHandle.pending = str "SAY:hi\n" ∧ s1.clientList = demo_room.clientList := by
  obtain ⟨s1, c1, h1, h2, h3, h4, h5⟩ :=
    C12_name_acceptance demo_room
      (setup_client (str "NAME:bob\nNAME:Bob\nSAY:hi\n") none (str "pw")) [] (str "SAY:hi\n")
      (str "Bob") [str "bob"] (by unfold NamesAreStrings; decide) (by decide) (by decide)
      (by unfold WellFormedName; decide) (by unfold WellFormedName; decide) (by decide)
  exact ⟨s1, c1, h1, h2, by rw [h3]; decide, h4, h5⟩

/-- C17, as stated, fails on its own example: adding `bob` to the registry
holding `Bob` places it before `Bob`, because `strcasecmp` of the two names is
0, which is not greater than 0. -/
theorem C17_insertion_position_counterexample :
    strcasecmp (str "bob") (str "Bob") = 0 ∧
    (add_client [demo_member (str "Bob")] (demo_member (str "bob"))).map Client.name =
      [str "bob", str "Bob"] := by
  decide

/-- C17 (insertion position, amended): for every registry of pairwise
distinct names, `add_client` returns the registry with the newcomer inserted
after the leading members whose names sort strictly before the newcomer's and
immediately before the first member whose name does not (it sorts after the
newcomer's or is equal to it ignoring case), appended if there is none; the
existing members keep their relative order.  When no name is equal to the
newcomer's ignoring case, that member is the first whose name sorts after the
newcomer's. -/
theorem C17_insertion_position (l : List Client) (newClient : Client)
    (hstr : NamesAreStrings l) (hdistinct : DistinctNames l) :
    ∃ before after, l = before ++ after ∧
      add_client l newClient = before ++ newClient :: after ∧
      (∀ x ∈ before, strcasecmp newClient.name x.name > 0 ∧
        strcasecmp x.name newClient.name ≤ 0) ∧
      (∀ x, after.head? = some x → strcasecmp newClient.name x.name ≤ 0 ∧
        (strcasecmp newClient.name x.name ≠ 0 → strcasecmp x.name newClient.name > 0)) := by
  obtain ⟨before, after, e, hi, hb, ha⟩ := insert_split newClient l
  refine ⟨before, after, e, ?_, ?_, ?_⟩
  · rw [add_client_eq l newClient hstr hdistinct, hi]
  · intro x hx
    exact ⟨hb x hx, strcasecmp_flip (hb x hx)⟩
  · intro x hx
    refine ⟨ha x hx, fun hne => strcasecmp_neg ?_⟩
    have := ha x hx
    omega

/-- C17 for adding `bob` to the registry of `amy` and `cid`, and to the
registry holding `Bob`. -/
theorem C17_insertion_position_witness :
    (∃ before after, [demo_member (str "amy"), demo_member (str "cid")] = before ++ after ∧
      add_client [demo_member (str "amy"), demo_member (str "cid")] (demo_member (str "bob")) =
        before ++ demo_member (str "bob") :: after ∧
      (∀ x ∈ before, strcasecmp (demo_member (str "bob")).name x.name > 0 ∧
        strcasecmp x.name (demo_member (str "bob")).name ≤ 0) ∧
      (∀ x, after.head? = some x → strcasecmp (demo_member (str "bob")).name x.name ≤ 0 ∧
        (strcasecmp (demo_member (str "bob")).name x.name ≠ 0 →
          strcasecmp x.name (demo_member (str "bob")).name > 0))) ∧
    add_client [demo_member (str "amy"), demo_member (str "cid")] (demo_member (str "bob")) =
      [demo_member (str "amy"), demo_member (str "bob"), demo_member (str "cid")] :=
  ⟨C17_insertion_position [demo_member (str "amy"), demo_member (str "cid")]
      (demo_member (str "bob")) (by unfold NamesAreStrings; decide)
      (by unfold DistinctNames; decide), by decide⟩

/-- C18 (removal is idempotent and exact): for every registry of pairwise
distinct names and every name `n`, `remove_client` returns the members whose
name is not `n`, in their previous order; it returns the registry unchanged
when no member is named `n` and when the name is absent (NULL); removing twice
is the same as removing once. -/
theorem C18_removal (l : List Client) (n : List Nat)
    (hstr : NamesAreStrings l) (hdistinct : DistinctNames l) (hn : 0 ∉ n) :
    remove_client l (some n) = l.filter (fun c => decide (c.name ≠ n)) ∧
    (n ∉ l.map Client.name → remove_client l (some n) = l) ∧
    remove_client l none = l ∧
    remove_client (remove_client l (some n)) (some n) = remove_client l (some n) ∧
    remove_client (remove_client l none) none = remove_client l none := by
  have hf := remove_client_filter l n hstr hdistinct hn
  have hsub := registry_sublist (filter_names_sub l n)
  refine ⟨hf, ?_, rfl, ?_, rfl⟩
  · intro hnot
    rw [hf, List.filter_eq_self]
    intro x hx
    have : x.name ≠ n := fun e => hnot (e ▸ List.mem_map_of_mem _ hx)
    simpa using this
  · rw [hf, remove_client_filter _ n (hsub.1 hstr) (hsub.2.1 hdistinct) hn, List.filter_filter]
    simp

/-- C18 for removing `amy`, and the unregistered `zed`, from the room of `amy`
and `bob`. -/
theorem C18_removal_witness :
    remove_client demo_room.clientList (some (str "amy")) = [demo_member (str "bob")] ∧
    remove_client demo_room.clientList (some (str "zed")) = demo_room.clientList ∧
    remove_client (remove_client demo_room.clientList (some (str "amy"))) (some (str "amy")) =
      remove_client demo_room.clientList (some (str "amy")) := by
  have h := C18_removal demo_room.clientList (str "amy") (by unfold NamesAreStrings; decide)
    (by unfold DistinctNames; decide) (by decide)
  have h2 := C18_removal demo_room.clientList (str "zed") (by unfold NamesAreStrings; decide)
    (by unfold DistinctNames; decide) (by decide)
  exact ⟨by rw [h.1]; decide, h2.2.1 (by decide), h.2.2.2.1⟩

/-- C19, as stated, fails: `listen_to_client` adds the newcomer to the
registry before it broadcasts, so the newcomer receives `ENTER:` with its own
name.  A peer that joins the room of `ivy` as `ivy0` has, after the replies of
the handshake, the line `ENTER:ivy0` on its own stream. -/
theorem C19_join_announcement_counterexample :
    (listen_to_client_join demo_ivy
        (setup_client (str "AUTH:pw\nNAME:ivy0\n") none (str "pw")) [] []).map
      (fun r => (r.1, r.2.clientList.map (fun m => (m.name, m.writeHandle.written)))) =
    some (true, [(str "ivy", str "AUTH:\nOK:\nWHO:\nOK:\nENTER:ivy\nENTER:ivy0\n"),
      (str "ivy0", str "AUTH:\nOK:\nWHO:\nOK:\nENTER:ivy0\n")]) := by
  decide

/-- C19 (join announcement, amended): when a connection whose active flag is
set completes authentication and name negotiation with name `n` in a registry
of pairwise distinct names, `listen_to_client` registers the newcomer and then
calls `send_message` with `ENTER:n` once for every active member of the new
registry in its order, the newcomer included: every previous member and the
newcomer keep their place, the stream of an active one whose stream is not in
an error state is extended by the line `ENTER:n` with control bytes replaced by
`?` and one terminator, and nothing else changes.  The line is `ENTER:n`
verbatim when `n` holds only bytes 32 to 127. -/
theorem C19_join_announcement (s : Server) (myClient : Client)
    (staleAuth staleName n : List Nat)
    (hstr : NamesAreStrings s.clientList) (hdistinct : DistinctNames s.clientList)
    (hact : myClient.isCommunicating ≠ 0)
    (hok : ∃ a s1 c1 v s2 c2,
      validate_authentication s myClient staleAuth = some (a, s1, c1) ∧ a ≠ 0 ∧
      validate_client_name s1 c1 staleName = some (v, s2, c2) ∧ v ≠ 0 ∧ c2.name = n) :
    ∃ (s3 : Server) (newcomer : Client) (before after : List Client),
      listen_to_client_join s myClient staleAuth staleName = some (true, s3) ∧
      newcomer.name = n ∧ newcomer.isCommunicating ≠ 0 ∧
      s.clientList = before ++ after ∧
      add_client s.clientList newcomer = before ++ newcomer :: after ∧
      (broadcast_loop (before ++ newcomer :: after) (str "ENTER:" ++ n)).2.2 =
        ((before ++ newcomer :: after).filter
          (fun m => decide (m.isCommunicating ≠ 0))).map Client.name ∧
      s3.clientList =
        before.map (fun m => if m.isCommunicating ≠ 0 then
            deliver m (sanitise (str "ENTER:" ++ n)) else m) ++
          deliver newcomer (sanitise (str "ENTER:" ++ n)) ::
          after.map (fun m => if m.isCommunicating ≠ 0 then
            deliver m (sanitise (str "ENTER:" ++ n)) else m) ∧
      (newcomer.writeHandle.error = false →
        (deliver newcomer (sanitise (str "ENTER:" ++ n))).writeHandle.written =
          newcomer.writeHandle.written ++ sanitise (str "ENTER:" ++ n) ++ [10]) ∧
      ((∀ b ∈ n, 32 ≤ b ∧ b < 128) → sanitise (str "ENTER:" ++ n) = str "ENTER:" ++ n) := by
  obtain ⟨a, s1, c1, v, s2, c2, hauth, ha, hname, hv, hn⟩ := hok
  have e1 := validate_authentication_clientList hauth
  have e2 := (validate_client_name_rec_spec _ _ _ _ _ _ _ hname).1
  have f1 := validate_authentication_isCommunicating hauth
  have f2 := validate_client_name_rec_isCommunicating _ _ _ _ _ _ _ hname
  have hact2 : c2.isCommunicating ≠ 0 := by rw [f2, f1]; exact hact
  have hlist : s2.clientList = s.clientList := by rw [e2, e1]
  obtain ⟨before, after, hsplit, hins, -, -⟩ := insert_split c2 s.clientList
  have hadd : add_client s.clientList c2 = before ++ c2 :: after := by
    rw [add_client_eq _ _ hstr hdistinct, hins]
  have hjoin : ∃ s3 : Server,
      listen_to_client_join s myClient staleAuth staleName = some (true, s3) ∧
      s3.clientList = (broadcast_loop (add_client s2.clientList c2) (str "ENTER:" ++ n)).1 := by
    unfold listen_to_client_join
    simp only [hauth, if_neg ha, hname, if_neg hv]
    unfold broadcast_to_clients
    rw [hn, handle_server_message_ENTER]
    exact ⟨_, rfl, rfl⟩
  obtain ⟨s3, hs3, hl3⟩ := hjoin
  refine ⟨s3, c2, before, after, hs3, hn, hact2, hsplit, hadd, broadcast_loop_order _ _, ?_,
    fun h => deliver_written _ _ h, ?_⟩
  · rw [hl3]
    simp only [broadcast_loop_clients, hlist, hadd, List.map_append, List.map_cons,
      if_pos hact2]
  · intro hb
    apply sanitise_printable
    intro c hc
    rcases List.mem_append.1 hc with h | h
    · have hk : ∀ b ∈ str "ENTER:", 32 ≤ b ∧ b < 128 := by decide
      exact Or.inr (hk c h)
    · exact Or.inr (hb c h)

/-- C19 for the peer that joins the room of `ivy` as `ivy0`. -/
theorem C19_join_announcement_witness :
    ∃ (s3 : Server) (newcomer : Client) (before after : List Client),
      listen_to_client_join demo_ivy
        (setup_client (str "AUTH:pw\nNAME:ivy0\n") none (str "pw")) [] [] = some (true, s3) ∧
      newcomer.name = str "ivy0" ∧ newcomer.isCommunicating ≠ 0 ∧
      demo_ivy.clientList = before ++ after ∧
      add_client demo_ivy.clientList newcomer = before ++ newcomer :: after ∧
      (broadcast_loop (before ++ newcomer :: after) (str "ENTER:" ++ str "ivy0")).2.2 =
        ((before ++ newcomer :: after).filter
          (fun m => decide (m.isCommunicating ≠ 0))).map Client.name ∧
      s3.clientList =
        before.map (fun m => if m.isCommunicating ≠ 0 then
            deliver m (sanitise (str "ENTER:" ++ str "ivy0")) else m) ++
          deliver newcomer (sanitise (str "ENTER:" ++ str "ivy0")) ::
          after.map (fun m => if m.isCommunicating ≠ 0 then
            deliver m (sanitise (str "ENTER:" ++ str "ivy0")) else m) ∧
      (newcomer.writeHandle.error = false →
        (deliver newcomer (sanitise (str "ENTER:" ++ str "ivy0"))).writeHandle.written =
          newcomer.writeHandle.written ++ sanitise (str "ENTER:" ++ str "ivy0") ++ [10]) ∧
      ((∀ b ∈ str "ivy0", 32 ≤ b ∧ b < 128) →
        sanitise (str "ENTER:" ++ str "ivy0") = str "ENTER:" ++ str "ivy0") :=
  C19_join_announcement demo_ivy (setup_client (str "AUTH:pw\nNAME:ivy0\n") none (str "pw"))
    [] [] (str "ivy0") (by unfold NamesAreStrings; decide) (by unfold DistinctNames; decide)
    (by decide) ⟨1, _, _, 1, _, _, rfl, by decide, rfl, by decide, rfl⟩

/-- C21 (client chat wrapping) at the failing input: the user enters the
empty line, a lone terminator; `handle_user_message` returns 0 but rewrites the
buffer to `SAY:` followed by the terminator, not to `SAY:`, because `strtok`
finds no token in `messageCopy` and leaves it as it is, and the test meant for
this case compares the array with `NULL`.  The user thread then sends `SAY:`
and an empty line.  A non-empty line is wrapped without its terminator. -/
theorem C21_chat_wrapping_failing_input :
    handle_user_message (str "\n") = some (0, str "SAY:\n") ∧
    str "SAY:\n" ≠ str "SAY:" ∧
    (listen_to_user (setup_client [] (some (str "ivy")) (str "AUTH:pw")) ⟨str "\n", false⟩).map
      (fun r => r.2.1.writeHandle.written) = some (str "SAY:\n\n") ∧
    handle_user_message (str "hello\n") = some (0, str "SAY:hello") := by
  decide

/-- C22 (client leave short-circuit) at the failing input: the user enters
`*LEAVE:`; `handle_user_message` rewrites the buffer to `LEAVE:` but returns 0,
not `LEAVE`, because it hashes the whole command, colon included, and the hash
of `LEAVE:` is 26851.  The user thread sends `LEAVE:` and goes on reading (it
returns at the end of the input without ending the process); once the server
has closed the connection the server thread ends the process with status 2.
Only `*LEAVE`, without the colon, returns `LEAVE` and ends the process with
status 0, and the server treats the line `LEAVE` as a departure. -/
theorem C22_leave_short_circuit_failing_input :
    handle_user_message (str "*LEAVE:\n") = some (0, str "LEAVE:") ∧
    hash_input (some (str "LEAVE:")) = some 26851 ∧
    (listen_to_user (setup_client [] (some (str "ivy")) (str "AUTH:pw"))
        ⟨str "*LEAVE:\n", false⟩).map (fun r => (r.1, r.2.1.writeHandle.written)) =
      some (Ending.returns 0, str "LEAVE:\n") ∧
    (listen_to_server (setup_client [] (some (str "ivy")) (str "AUTH:pw")) []).map
      (fun r => r.1) = some (Ending.exits COMMS []) ∧
    handle_user_message (str "*LEAVE\n") = some (LEAVE, str "LEAVE") ∧
    (listen_to_user (setup_client [] (some (str "ivy")) (str "AUTH:pw"))
        ⟨str "*LEAVE\n", false⟩).map (fun r => (r.1, r.2.1.writeHandle.written)) =
      some (Ending.exits NORMAL [], str "LEAVE\n") ∧
    (handle_client_message demo_room 0 (str "LEAVE")).map (fun r => r.1) = some LEAVE := by
  decide

/-- C23 (client remembers its final name) at the failing input: the client
`ivy` is answered `WHO:`, `NAME_TAKEN:`, `WHO:`, `OK:` (one refusal, k = 1);
it proposes `ivy` and then `ivy0`, and `resolve_client_name` returns 1 with the
client's name still `ivy`, not `ivy0`: the statement that updates the name
stands after the `while (1)` loop, which is left only by `return 1`. -/
theorem C23_final_name_failing_input :
    resolve_client_name
        (setup_client (str "WHO:\nNAME_TAKEN:\nWHO:\nOK:\n") (some (str "ivy")) (str "AUTH:pw"))
        [] =
      some (Ending.returns 1,
        { name := str "ivy", authString := str "AUTH:pw", readHandle := ⟨[], false⟩,
          writeHandle := ⟨str "NAME:ivy\nNAME:ivy0\n", false⟩, stats := [0, 0, 0],
          isCommunicating := 1 }) ∧
    str "ivy" ≠ str "ivy0" := by
  decide

/-- C24 (client exit status on rejected authentication) at the failing input:
the server asks `AUTH:` and, the secret being wrong, closes the connection
without `OK:`; the client answers with its secret, finds the end of the stream
and ends inside `authenticate_client` with `Communications error` and status 2
(`COMMS`), not 4 (`FAILAUTH`).  The server side of the same exchange is
`validate_authentication` returning 0 after `AUTH:`. -/
theorem C24_rejected_authentication_failing_input :
    (validate_authentication demo_empty (setup_client (str "AUTH:nope\n") none (str "pw")) []).map
      (fun r => (r.1, r.2.2.writeHandle.written)) = some (0, str "AUTH:\n") ∧
    (client_main_handshake (setup_client (str "AUTH:\n") (some (str "ivy")) (str "AUTH:nope"))
        [] []).map (fun r => (r.1, r.2.writeHandle.written)) =
      some (Ending.exits COMMS (str "Communications error\n"), str "AUTH:nope\n") ∧
    COMMS = 2 ∧ FAILAUTH = 4 := by
  decide

/-- C25, as stated, fails in the handshake: `initialise_client` takes
`clientAccess`, which `listen_to_client` releases only after
`validate_authentication` and `validate_client_name`, and both call
`add_to_server_stats`, which takes `statsAccess`.  For the first peer of a
server, sending `AUTH:pw` and `NAME:ivy`, `statsAccess` is taken twice while
`clientAccess` is held. -/
theorem C25_lock_independence_counterexample :
    listen_to_client_join_locks demo_empty
        (setup_client (str "AUTH:pw\nNAME:ivy\n") none (str "pw")) [] [] =
      some [LockEvent.take Lock.clientAccess,
        LockEvent.take Lock.statsAccess, LockEvent.release Lock.statsAccess,
        LockEvent.take Lock.statsAccess, LockEvent.release Lock.statsAccess,
        LockEvent.release Lock.clientAccess] ∧
    held_together (false, false)
      [LockEvent.take Lock.clientAccess,
        LockEvent.take Lock.statsAccess, LockEvent.release Lock.statsAccess,
        LockEvent.take Lock.statsAccess, LockEvent.release Lock.statsAccess,
        LockEvent.release Lock.clientAccess] = true := by
  decide

/-- C25 (lock order, amended): on every execution path of a connection
handler and of the statistics reporter `clientAccess` is never taken while
`statsAccess` is held, and every phase ends with both locks released.  In the
handshake `statsAccess` is taken and released inside the region of
`clientAccess`, once for every counted attempt: the calls are the take of
`clientAccess`, `count` pairs on `statsAccess`, the release of `clientAccess`.
In relaying (`handle_client_message`), in the departure and in
`print_server_stats` the two locks are never held together. -/
theorem C25_lock_independence (server room : Server) (myClient : Client)
    (staleAuth staleName message : List Nat) (position : Nat)
    (joinCalls messageCalls : List LockEvent)
    (hjoin : listen_to_client_join_locks server myClient staleAuth staleName = some joinCalls)
    (hmessage : handle_client_message_locks room position message = some messageCalls) :
    (∃ count, joinCalls = LockEvent.take Lock.clientAccess :: stats_pairs count ++
      [LockEvent.release Lock.clientAccess] ∧
      held_together (false, false) joinCalls = decide (0 < count)) ∧
    client_taken_under_stats (false, false) joinCalls = false ∧
    locks_after (false, false) joinCalls = (false, false) ∧
    held_together (false, false) messageCalls = false ∧
    client_taken_under_stats (false, false) messageCalls = false ∧
    locks_after (false, false) messageCalls = (false, false) ∧
    held_together (false, false) listen_to_client_leave_locks = false ∧
    locks_after (false, false) listen_to_client_leave_locks = (false, false) ∧
    held_together (false, false) print_server_stats_locks = false ∧
    locks_after (false, false) print_server_stats_locks = (false, false) := by
  obtain ⟨count, hshape⟩ := listen_to_client_join_locks_shape hjoin
  have hmsg : held_together (false, false) messageCalls = false ∧
      client_taken_under_stats (false, false) messageCalls = false ∧
      locks_after (false, false) messageCalls = (false, false) := by
    unfold handle_client_message_locks at hmessage
    split at hmessage
    · simp at hmessage
    · split at hmessage
      · simp only [Option.some.injEq] at hmessage
        subst hmessage
        decide
      · simp only at hmessage
        split at hmessage
        · simp at hmessage
        · split at hmessage
          · simp only [Option.some.injEq] at hmessage
            subst hmessage
            decide
          · split at hmessage
            · simp only [Option.some.injEq] at hmessage
              subst hmessage
              have hk : ∀ name, kick_client_locks name = [] ∨ kick_client_locks name =
                  [LockEvent.take Lock.clientAccess, LockEvent.release Lock.clientAccess] := by
                intro name
                cases name with
                | none => exact Or.inl rfl
                | some _ => exact Or.inr rfl
              rcases hk (strtok (strtok message [58]).2 [10]).1 with e | e <;>
              · rw [e]
                decide
            · split at hmessage
              · simp only [Option.some.injEq] at hmessage
                subst hmessage
                decide
              · split at hmessage <;>
                · simp only [Option.some.injEq] at hmessage
                  subst hmessage
                  decide
  refine ⟨⟨count, hshape, ?_⟩, ?_, ?_, hmsg.1, hmsg.2.1, hmsg.2.2, by decide, by decide,
    by decide, by decide⟩
  · rw [hshape]
    cases count with
    | zero => decide
    | succ n =>
      have := held_together_stats_pairs_held n [LockEvent.release Lock.clientAccess]
      simp only [held_together, lock_step, Bool.and_self, Bool.false_or, this]
      simp
  · rw [hshape]
    simp only [client_taken_under_stats, lock_step, Bool.and_false, Bool.false_or]
    exact (client_taken_under_stats_pairs count true _).trans (by decide)
  · rw [hshape]
    simp only [locks_after, List.foldl_cons, lock_step]
    exact (locks_after_stats_pairs count true _).trans (by decide)

/-- C25 for the handshake of the first peer of a server and for a chat line
of `amy` in the room of `amy` and `bob`. -/
theorem C25_lock_independence_witness :
    (∃ count, [LockEvent.take Lock.clientAccess,
        LockEvent.take Lock.statsAccess, LockEvent.release Lock.statsAccess,
        LockEvent.take Lock.statsAccess, LockEvent.release Lock.statsAccess,
        LockEvent.release Lock.clientAccess] =
      LockEvent.take Lock.clientAccess :: stats_pairs count ++
        [LockEvent.release Lock.clientAccess] ∧
      held_together (false, false) [LockEvent.take Lock.clientAccess,
        LockEvent.take Lock.statsAccess, LockEvent.release Lock.statsAccess,
        LockEvent.take Lock.statsAccess, LockEvent.release Lock.statsAccess,
        LockEvent.release Lock.clientAccess] = decide (0 < count)) ∧
    held_together (false, false)
      [LockEvent.take Lock.statsAccess, LockEvent.release Lock.statsAccess,
        LockEvent.take Lock.clientAccess, LockEvent.release Lock.clientAccess] = false :=
  have h := C25_lock_independence demo_empty demo_room
    (setup_client (str "AUTH:pw\nNAME:ivy\n") none (str "pw")) [] [] (str "SAY:hi") 0
    [LockEvent.take Lock.clientAccess,
      LockEvent.take Lock.statsAccess, LockEvent.release Lock.statsAccess,
      LockEvent.take Lock.statsAccess, LockEvent.release Lock.statsAccess,
      LockEvent.release Lock.clientAccess]
    [LockEvent.take Lock.statsAccess, LockEvent.release Lock.statsAccess,
      LockEvent.take Lock.clientAccess, LockEvent.release Lock.clientAccess]
    (by decide) (by decide)
  ⟨h.1, h.2.2.2.1⟩

/-- C27 (sanitisation touches nothing else) at the failing input: the line
`caf` followed by the two bytes 195, 169 (the UTF-8 encoding of an accented
letter); read through a `char` the two bytes have the values -61 and -87,
which are below 32, so `send_message` transmits `caf??`.  Bytes 32 to 127 and
the terminator are transmitted unchanged. -/
theorem C27_sanitisation_frame_failing_input :
    charVal 195 = -61 ∧ charVal 169 = -87 ∧
    sanitise [99, 97, 102, 195, 169] = str "caf??" ∧
    (send_message (demo_member (str "amy")) (some [99, 97, 102, 195, 169])).2.1.writeHandle.written =
      str "caf??\n" ∧
    sanitise [32, 10, 126, 127] = [32, 10, 126, 127] := by
  decide

end Chatroom
